import Mathlib

/-!
# zor: a shallow embedding of `src/main.c`

Conventions of the embedding.

* A C `int` is an `Int`.  Coordinates, lengths and indices are bounded by the
  size of the buffers they address and are not wrapped; the counter `dirty`,
  which grows with every change, is stored modulo `2^32` in the range of `int`
  (`wrapInt`).  A byte (`char`) is a `Nat` below 256; a key event (the `int`
  returned by `editorReadKey`) is an `Int`.
* A heap buffer together with its length field is one list: `chars` with
  `size`, `render` with `rsize`, `row` with `num_rows`.  The NUL terminator the
  C code keeps after `chars` and `render` is not stored in the list.
* The global `struct editorConf editorConf` is passed explicitly.  The `static`
  locals of `editorExecuteCommand`, `editorProccessKeypress` and
  `editorFindCallback` are further fields of that record, and so are the key
  events `editorReadKey` has not delivered yet and the answers of the file
  system.
* A read or write outside a buffer is undefined behaviour: the function
  returns `none` (`Run.undefined`).
* Terminal output (`write(STDOUT_FILENO, ..)`), `statusmsg_time` and the
  termios state do not influence any other field and are left out of the
  state.  The lines `editorDrawRows` composes are a function of the state of
  their own (`editorDrawRows`, with `drawLine` for the body of its loop), as is
  the cursor directive of the frame.
-/

namespace Zor

/-! ## Defines and enumerations (lines 19-50) -/

def ZOR_TAB_STOP : Nat := 8
def ZOR_QUIT_TIMES : Int := 1
def ZOR_COMMAND_BUFFER_SIZE : Nat := 256

/-- The macro `CTRL_KEY(k)`, that is `(k) & 0x1f`. -/
def CTRL_KEY (k : Nat) : Int := ((k &&& 0x1f : Nat) : Int)

def BACKSPACE : Int := 127
def ARROW_LEFT : Int := 1000
def ARROW_RIGHT : Int := 1001
def ARROW_UP : Int := 1002
def ARROW_DOWN : Int := 1003
def DEL_KEY : Int := 1004
def HOME_KEY : Int := 1005
def END_KEY : Int := 1006
def PAGE_UP : Int := 1007
def PAGE_DOWN : Int := 1008

def HL_NORMAL : Nat := 0
def HL_STRING : Nat := 1
def HL_NUMBER : Nat := 2
def HL_MATCH : Nat := 3

def HL_HIGHLIGHT_NUMBERS : Nat := 1 <<< 0
def HL_HIGHLIGHT_STRINGS : Nat := 1 <<< 1

inductive editorModes where
  | INSERT_MODE
  | NORMAL_MODE
  | COMMAND_MODE
  deriving DecidableEq, Repr

open editorModes

/-! ## Data (lines 52-104) -/

/-- The record `struct editorSyntax`; `filematch` is the NULL-terminated array
of patterns without its terminator. -/
structure editorSyntax where
  filetype : List Nat
  filematch : List (List Nat)
  flags : Nat
  deriving DecidableEq, Repr

/-- The record `struct editorRow`: `size = chars.length` and
`rsize = render.length`. -/
structure editorRow where
  chars : List Nat
  render : List Nat
  hl : List Nat
  deriving DecidableEq, Repr

def editorRow.size (row : editorRow) : Int := row.chars.length

def editorRow.rsize (row : editorRow) : Int := row.render.length

/-- The bytes of a string literal of the source. -/
def bytes (s : String) : List Nat := s.toList.map Char.toNat

/-- The array `C_HL_extensions` = `{".c", ".h", ".cpp", NULL}`. -/
def C_HL_extensions : List (List Nat) := [bytes ".c", bytes ".h", bytes ".cpp"]

/-- The array `HLDB`.  Its flags are written with the logical
`HL_HIGHLIGHT_NUMBERS || HL_HIGHLIGHT_STRINGS`, which is 1 when either operand
is non-zero. -/
def HLDB : List editorSyntax :=
  [ { filetype := bytes "c",
      filematch := C_HL_extensions,
      flags := if HL_HIGHLIGHT_NUMBERS ≠ 0 ∨ HL_HIGHLIGHT_STRINGS ≠ 0 then 1 else 0 } ]

/-! ## `<ctype.h>` and `<string.h>` in the C locale -/

def isdigit (c : Nat) : Bool := decide (48 ≤ c ∧ c ≤ 57)

def isspace (c : Nat) : Bool := decide (c = 32 ∨ (9 ≤ c ∧ c ≤ 13))

/-- The test `isprint(c)` on a key event; a value that is no ASCII character is
not printable. -/
def isprint (c : Int) : Bool := decide (32 ≤ c ∧ c ≤ 126)

/-- The test `iscntrl(c)` on a key event. -/
def iscntrl (c : Int) : Bool := decide ((0 ≤ c ∧ c < 32) ∨ c = 127)

/-- The byte a `char` holds after `chars[pos] = c` with an `int c`. -/
def toByte (c : Int) : Nat := (c % 256).toNat

/-- The C string stored in a buffer: its bytes before the first NUL. -/
def cstr (buf : List Nat) : List Nat := buf.takeWhile (fun b => b ≠ 0)

/-- The result of `strstr(hay, needle)` on byte lists holding no NUL: the
offset of the first occurrence of `needle`, `none` for `NULL`. -/
def strstrFrom : List Nat → List Nat → Nat → Option Nat
  | [], needle, off => if needle = [] then some off else none
  | h :: hs, needle, off =>
    if needle.isPrefixOf (h :: hs) then some off else strstrFrom hs needle (off + 1)

/-- The call `strstr(hay, needle)` on two NUL-terminated strings. -/
def strstr (hay needle : List Nat) : Option Nat :=
  strstrFrom (cstr hay) (cstr needle) 0

/-- The result of `strrchr(s, '.')`-style search for a non-NUL byte: the suffix
of the string that starts at the last occurrence of `c`, `none` for `NULL`. -/
def strrchrFrom : List Nat → Nat → Option (List Nat)
  | [], _ => none
  | h :: hs, c =>
    match strrchrFrom hs c with
    | some t => some t
    | none => if h = c then some (h :: hs) else none

def strrchr (s : List Nat) (c : Nat) : Option (List Nat) := strrchrFrom (cstr s) c

/-! ## Syntax highlighter (lines 255-349) -/

/-- The function `is_separator`; the list holds the codes of the sixteen
punctuation bytes of the string handed to `strchr`. -/
def is_separator (c : Nat) : Bool :=
  isspace c || decide (c = 0) ||
    decide (c ∈ [44, 46, 40, 41, 43, 45, 47, 42, 61, 126, 37, 60, 62, 91, 93, 59])

/-- The `while (i < row->rsize)` loop of `editorUpdateSyntax` on the bytes
`render[i..]`.  `prev_hl` is `hl[i - 1]` (`HL_NORMAL` at `i = 0`); the result
is `hl[i..]`. -/
def editorUpdateSyntaxLoop (flags : Nat) : List Nat → Bool → Nat → Nat → List Nat
  | [], _, _, _ => []
  | c :: rest, prev_sep, in_string, prev_hl =>
    if flags &&& HL_HIGHLIGHT_STRINGS ≠ 0 ∧ in_string ≠ 0 then
      HL_STRING ::
        editorUpdateSyntaxLoop flags rest true (if c = in_string then 0 else in_string) HL_STRING
    else if flags &&& HL_HIGHLIGHT_STRINGS ≠ 0 ∧ (c = 34 ∨ c = 39) then
      HL_STRING :: editorUpdateSyntaxLoop flags rest prev_sep c HL_STRING
    else if flags &&& HL_HIGHLIGHT_NUMBERS ≠ 0 ∧
        ((isdigit c = true ∧ (prev_sep = true ∨ prev_hl = HL_NUMBER)) ∨
          (c = 46 ∧ prev_hl = HL_NUMBER)) then
      HL_NUMBER :: editorUpdateSyntaxLoop flags rest false in_string HL_NUMBER
    else
      HL_NORMAL :: editorUpdateSyntaxLoop flags rest (is_separator c) in_string HL_NORMAL

/-- The function `editorUpdateSyntax`, with the global `editorConf.syntax` as
an argument. -/
def editorUpdateSyntax (syn : Option editorSyntax) (row : editorRow) : editorRow :=
  match syn with
  | none => { row with hl := List.replicate row.render.length HL_NORMAL }
  | some s => { row with hl := editorUpdateSyntaxLoop s.flags row.render true 0 HL_NORMAL }

/-- One step of the column counter shared by the two coordinate loops:
`if (c == '\t') rx += (ZOR_TAB_STOP - 1) - (rx % ZOR_TAB_STOP); rx++;`. -/
def rxStep (c : Nat) (rx : Int) : Int :=
  (if c = 9 then rx + (((ZOR_TAB_STOP : Int) - 1) - rx % (ZOR_TAB_STOP : Int)) else rx) + 1

/-- The loop of `editorRowCxToRx` with `n` iterations left on `chars[j..]`.
Index `size` holds the NUL terminator; an index beyond it is outside the
buffer. -/
def editorRowCxToRxLoop : List Nat → Nat → Int → Option Int
  | _, 0, rx => some rx
  | [], n + 1, rx => if n = 0 then some (rxStep 0 rx) else none
  | c :: cs, n + 1, rx => editorRowCxToRxLoop cs n (rxStep c rx)

def editorRowCxToRx (row : editorRow) (cx : Int) : Option Int :=
  editorRowCxToRxLoop row.chars cx.toNat 0

/-- The loop of `editorRowRxToCx` on `chars[cx..]`. -/
def editorRowRxToCxLoop : List Nat → Int → Int → Int → Int
  | [], cx, _, _ => cx
  | c :: cs, cx, curr_rx, rx =>
    if rxStep c curr_rx > rx then cx else editorRowRxToCxLoop cs (cx + 1) (rxStep c curr_rx) rx

def editorRowRxToCx (row : editorRow) (rx : Int) : Int :=
  editorRowRxToCxLoop row.chars 0 0 rx

/-- The inner loop `while (idx % ZOR_TAB_STOP != 0) row->render[idx++] = ' ';`
with `idx = render.length`; `fuel` bounds the number of iterations. -/
def tabFill : Nat → List Nat → List Nat
  | 0, render => render
  | fuel + 1, render =>
    if render.length % ZOR_TAB_STOP ≠ 0 then tabFill fuel (render ++ [32]) else render

/-- The second loop of `editorUpdateRow` on `chars[j..]`, where `render` holds
the `idx` bytes written so far. -/
def editorUpdateRowLoop : List Nat → List Nat → List Nat
  | [], render => render
  | c :: cs, render =>
    if c = 9 then editorUpdateRowLoop cs (tabFill ZOR_TAB_STOP (render ++ [32]))
    else editorUpdateRowLoop cs (render ++ [c])

/-- The function `editorUpdateRow`, with the global `editorConf.syntax` as an
argument. -/
def editorUpdateRow (syn : Option editorSyntax) (row : editorRow) : editorRow :=
  editorUpdateSyntax syn { row with render := editorUpdateRowLoop row.chars [] }

/-! ## Editor state -/

/-- The answer of the file system to the three calls of `editorSave`. -/
inductive ioResult where
  | open_fails
  | ftruncate_fails
  | write_fails
  | ok
  deriving DecidableEq, Repr

/-- The global `struct editorConf editorConf` (`num_rows = row.length`), then
the `static` locals of three functions, then the environment. -/
structure editorConf where
  cx : Int
  cy : Int
  rx : Int
  row_off : Int
  col_off : Int
  screen_rows : Int
  screen_cols : Int
  row : List editorRow
  dirty : Int
  filename : Option (List Nat)
  statusmsg : List Nat
  command_buffer : List Nat
  command_len : Int
  /-- The field `syntax`: `none` is `NULL`. -/
  syn : Option editorSyntax
  mode : editorModes
  /-- The `static int quit_times` of `editorExecuteCommand`. -/
  execute_quit_times : Int
  /-- The `static int quit_times` of `editorProccessKeypress`. -/
  keypress_quit_times : Int
  /-- The four `static` locals of `editorFindCallback`. -/
  last_match : Int
  direction : Int
  saved_hl_line : Int
  saved_hl_search : Option (List Nat)
  /-- The key events `editorReadKey` will return, in order. -/
  input : List Int
  /-- What `open`, `ftruncate` and `write` answer, and `strerror(errno)`. -/
  fs : ioResult
  errno_text : List Nat
  /-- The name and content of the file last written in full. -/
  disk : Option (List Nat × List Nat)

def editorConf.num_rows (E : editorConf) : Int := E.row.length

/-- How a call ends: it returns, the process ends in `exit`, it waits in
`read` for a key that never comes, it loops for ever, or its behaviour is
undefined. -/
inductive Run (α : Type) where
  | ret (a : α)
  | exit (E : editorConf) (status : Int)
  | block (E : editorConf)
  | diverge (E : editorConf)
  | undefined

/-- Sequencing: the second call runs when the first returns. -/
def Run.bind {α β : Type} (r : Run α) (f : α → Run β) : Run β :=
  match r with
  | .ret a => f a
  | .exit E status => .exit E status
  | .block E => .block E
  | .diverge E => .diverge E
  | .undefined => .undefined

def Run.ofOption {α : Type} : Option α → Run α
  | some a => .ret a
  | none => .undefined

/-- The row `editorConf.row[i]`, `none` outside the array. -/
def rowAt (rows : List editorRow) (i : Int) : Option editorRow :=
  if 0 ≤ i then rows[i.toNat]? else none

/-- The write `buf[i] = v`, `none` outside the array. -/
def bufSet (buf : List Nat) (i : Int) (v : Nat) : Option (List Nat) :=
  if 0 ≤ i ∧ i < buf.length then some (buf.set i.toNat v) else none

/-- The function `editorSetStatusMessage` with the formatted text as argument:
`vsnprintf` keeps at most 79 bytes of it. -/
def editorSetStatusMessage (E : editorConf) (msg : List Nat) : editorConf :=
  { E with statusmsg := msg.take 79 }

/-- The text of `%d`. -/
def fmt_d (n : Int) : List Nat := bytes (toString n)

/-! ## Row store (lines 403-470) -/

def INT_MAX : Int := 2147483647
def INT_MIN : Int := -2147483648

/-- The value an `int` holds when a computation gives `n`: `n` modulo 2^32 in
the range of `int`.  The statement `editorConf.dirty++` stores
`wrapInt (dirty + 1)`: the compiled code wraps from `INT_MAX` to `INT_MIN` (the
C standard leaves the overflow undefined). -/
def wrapInt (n : Int) : Int := (n + 2147483648) % 4294967296 - 2147483648

def editorInsertRow (E : editorConf) (pos : Int) (s : List Nat) : editorConf :=
  if pos < 0 ∨ pos > E.num_rows then E
  else
    { E with
      row := E.row.take pos.toNat
        ++ [editorUpdateRow E.syn { chars := s, render := [], hl := [] }]
        ++ E.row.drop pos.toNat,
      dirty := wrapInt (E.dirty + 1) }

def editorDeleteRow (E : editorConf) (pos : Int) : editorConf :=
  if pos < 0 ∨ pos ≥ E.num_rows then E
  else
    { E with
      row := E.row.take pos.toNat ++ E.row.drop (pos.toNat + 1),
      dirty := wrapInt (E.dirty + 1) }

/-- The function `editorRowInsertChar`; the pointer `row` is `&editorConf.row[r]`. -/
def editorRowInsertChar (E : editorConf) (r : Int) (pos : Int) (c : Int) :
    Option editorConf :=
  match rowAt E.row r with
  | none => none
  | some row =>
    let pos := if pos < 0 ∨ pos > row.size then row.size else pos
    let row1 := { row with
      chars := row.chars.take pos.toNat ++ [toByte c] ++ row.chars.drop pos.toNat }
    some { E with row := E.row.set r.toNat (editorUpdateRow E.syn row1), dirty := wrapInt (E.dirty + 1) }

/-- The function `editorRowAppendString`; the pointer `row` is
`&editorConf.row[r]`, and `s` holds the `len` bytes appended. -/
def editorRowAppendString (E : editorConf) (r : Int) (s : List Nat) : Option editorConf :=
  match rowAt E.row r with
  | none => none
  | some row =>
    let row1 := { row with chars := row.chars ++ s }
    some { E with row := E.row.set r.toNat (editorUpdateRow E.syn row1), dirty := wrapInt (E.dirty + 1) }

/-- The function `editorRowDeleteChar`; the pointer `row` is `&editorConf.row[r]`. -/
def editorRowDeleteChar (E : editorConf) (r : Int) (pos : Int) : Option editorConf :=
  match rowAt E.row r with
  | none => none
  | some row =>
    if pos < 0 ∨ pos ≥ row.size then some E
    else
      let row1 := { row with chars := row.chars.take pos.toNat ++ row.chars.drop (pos.toNat + 1) }
      some { E with row := E.row.set r.toNat (editorUpdateRow E.syn row1), dirty := wrapInt (E.dirty + 1) }

/-! ## Editor operations (lines 472-514) -/

def editorInsertChar (E : editorConf) (c : Int) : Option editorConf :=
  let E1 := if E.cy = E.num_rows then editorInsertRow E E.num_rows [] else E
  match editorRowInsertChar E1 E1.cy E1.cx c with
  | none => none
  | some E2 => some { E2 with cx := E2.cx + 1 }

/-- The function `editorInsertNewline`.  In the second branch the call
`editorInsertRow(cy + 1, &row->chars[cx], row->size - cx)` reads the bytes
`chars[cx..size)`, which lie in the row only for `0 <= cx <= size`. -/
def editorInsertNewline (E : editorConf) : Option editorConf :=
  if E.cx = 0 then
    let E1 := editorInsertRow E E.cy []
    some { E1 with cy := E1.cy + 1, cx := 0 }
  else
    match rowAt E.row E.cy with
    | none => none
    | some row =>
      if E.cx < 0 ∨ E.cx > row.size then none
      else
        let E1 := editorInsertRow E (E.cy + 1) (row.chars.drop E.cx.toNat)
        match rowAt E1.row E1.cy with
        | none => none
        | some row1 =>
          let row2 := editorUpdateRow E1.syn { row1 with chars := row1.chars.take E1.cx.toNat }
          let E2 := { E1 with row := E1.row.set E1.cy.toNat row2 }
          some { E2 with cy := E2.cy + 1, cx := 0 }

def editorDeleteChar (E : editorConf) : Option editorConf :=
  if E.cy = E.num_rows then some E
  else if E.cx = 0 ∧ E.cy = 0 then some E
  else if E.cx > 0 then
    match editorRowDeleteChar E E.cy (E.cx - 1) with
    | none => none
    | some E1 => some { E1 with cx := E1.cx - 1 }
  else
    match rowAt E.row E.cy, rowAt E.row (E.cy - 1) with
    | some row, some prev =>
      let E1 := { E with cx := prev.size }
      match editorRowAppendString E1 (E1.cy - 1) row.chars with
      | none => none
      | some E2 =>
        let E3 := editorDeleteRow E2 E2.cy
        some { E3 with cy := E3.cy - 1 }
    | _, _ => none

/-! ## Syntax selection (lines 324-349) -/

/-- The test of the `if` at lines 336-337 for the pattern `s->filematch[i]`,
where `ext` is `strrchr(editorConf.filename, '.')`. -/
def filematchHit (filename : List Nat) (ext : Option (List Nat)) (pat : List Nat) : Bool :=
  let is_ext := decide (pat.head? = some 46)
  (is_ext && (match ext with
    | some e => decide (e = cstr pat)
    | none => false))
  || (!is_ext && (strstr filename pat).isSome)

/-- The body run on a hit (lines 338-345): select `s` and highlight every row
again. -/
def selectSyntax (E : editorConf) (s : editorSyntax) : editorConf :=
  { E with syn := some s, row := E.row.map (editorUpdateSyntax (some s)) }

/-- The loop `while (s->filematch[i])` (lines 334-347) run for at most `fuel`
iterations.  `none`: the fuel ran out; `some none`: the loop ended at a `NULL`
entry; `some (some E1)`: the function returned with state `E1`.  The body has
no `i++`, so the next iteration starts from the same `i`. -/
def selectWhile (E : editorConf) (filename : List Nat) (ext : Option (List Nat))
    (s : editorSyntax) (i : Nat) : Nat → Option (Option editorConf)
  | 0 => none
  | fuel + 1 =>
    match s.filematch[i]? with
    | none => some none
    | some pat =>
      if filematchHit filename ext pat then some (some (selectSyntax E s))
      else selectWhile E filename ext s i fuel

/-- The loop `for (j = 0; j < HLDB_ENTRIES; j++)` over the entries left.  An
iteration of the inner loop that neither returns nor ends the loop leaves `i`
unchanged and is repeated for ever (`selectWhile_stuck`). -/
def selectEntries (E : editorConf) (filename : List Nat) (ext : Option (List Nat)) :
    List editorSyntax → Run editorConf
  | [] => .ret E
  | s :: rest =>
    match s.filematch[0]? with
    | none => selectEntries E filename ext rest
    | some pat =>
      if filematchHit filename ext pat then .ret (selectSyntax E s)
      else .diverge E

def editorSelectSyntaxHighlight (E : editorConf) : Run editorConf :=
  let E1 := { E with syn := none }
  match E1.filename with
  | none => .ret E1
  | some filename => selectEntries E1 filename (strrchr filename 46) HLDB

/-! ## File i/o (lines 516-630) -/

/-- The first loop of `editorRowsToString`: `totalLen`. -/
def rowsTotalLen : List editorRow → Int
  | [] => 0
  | row :: rest => (row.size + 1) + rowsTotalLen rest

/-- The second loop of `editorRowsToString`: the bytes copied to `buf`. -/
def rowsCopy : List editorRow → List Nat
  | [] => []
  | row :: rest => row.chars ++ [10] ++ rowsCopy rest

/-- The function `editorRowsToString`: the buffer and `*buflen`. -/
def editorRowsToString (E : editorConf) : List Nat × Int :=
  (rowsCopy E.row, rowsTotalLen E.row)

/-- The successive results of `getline` on the rest of a file, `cur` being the
bytes of the current line read so far: a line ends after each LF and at the end
of the file. -/
def getlines : List Nat → List Nat → List (List Nat)
  | [], cur => if cur = [] then [] else [cur]
  | c :: cs, cur =>
    if c = 10 then (cur ++ [10]) :: getlines cs [] else getlines cs (cur ++ [c])

/-- The loop at lines 551-554: `line_len` steps back over trailing LF and CR. -/
def stripEol (line : List Nat) : List Nat :=
  (line.reverse.dropWhile (fun b => b = 10 ∨ b = 13)).reverse

/-- The loop `while ((line_len = getline(..)) != -1)` of `editorOpen` on the
lines still to come. -/
def editorOpenLoop : List (List Nat) → editorConf → editorConf
  | [], E => E
  | line :: rest, E => editorOpenLoop rest (editorInsertRow E E.num_rows (stripEol line))

/-- The function `editorOpen`; `file` is the content of the file, `none` when
`fopen` fails. -/
def editorOpen (E : editorConf) (filename : List Nat) (file : Option (List Nat)) :
    Run editorConf :=
  (editorSelectSyntaxHighlight { E with filename := some (cstr filename) }).bind fun E1 =>
    match file with
    | none => .exit E1 1
    | some content => .ret { editorOpenLoop (getlines content []) E1 with dirty := 0 }

/-! ## Output (lines 731-751, 865-895) -/

/-- The two assignments to `rx` in `editorScroll` (lines 732-738): the column
`rx0` computed by `editorRowCxToRx` (0 past the last row) is stored and then
overwritten by `editorConf.rx = editorConf.cx`. -/
def scrollInit (E : editorConf) (rx0 : Int) : editorConf :=
  let E := { E with rx := rx0 }
  { E with rx := E.cx }

/-- The statement at lines 739-741 of `editorScroll`. -/
def scrollUp (E : editorConf) : editorConf :=
  if E.cy < E.row_off then { E with row_off := E.cy } else E

/-- The statement at lines 742-744 of `editorScroll`. -/
def scrollDown (E : editorConf) : editorConf :=
  if E.cy ≥ E.row_off + E.screen_rows then { E with row_off := E.cy - E.screen_rows + 1 } else E

/-- The statement at lines 745-747 of `editorScroll`. -/
def scrollLeft (E : editorConf) : editorConf :=
  if E.rx < E.col_off then { E with col_off := E.rx } else E

/-- The statement at lines 748-750 of `editorScroll`. -/
def scrollRight (E : editorConf) : editorConf :=
  if E.rx ≥ E.col_off + E.screen_cols then { E with col_off := E.rx - E.screen_cols + 1 } else E

/-- The function `editorScroll`: the column computation, which reads the row
under the cursor, and then the statements above in order. -/
def editorScroll (E : editorConf) : Option editorConf :=
  match (if E.cy < E.num_rows then
      (match rowAt E.row E.cy with
        | none => none
        | some row => editorRowCxToRx row E.cx)
    else some 0) with
  | none => none
  | some rx0 => some (scrollRight (scrollLeft (scrollDown (scrollUp (scrollInit E rx0)))))

/-- The function `editorRefreshScreen` as far as the editor state goes: the
frame it composes and writes is no part of the state. -/
def editorRefreshScreen (E : editorConf) : Option editorConf := editorScroll E

/-! ## Search (lines 632-707) -/

/-- The `for` loop of `editorFindCallback` with `n` iterations left. -/
def editorFindLoop (query : List Nat) : Nat → Int → editorConf → Option editorConf
  | 0, _, E => some E
  | n + 1, current, E =>
    let current := current + E.direction
    let current := if current = -1 then E.num_rows - 1
      else if current = E.num_rows then 0 else current
    match rowAt E.row current with
    | none => none
    | some row =>
      match strstr row.render query with
      | some off =>
        if off + (cstr query).length ≤ row.hl.length ∧ row.render.length ≤ row.hl.length then
          some { E with
            last_match := current,
            cy := current,
            cx := editorRowRxToCx row off,
            row_off := E.num_rows,
            saved_hl_line := current,
            saved_hl_search := some (row.hl.take row.render.length),
            row := E.row.set current.toNat { row with
              hl := row.hl.take off ++ List.replicate (cstr query).length HL_MATCH
                ++ row.hl.drop (off + (cstr query).length) } }
        else none
      | none => editorFindLoop query n current E

/-- The function `editorFindCallback`. -/
def editorFindCallback (E : editorConf) (query : List Nat) (key : Int) : Option editorConf :=
  match (match E.saved_hl_search with
    | none => some E
    | some saved =>
      match rowAt E.row E.saved_hl_line with
      | none => none
      | some row =>
        if row.render.length ≤ saved.length ∧ row.render.length ≤ row.hl.length then
          some { E with
            row := E.row.set E.saved_hl_line.toNat { row with
              hl := saved.take row.render.length ++ row.hl.drop row.render.length },
            saved_hl_search := none }
        else none) with
  | none => none
  | some E =>
    if key = 13 ∨ key = 27 then some { E with last_match := -1, direction := 1 }
    else
      let E :=
        if key = ARROW_RIGHT ∨ key = ARROW_DOWN then { E with direction := 1 }
        else if key = ARROW_LEFT ∨ key = ARROW_UP then { E with direction := -1 }
        else { E with last_match := -1, direction := 1 }
      let E := if E.last_match = -1 then { E with direction := 1 } else E
      editorFindLoop query E.num_rows.toNat E.last_match E

/-! ## Input (lines 897-1181) -/

/-- The loop of `editorPrompt` on the key events still to come; `prompt` is the
text before `%s`, `buf` the C string typed so far. -/
def editorPromptLoop (prompt : List Nat)
    (callback : Option (editorConf → List Nat → Int → Option editorConf)) :
    List Int → editorConf → List Nat → Run (Option (List Nat) × editorConf)
  | [], E, buf =>
    match editorRefreshScreen (editorSetStatusMessage E (prompt ++ buf)) with
    | none => .undefined
    | some E1 => .block E1
  | c :: rest, E, buf =>
    match editorRefreshScreen (editorSetStatusMessage E (prompt ++ buf)) with
    | none => .undefined
    | some E1 =>
      let E2 := { E1 with input := rest }
      let call := fun (E : editorConf) (buf : List Nat) =>
        match callback with
        | none => some E
        | some f => f E buf c
      if c = DEL_KEY ∨ c = CTRL_KEY 104 ∨ c = BACKSPACE then
        match call E2 buf.dropLast with
        | none => .undefined
        | some E3 => editorPromptLoop prompt callback rest E3 buf.dropLast
      else if c = 27 then
        match call (editorSetStatusMessage E2 []) buf with
        | none => .undefined
        | some E3 => .ret (none, E3)
      else if c = 13 then
        if buf ≠ [] then
          match call (editorSetStatusMessage E2 []) buf with
          | none => .undefined
          | some E3 => .ret (some buf, E3)
        else
          match call E2 buf with
          | none => .undefined
          | some E3 => editorPromptLoop prompt callback rest E3 buf
      else if iscntrl c = false ∧ c < 128 then
        match call E2 (buf ++ [toByte c]) with
        | none => .undefined
        | some E3 => editorPromptLoop prompt callback rest E3 (buf ++ [toByte c])
      else
        match call E2 buf with
        | none => .undefined
        | some E3 => editorPromptLoop prompt callback rest E3 buf

/-- The function `editorPrompt`: the text entered (`none` for `NULL`) and the
state. -/
def editorPrompt (E : editorConf) (prompt : List Nat)
    (callback : Option (editorConf → List Nat → Int → Option editorConf)) :
    Run (Option (List Nat) × editorConf) :=
  editorPromptLoop prompt callback E.input E []

def editorFind (E : editorConf) : Run editorConf :=
  (editorPrompt E (bytes "Search: ") (some editorFindCallback)).bind fun r =>
    match r.1 with
    | some _ => .ret r.2
    | none =>
      .ret { r.2 with cx := E.cx, cy := E.cy, col_off := E.col_off, row_off := E.row_off }

/-- The part of `editorSave` after the file name is known (lines 572-589). -/
def editorSaveWrite (E : editorConf) : editorConf :=
  let r := editorRowsToString E
  match E.fs with
  | .ok =>
    editorSetStatusMessage
      { E with dirty := 0, disk := some (E.filename.getD [], r.1) }
      (fmt_d r.2 ++ bytes " bytes written to disk")
  | _ => editorSetStatusMessage E (bytes "Can't save! I/O error: " ++ E.errno_text)

def editorSave (E : editorConf) : Run editorConf :=
  match E.filename with
  | none =>
    (editorPrompt E (bytes "Save as: ") none).bind fun r =>
      match r.1 with
      | none => .ret (editorSetStatusMessage r.2 (bytes "Save aborted"))
      | some name =>
        (editorSelectSyntaxHighlight { r.2 with filename := some name }).bind fun E1 =>
          .ret (editorSaveWrite E1)
  | some _ => .ret (editorSaveWrite E)

/-- The function `editorExecuteCommand`; `command` is the buffer the pointer
refers to. -/
def editorExecuteCommand (E : editorConf) (command : List Nat) : Run editorConf :=
  if cstr command = bytes "q" then
    if E.dirty ≠ 0 then
      let E1 := editorSetStatusMessage E (bytes "File has unsaved changes. Quit anyway? (y/n)")
      if E1.dirty ≠ 0 ∧ E1.execute_quit_times > 0 then
        .ret { editorSetStatusMessage E1
            (bytes "WARNING!!! File has unsaved changes. Press Ctrl-Q "
              ++ fmt_d E1.execute_quit_times ++ bytes " more times to quit.") with
          execute_quit_times := E1.execute_quit_times - 1 }
      else .exit E1 0
    else .exit E 0
  else if cstr command = bytes "q!" then .exit E 0
  else if cstr command = bytes "w" then editorSave E
  else if cstr command = bytes "wq" then (editorSave E).bind fun E1 => .exit E1 0
  else .ret (editorSetStatusMessage E (bytes "Unknown command: " ++ cstr command))

def editorHandleCommand (E : editorConf) (c : Int) : Run editorConf :=
  let r : Run editorConf :=
    if c = 13 then
      match bufSet E.command_buffer E.command_len 0 with
      | none => .undefined
      | some b =>
        (editorExecuteCommand { E with command_buffer := b } b).bind fun E1 =>
          .ret (editorSetStatusMessage { E1 with mode := NORMAL_MODE } [])
    else if c = 27 then
      .ret (editorSetStatusMessage { E with mode := NORMAL_MODE } [])
    else if c = BACKSPACE ∨ c = CTRL_KEY 104 then
      if E.command_len > 0 then
        match bufSet E.command_buffer (E.command_len - 1) 0 with
        | none => .undefined
        | some b => .ret { E with command_buffer := b, command_len := E.command_len - 1 }
      else .ret E
    else if isprint c = true ∧ E.command_len < (ZOR_COMMAND_BUFFER_SIZE : Int) - 1 then
      match bufSet E.command_buffer E.command_len (toByte c) with
      | none => .undefined
      | some b =>
        match bufSet b (E.command_len + 1) 0 with
        | none => .undefined
        | some b1 => .ret { E with command_buffer := b1, command_len := E.command_len + 1 }
    else .ret E
  r.bind fun E1 => .ret (editorSetStatusMessage E1 (bytes ":" ++ cstr E1.command_buffer))

def editorMoveCursor (E : editorConf) (key : Int) : Option editorConf :=
  match (if key = ARROW_LEFT then
      if E.cx ≠ 0 then some { E with cx := E.cx - 1 }
      else if E.cy > 0 then
        match rowAt E.row (E.cy - 1) with
        | none => none
        | some prev => some { E with cy := E.cy - 1, cx := prev.size }
      else some E
    else if key = ARROW_RIGHT then
      if E.cy ≥ E.num_rows then some E
      else
        match rowAt E.row E.cy with
        | none => none
        | some row =>
          if row.size > E.cx then some { E with cx := E.cx + 1 }
          else if E.cx = row.size then some { E with cy := E.cy + 1, cx := 0 }
          else some E
    else if key = ARROW_UP then
      if E.cy ≠ 0 then some { E with cy := E.cy - 1 } else some E
    else if key = ARROW_DOWN then
      if E.cy ≤ E.num_rows then some { E with cy := E.cy + 1 } else some E
    else some E) with
  | none => none
  | some E1 =>
    match (if E1.cy ≥ E1.num_rows then some 0
      else (rowAt E1.row E1.cy).map editorRow.size) with
    | none => none
    | some row_len => some (if E1.cx > row_len then { E1 with cx := row_len } else E1)

/-- The loop `while (times--) editorMoveCursor(key);` with `times` iterations
left. -/
def moveTimes (key : Int) : Nat → editorConf → Option editorConf
  | 0, E => some E
  | times + 1, E =>
    match editorMoveCursor E key with
    | none => none
    | some E1 => moveTimes key times E1

/-- The block shared by the cases `PAGE_UP`/`PAGE_DOWN` and the two half-page
keys: `up` says whether `c` is the first key of the pair.  A negative
`screen_rows` makes `times--` run into signed overflow. -/
def pageMove (E : editorConf) (up : Bool) : Option editorConf :=
  let E1 :=
    if up then { E with cy := E.row_off }
    else
      let E1 := { E with cy := E.row_off + E.screen_rows - 1 }
      if E1.cy > E1.num_rows then { E1 with cy := E1.num_rows } else E1
  if E1.screen_rows < 0 then none
  else moveTimes (if up then ARROW_UP else ARROW_DOWN) E1.screen_rows.toNat E1

/-- The last line of `editorProccessKeypress`, `quit_times = ZOR_QUIT_TIMES`,
reached by every `break` of the two `switch` statements, and the return. -/
def keypressDone (E : editorConf) : Run editorConf :=
  .ret { E with keypress_quit_times := ZOR_QUIT_TIMES }

/-- The function `editorProccessKeypress` for the key `c` that `editorReadKey`
returned.  The cases of a `switch` have distinct constants, so they are tested
in the order of the source. -/
def editorProccessKeypress (E : editorConf) (c : Int) : Run editorConf :=
  match E.mode with
  | NORMAL_MODE =>
    if c = 105 ∨ c = 73 then keypressDone { E with mode := INSERT_MODE }
    else if c = 58 then
      match bufSet E.command_buffer 0 0 with
      | none => .undefined
      | some b =>
        keypressDone (editorSetStatusMessage
          { E with mode := COMMAND_MODE, command_len := 0, command_buffer := b } (bytes ":"))
    else if c = 104 then (Run.ofOption (editorMoveCursor E ARROW_LEFT)).bind keypressDone
    else if c = 106 then (Run.ofOption (editorMoveCursor E ARROW_DOWN)).bind keypressDone
    else if c = 107 then (Run.ofOption (editorMoveCursor E ARROW_UP)).bind keypressDone
    else if c = 108 then (Run.ofOption (editorMoveCursor E ARROW_RIGHT)).bind keypressDone
    else if c = 47 then (editorFind E).bind keypressDone
    else if c = CTRL_KEY 117 ∨ c = CTRL_KEY 100 then
      (Run.ofOption (pageMove E (decide (c = CTRL_KEY 117)))).bind keypressDone
    else if c = HOME_KEY then keypressDone { E with cx := 0 }
    else if c = END_KEY then
      if E.cy < E.num_rows then
        match rowAt E.row E.cy with
        | none => .undefined
        | some row => keypressDone { E with cx := row.size }
      else keypressDone E
    else if c = BACKSPACE ∨ c = CTRL_KEY 104 ∨ c = DEL_KEY then
      match (if c = DEL_KEY then editorMoveCursor E ARROW_RIGHT else some E) with
      | none => .undefined
      | some E1 => (Run.ofOption (editorDeleteChar E1)).bind keypressDone
    else if c = PAGE_UP ∨ c = PAGE_DOWN then
      (Run.ofOption (pageMove E (decide (c = PAGE_UP)))).bind keypressDone
    else if c = ARROW_LEFT ∨ c = ARROW_RIGHT ∨ c = ARROW_UP ∨ c = ARROW_DOWN then
      (Run.ofOption (editorMoveCursor E c)).bind keypressDone
    else keypressDone E
  | INSERT_MODE =>
    if c = 13 then (Run.ofOption (editorInsertNewline E)).bind keypressDone
    else if c = CTRL_KEY 113 then
      if E.dirty ≠ 0 ∧ E.keypress_quit_times > 0 then
        .ret { editorSetStatusMessage E
            (bytes "WARNING!!! File has unsaved changes. Press Ctrl-Q "
              ++ fmt_d E.keypress_quit_times ++ bytes " more times to quit.") with
          keypress_quit_times := E.keypress_quit_times - 1 }
      else .exit E 0
    else if c = CTRL_KEY 115 then (editorSave E).bind keypressDone
    else if c = HOME_KEY then keypressDone { E with cx := 0 }
    else if c = END_KEY then
      if E.cy < E.num_rows then
        match rowAt E.row E.cy with
        | none => .undefined
        | some row => keypressDone { E with cx := row.size }
      else keypressDone E
    else if c = BACKSPACE ∨ c = CTRL_KEY 104 ∨ c = DEL_KEY then
      match (if c = DEL_KEY then editorMoveCursor E ARROW_RIGHT else some E) with
      | none => .undefined
      | some E1 => (Run.ofOption (editorDeleteChar E1)).bind keypressDone
    else if c = PAGE_UP ∨ c = PAGE_DOWN then
      (Run.ofOption (pageMove E (decide (c = PAGE_UP)))).bind keypressDone
    else if c = ARROW_LEFT ∨ c = ARROW_RIGHT ∨ c = ARROW_UP ∨ c = ARROW_DOWN then
      (Run.ofOption (editorMoveCursor E c)).bind keypressDone
    else if c = CTRL_KEY 108 ∨ c = 27 then keypressDone { E with mode := NORMAL_MODE }
    else (Run.ofOption (editorInsertChar E c)).bind keypressDone
  | COMMAND_MODE => (editorHandleCommand E c).bind keypressDone

/-! ## Init (lines 1183-1220) -/

/-- The function `initEditor`, `rows` and `cols` being what `getWindowSize`
stored, on the start state of the process: zeroed globals, initialised statics,
the pending key events and the file system answers. -/
def initEditor (rows cols : Int) (input : List Int) (fs : ioResult) (errno_text : List Nat) :
    editorConf :=
  { cx := 0, cy := 0, rx := 0, row_off := 0, col_off := 0,
    screen_rows := rows - 2, screen_cols := cols,
    row := [], dirty := 0, filename := none, statusmsg := [],
    command_buffer := List.replicate ZOR_COMMAND_BUFFER_SIZE 0, command_len := 0,
    syn := none, mode := NORMAL_MODE,
    execute_quit_times := ZOR_QUIT_TIMES, keypress_quit_times := ZOR_QUIT_TIMES,
    last_match := -1, direction := 1, saved_hl_line := 0, saved_hl_search := none,
    input := input, fs := fs, errno_text := errno_text, disk := none }

/-- The first `n` iterations of the loop `while (1)` of `main`. -/
def mainLoop : Nat → editorConf → Run editorConf
  | 0, E => .ret E
  | n + 1, E =>
    match editorRefreshScreen E with
    | none => .undefined
    | some E1 =>
      match E1.input with
      | [] => .block E1
      | c :: rest => (editorProccessKeypress { E1 with input := rest } c).bind (mainLoop n)

/-! ## Definitions used to state the claims -/

/-- Tab expansion in the words of the specification: each tab is replaced by
spaces up to the next multiple of the tab stop, every other byte is kept; `col`
is the column reached so far. -/
def tabExpand : List Nat → Nat → List Nat
  | [], _ => []
  | c :: cs, col =>
    if c = 9 then
      List.replicate (ZOR_TAB_STOP - col % ZOR_TAB_STOP) 32
        ++ tabExpand cs (col + (ZOR_TAB_STOP - col % ZOR_TAB_STOP))
    else c :: tabExpand cs (col + 1)

/-- One row mutation, or a cursor movement between two of them. -/
inductive rowMutation where
  | rowInsertChar (r pos c : Int)
  | rowDeleteChar (r pos : Int)
  | rowAppendString (r : Int) (s : List Nat)
  | insertRow (pos : Int) (s : List Nat)
  | deleteRow (pos : Int)
  | insertChar (c : Int)
  | insertNewline
  | deleteChar
  | moveCursor (key : Int)

def applyMutation (E : editorConf) : rowMutation → Option editorConf
  | .rowInsertChar r pos c => editorRowInsertChar E r pos c
  | .rowDeleteChar r pos => editorRowDeleteChar E r pos
  | .rowAppendString r s => editorRowAppendString E r s
  | .insertRow pos s => some (editorInsertRow E pos s)
  | .deleteRow pos => some (editorDeleteRow E pos)
  | .insertChar c => editorInsertChar E c
  | .insertNewline => editorInsertNewline E
  | .deleteChar => editorDeleteChar E
  | .moveCursor key => editorMoveCursor E key

def applyMutations : List rowMutation → editorConf → Option editorConf
  | [], E => some E
  | m :: ms, E =>
    match applyMutation E m with
    | none => none
    | some E1 => applyMutations ms E1

/-- The row invariant: the highlight array is as long as the rendered bytes,
that is `rsize`, and the rendered bytes are the tab expansion of the raw ones. -/
def rowOK (row : editorRow) : Prop :=
  row.hl.length = row.render.length ∧ (row.hl.length : Int) = row.rsize ∧
    row.render = tabExpand row.chars 0

/-- The highlight array is the one `editorUpdateSyntax` computes from the
rendered bytes. -/
def hlFresh (syn : Option editorSyntax) (row : editorRow) : Prop :=
  row.hl = (editorUpdateSyntax syn row).hl

/-- Every row of `E1` is a row of `E` or comes out of `editorUpdateRow`, and the
syntax profile is the same. -/
def rowsDerived (E E1 : editorConf) : Prop :=
  E1.syn = E.syn ∧ ∀ row ∈ E1.row, row ∈ E.row ∨ ∃ r, row = editorUpdateRow E.syn r

/-- A start state: an 80x24 terminal, no file, no pending key. -/
def startState : editorConf := initEditor 24 80 [] .ok []

/-- A sample sequence of mutations on the empty document. -/
def sampleMutations : List rowMutation :=
  [.insertChar 97, .insertChar 9, .insertChar 98, .moveCursor ARROW_LEFT, .insertNewline,
    .deleteChar, .rowAppendString 0 [33], .rowDeleteChar 0 0, .rowInsertChar 0 1 120,
    .insertRow 1 [9, 9]]

/-- The cursor invariant of the specification: `cy` in `[0, num_rows]` and `cx`
in `[0, size]` of the row under the cursor, 0 past the last row. -/
def cursorValid (E : editorConf) : Prop :=
  0 ≤ E.cy ∧ E.cy ≤ E.num_rows ∧ 0 ≤ E.cx ∧
    E.cx ≤ (match rowAt E.row E.cy with
      | some row => row.size
      | none => 0)

instance (E : editorConf) : Decidable (cursorValid E) := by
  unfold cursorValid
  infer_instance

/-- A document of two rows, `ab` and `cde`, without a syntax profile. -/
def sampleDoc : editorConf :=
  { startState with
    row := [editorUpdateRow none { chars := [97, 98], render := [], hl := [] },
      editorUpdateRow none { chars := [99, 100, 101], render := [], hl := [] }] }

/-- The state `editorFindCallback` leaves on a hit in row `current` at rendered
offset `off` (lines 676-686). -/
def findHit (E : editorConf) (query : List Nat) (current : Int) (row : editorRow) (off : Nat) :
    editorConf :=
  { E with
    last_match := current,
    cy := current,
    cx := editorRowRxToCx row off,
    row_off := E.num_rows,
    saved_hl_line := current,
    saved_hl_search := some (row.hl.take row.render.length),
    row := E.row.set current.toNat { row with
      hl := row.hl.take off ++ List.replicate (cstr query).length HL_MATCH
        ++ row.hl.drop (off + (cstr query).length) } }

/-- The row index the loop of `editorFindCallback` examines after `current`
(lines 667-671). -/
def findNext (E : editorConf) (current : Int) : Int :=
  if current + E.direction = -1 then E.num_rows - 1
  else if current + E.direction = E.num_rows then 0 else current + E.direction

/-- The first step of `editorFindCallback`: the overlay of the previous call is
undone (lines 641-646). -/
def findRestore (E : editorConf) : Option editorConf :=
  match E.saved_hl_search with
  | none => some E
  | some saved =>
    match rowAt E.row E.saved_hl_line with
    | none => none
    | some row =>
      if row.render.length ≤ saved.length ∧ row.render.length ≤ row.hl.length then
        some { E with
          row := E.row.set E.saved_hl_line.toNat { row with
            hl := saved.take row.render.length ++ row.hl.drop row.render.length },
          saved_hl_search := none }
      else none

/-- The second step of `editorFindCallback` for a key other than Enter and
Escape: the direction and the start of the scan (lines 652-663). -/
def findDirection (E : editorConf) (key : Int) : editorConf :=
  let E :=
    if key = ARROW_RIGHT ∨ key = ARROW_DOWN then { E with direction := 1 }
    else if key = ARROW_LEFT ∨ key = ARROW_UP then { E with direction := -1 }
    else { E with last_match := -1, direction := 1 }
  if E.last_match = -1 then { E with direction := 1 } else E

/-- Keys typed on a fresh editor: `i x Esc`, `: q Enter`, `i y Esc`,
`: q Enter`. -/
def quitKeys : List Int := [105, 120, 27, 58, 113, 13, 105, 121, 27, 58, 113, 13]

/-- Keys typed on a fresh editor: `i` and three tabs. -/
def tabKeys : List Int := [105, 9, 9, 9]

/-- The mode after one key event, as the specification lists the transitions. -/
def modeAfter (mode : editorModes) (c : Int) : editorModes :=
  match mode with
  | .NORMAL_MODE =>
    if c = 105 ∨ c = 73 then .INSERT_MODE else if c = 58 then .COMMAND_MODE else .NORMAL_MODE
  | .INSERT_MODE => if c = 27 ∨ c = CTRL_KEY 108 then .NORMAL_MODE else .INSERT_MODE
  | .COMMAND_MODE => if c = 13 ∨ c = 27 then .NORMAL_MODE else .COMMAND_MODE

/-- The cursor-positioning directive `editorRefreshScreen` appends to the frame
(lines 877-881): `ESC [ row ; column H` with the row `cy - row_off + 1` and the
column `rx - col_off + 1`. -/
def cursorDirective (E : editorConf) : List Nat :=
  [27] ++ bytes "[" ++ fmt_d (E.cy - E.row_off + 1) ++ bytes ";"
    ++ fmt_d (E.rx - E.col_off + 1) ++ bytes "H"

/-- Keys typed on a fresh editor: `: x Enter`. -/
def unknownKeys : List Int := [58, 120, 13]

/-- Keys typed on a fresh editor without a file name: `i x Esc`, `: w q Enter`
and `Esc` in answer to the prompt for a name. -/
def abortKeys : List Int := [105, 120, 27, 58, 119, 113, 13, 27]

/-- Keys typed after opening a file: `i x Esc` and `: w q Enter`. -/
def saveQuitKeys : List Int := [105, 120, 27, 58, 119, 113, 13]

/-- Keys typed after opening a file: `i x Esc` and `: w Enter`. -/
def saveKeys : List Int := [105, 120, 27, 58, 119, 13]

/-- The editor started on the file `a.c` holding the line `int x;`, which the
process may read and may not open for writing, with `keys` to come. -/
def readOnlyFile (keys : List Int) : Run editorConf :=
  editorOpen (initEditor 24 80 keys .open_fails (bytes "Permission denied")) (bytes "a.c")
    (some (bytes "int x;\n"))

/-- The state `E` with the mode field set to `m`. -/
def withMode (m : editorModes) (E : editorConf) : editorConf := { E with mode := m }

/-- The `switch` of `editorMoveCursor` (lines 963-994): the move itself. -/
def moveStep (E : editorConf) (key : Int) : Option editorConf :=
  if key = ARROW_LEFT then
    if E.cx ≠ 0 then some { E with cx := E.cx - 1 }
    else if E.cy > 0 then
      match rowAt E.row (E.cy - 1) with
      | none => none
      | some prev => some { E with cy := E.cy - 1, cx := prev.size }
    else some E
  else if key = ARROW_RIGHT then
    if E.cy ≥ E.num_rows then some E
    else
      match rowAt E.row E.cy with
      | none => none
      | some row =>
        if row.size > E.cx then some { E with cx := E.cx + 1 }
        else if E.cx = row.size then some { E with cy := E.cy + 1, cx := 0 }
        else some E
  else if key = ARROW_UP then
    if E.cy ≠ 0 then some { E with cy := E.cy - 1 } else some E
  else if key = ARROW_DOWN then
    if E.cy ≤ E.num_rows then some { E with cy := E.cy + 1 } else some E
  else some E

/-- The end of `editorMoveCursor` (lines 996-1000): `cx` is cut down to the
length of the row the cursor is on now. -/
def clampCx (E1 : editorConf) : Option editorConf :=
  match (if E1.cy ≥ E1.num_rows then some 0
    else (rowAt E1.row E1.cy).map editorRow.size) with
  | none => none
  | some row_len => some (if E1.cx > row_len then { E1 with cx := row_len } else E1)

/-- The cases the two `switch` statements of `editorProccessKeypress` have in
common, in the order of the source (lines 1057-1091 and 1131-1166): Home, End,
the three deleting keys, the two page keys, the four arrows.  `other` is what
the `switch` does for a key that is none of them. -/
def sharedCases (E : editorConf) (c : Int) (other : Run editorConf) : Run editorConf :=
  if c = HOME_KEY then keypressDone { E with cx := 0 }
  else if c = END_KEY then
    if E.cy < E.num_rows then
      match rowAt E.row E.cy with
      | none => .undefined
      | some row => keypressDone { E with cx := row.size }
    else keypressDone E
  else if c = BACKSPACE ∨ c = CTRL_KEY 104 ∨ c = DEL_KEY then
    match (if c = DEL_KEY then editorMoveCursor E ARROW_RIGHT else some E) with
    | none => .undefined
    | some E1 => (Run.ofOption (editorDeleteChar E1)).bind keypressDone
  else if c = PAGE_UP ∨ c = PAGE_DOWN then
    (Run.ofOption (pageMove E (decide (c = PAGE_UP)))).bind keypressDone
  else if c = ARROW_LEFT ∨ c = ARROW_RIGHT ∨ c = ARROW_UP ∨ c = ARROW_DOWN then
    (Run.ofOption (editorMoveCursor E c)).bind keypressDone
  else other

/-- The keys of `sharedCases`. -/
def sharedKeys : List Int :=
  [ARROW_LEFT, ARROW_RIGHT, ARROW_UP, ARROW_DOWN, PAGE_UP, PAGE_DOWN, HOME_KEY, END_KEY, DEL_KEY,
    BACKSPACE, CTRL_KEY 104]

/-- The condition of the specification for the byte at index `i` of a rendered
row to be of number class, `hl` being the classes of the row: a digit at the
start of the row or after a separator or after a byte of number class, or a
`.` after a byte of number class. -/
def numberByte (render hl : List Nat) (i : Nat) : Prop :=
  (isdigit (render.getD i 0) = true ∧
    (i = 0 ∨ is_separator (render.getD (i - 1) 0) = true ∨ hl.getD (i - 1) 0 = HL_NUMBER)) ∨
  (render.getD i 0 = 46 ∧ 0 < i ∧ hl.getD (i - 1) 0 = HL_NUMBER)

instance (render hl : List Nat) (i : Nat) : Decidable (numberByte render hl i) := by
  unfold numberByte
  infer_instance

/-- The same condition inside the loop of `editorUpdateSyntax`, which starts at
some byte of the row with `prev_sep` and `prev_hl` describing the byte before
it. -/
def numberByteFrom (render hl : List Nat) (prev_sep : Bool) (prev_hl : Nat) : Nat → Prop
  | 0 =>
    (isdigit (render.getD 0 0) = true ∧ (prev_sep = true ∨ prev_hl = HL_NUMBER)) ∨
      (render.getD 0 0 = 46 ∧ prev_hl = HL_NUMBER)
  | j + 1 =>
    (isdigit (render.getD (j + 1) 0) = true ∧
      (is_separator (render.getD j 0) = true ∨ hl.getD j 0 = HL_NUMBER)) ∨
    (render.getD (j + 1) 0 = 46 ∧ hl.getD j 0 = HL_NUMBER)

/-- The rendered bytes of `int x = 5;` and of `x5`. -/
def sampleRender : List Nat := bytes "int x = 5;"

def sampleRenderX5 : List Nat := bytes "x5"

/-- The syntax profile of `HLDB` for C files. -/
def cSyntax : editorSyntax := HLDB.getD 0 { filetype := [], filematch := [], flags := 0 }

/-- One step of the column counter of the coordinate loops on a column that is
not negative. -/
def colStep (c : Nat) (col : Nat) : Nat :=
  if c = 9 then col + (ZOR_TAB_STOP - col % ZOR_TAB_STOP) else col + 1

/-- The column the counter reaches after the raw bytes `chars`, starting in
column `col`. -/
def renderCol : List Nat → Nat → Nat
  | [], col => col
  | c :: cs, col => renderCol cs (colStep c col)

/-- A row with a tab between two letters. -/
def tabRow : editorRow := { chars := [97, 9, 98], render := [], hl := [] }

/-- The command accumulator: the array `command_buffer` and `command_len`. -/
@[reducible] def editorConf.cmd (E : editorConf) : List Nat × Int :=
  (E.command_buffer, E.command_len)

/-- The accumulator is well formed: the array has its `ZOR_COMMAND_BUFFER_SIZE`
bytes, `command_len` lies between 0 and `ZOR_COMMAND_BUFFER_SIZE - 1`, and the
byte at `command_len` is NUL. -/
def commandOK (E : editorConf) : Prop :=
  E.command_buffer.length = ZOR_COMMAND_BUFFER_SIZE ∧ 0 ≤ E.command_len ∧
    E.command_len ≤ (ZOR_COMMAND_BUFFER_SIZE : Int) - 1 ∧
    E.command_buffer[E.command_len.toNat]? = some 0

instance (E : editorConf) : Decidable (commandOK E) := by
  unfold commandOK
  infer_instance

/-- The text accumulated: the first `command_len` bytes of the array. -/
def commandText (E : editorConf) : List Nat := E.command_buffer.take E.command_len.toNat

/-- A state in Command mode with the text `wq` in the accumulator. -/
def commandState : editorConf :=
  { startState with
    mode := .COMMAND_MODE,
    command_buffer := bytes "wq" ++ List.replicate (ZOR_COMMAND_BUFFER_SIZE - 2) 0,
    command_len := 2 }

/-- One call of `abAppend` in `editorDrawRows`: `abAppend(ab, &c[j], 1)`, which
appends one rendered byte of a row, or a call that appends a string literal or
an escape sequence.  A failing `realloc` in `abAppend` is not modelled. -/
inductive drawItem where
  | text (c : Nat)
  | control (s : List Nat)
  deriving DecidableEq

/-- The bytes an item adds to the frame. -/
def drawItem.bytes : drawItem → List Nat
  | .text c => [c]
  | .control s => s

/-- The start state with the file name `name` stored. -/
def namedState (name : String) : editorConf := { startState with filename := some (bytes name) }

/-- A rendered row holding the three bytes `"a"`, the quotes included. -/
def quotedRow : editorRow := { chars := [34, 97, 34], render := [34, 97, 34], hl := [] }

/-- The string spans of a rendered row in the words of the specification, as a
mark per byte: scanning from the left, a quote byte (`"` or `'`) outside a span
opens one, which runs through the next occurrence of the same quote byte, that
byte included, or through the end of the row when there is none; the scan goes
on after the span.  `fuel` bounds the number of spans and bytes outside them. -/
def stringMaskFuel : Nat → List Nat → List Bool
  | 0, _ => []
  | _ + 1, [] => []
  | fuel + 1, c :: cs =>
    if c = 34 ∨ c = 39 then
      true :: (List.replicate (cs.takeWhile (fun b => b ≠ c)).length true ++
        match cs.dropWhile (fun b => b ≠ c) with
        | [] => []
        | _ :: after => true :: stringMaskFuel fuel after)
    else false :: stringMaskFuel fuel cs

/-- The marks of the string spans of a row. -/
def stringMask (render : List Nat) : List Bool := stringMaskFuel render.length render

/-- The rendered bytes of `x = "a'b"7 'c`. -/
def quotedRender : List Nat := [120, 32, 61, 32, 34, 97, 39, 98, 34, 55, 32, 39, 99]

/-- A profile with both highlighting bits set. -/
def bothFlags : editorSyntax :=
  { filetype := bytes "c", filematch := C_HL_extensions,
    flags := HL_HIGHLIGHT_NUMBERS ||| HL_HIGHLIGHT_STRINGS }

/-- The prompt buffer after `editorPrompt` has handled key `c`, for a key that
does not end the prompt (lines 929-952). -/
def promptBuf (buf : List Nat) (c : Int) : List Nat :=
  if c = DEL_KEY ∨ c = CTRL_KEY 104 ∨ c = BACKSPACE then buf.dropLast
  else if c = 27 ∨ c = 13 then buf
  else if iscntrl c = false ∧ c < 128 then buf ++ [toByte c]
  else buf

/-- The key events `ks`, typed at buffer `buf`, do not end `editorPrompt`: none
of them is Escape, and Enter comes only while the buffer is empty. -/
def promptGoesOn : List Nat → List Int → Bool
  | _, [] => true
  | buf, c :: ks =>
    decide (c ≠ 27) && decide (c = 13 → buf = []) && promptGoesOn (promptBuf buf c) ks

/-- The rows of `E` are `rows0` but for the overlay of the last hit: when a
copy is saved, it is the highlight array of row `saved_hl_line` of `rows0`, and
that row alone differs, in `len` bytes from `off` on that hold `HL_MATCH`. -/
def overlayOf (rows0 : List editorRow) (E : editorConf) : Prop :=
  match E.saved_hl_search with
  | none => E.row = rows0
  | some saved => ∃ (k : Nat) (row : editorRow) (off len : Nat),
      rows0[k]? = some row ∧ E.saved_hl_line = k ∧ saved = row.hl ∧
      off + len ≤ row.render.length ∧
      E.row = rows0.set k { row with
        hl := row.hl.take off ++ List.replicate len HL_MATCH ++ row.hl.drop (off + len) }

/-- What holds between two calls of `editorFindCallback` in a search session on
the rows `rows0`: the rows carry at most the overlay of the last hit, the
cursor is valid, and `last_match` is -1 or the index of a row. -/
def sessionInv (rows0 : List editorRow) (E : editorConf) : Prop :=
  overlayOf rows0 E ∧ cursorValid E ∧
    (E.last_match = -1 ∨ (0 ≤ E.last_match ∧ E.last_match < (rows0.length : Int)))

/-! # Theorems -/

set_option maxRecDepth 100000

/-! ## The loop of the syntax selection makes no progress -/

/-- An iteration that finds a pattern and no hit is repeated with the same `i`:
no amount of fuel lets the loop end. -/
theorem selectWhile_stuck (E : editorConf) (filename : List Nat) (ext : Option (List Nat))
    (s : editorSyntax) (i : Nat) (pat : List Nat) (hpat : s.filematch[i]? = some pat)
    (hmiss : filematchHit filename ext pat = false) :
    ∀ fuel, selectWhile E filename ext s i fuel = none := by
  intro fuel
  induction fuel with
  | zero => rfl
  | succ n ih => simp [selectWhile, hpat, hmiss, ih]

/-- With a hit on the pattern at `i` the loop returns in its first iteration. -/
theorem selectWhile_hit (E : editorConf) (filename : List Nat) (ext : Option (List Nat))
    (s : editorSyntax) (i : Nat) (pat : List Nat) (hpat : s.filematch[i]? = some pat)
    (hhit : filematchHit filename ext pat = true) (fuel : Nat) :
    selectWhile E filename ext s i (fuel + 1) = some (some (selectSyntax E s)) := by
  simp [selectWhile, hpat, hhit]

/-- At the `NULL` entry the loop ends in its first test. -/
theorem selectWhile_end (E : editorConf) (filename : List Nat) (ext : Option (List Nat))
    (s : editorSyntax) (i : Nat) (hpat : s.filematch[i]? = none) (fuel : Nat) :
    selectWhile E filename ext s i (fuel + 1) = some none := by
  simp [selectWhile, hpat]

/-- The closed form `selectEntries` agrees with the fuelled loop started at
`i = 0`: it returns the state the loop returns, goes on with the next entry
when the loop ends, and diverges when the loop ends for no amount of fuel. -/
theorem selectEntries_cons (E : editorConf) (filename : List Nat) (ext : Option (List Nat))
    (s : editorSyntax) (rest : List editorSyntax) :
    (∀ fuel E1, selectWhile E filename ext s 0 fuel = some (some E1) →
      selectEntries E filename ext (s :: rest) = .ret E1) ∧
    (∀ fuel, selectWhile E filename ext s 0 fuel = some none →
      selectEntries E filename ext (s :: rest) = selectEntries E filename ext rest) ∧
    ((∀ fuel, selectWhile E filename ext s 0 fuel = none) →
      selectEntries E filename ext (s :: rest) = .diverge E) := by
  cases hpat : s.filematch[0]? with
  | none =>
    refine ⟨fun fuel E1 h => ?_, fun _ _ => by simp [selectEntries, hpat], fun h => ?_⟩
    · cases fuel with
      | zero => simp [selectWhile] at h
      | succ n => simp [selectWhile, hpat] at h
    · have := h 1
      simp [selectWhile, hpat] at this
  | some pat =>
    by_cases hhit : filematchHit filename ext pat = true
    · refine ⟨fun fuel E1 h => ?_, fun fuel h => ?_, fun h => ?_⟩
      · cases fuel with
        | zero => simp [selectWhile] at h
        | succ n =>
          simp only [selectWhile, hpat, hhit, if_true, Option.some.injEq] at h
          simp [selectEntries, hpat, hhit, h]
      · cases fuel with
        | zero => simp [selectWhile] at h
        | succ n => simp [selectWhile, hpat, hhit] at h
      · have := h 1
        simp [selectWhile, hpat, hhit] at this
    · have hmiss : filematchHit filename ext pat = false := by simpa using hhit
      have hstuck := selectWhile_stuck E filename ext s 0 pat hpat hmiss
      refine ⟨fun fuel E1 h => ?_, fun fuel h => ?_, fun _ => ?_⟩
      · rw [hstuck fuel] at h; simp at h
      · rw [hstuck fuel] at h; simp at h
      · simp [selectEntries, hpat, hmiss]


/-! ## Rendering and highlighting stay in step with the raw bytes (C1) -/

theorem tabFill_eq : ∀ (fuel : Nat) (r : List Nat),
    (ZOR_TAB_STOP - r.length % ZOR_TAB_STOP) % ZOR_TAB_STOP ≤ fuel →
    tabFill fuel r
      = r ++ List.replicate ((ZOR_TAB_STOP - r.length % ZOR_TAB_STOP) % ZOR_TAB_STOP) 32 := by
  intro fuel
  induction fuel with
  | zero =>
    intro r h
    have h0 : (ZOR_TAB_STOP - r.length % ZOR_TAB_STOP) % ZOR_TAB_STOP = 0 := by omega
    simp [tabFill, h0]
  | succ n ih =>
    intro r h
    unfold tabFill
    by_cases hr : r.length % ZOR_TAB_STOP = 0
    · simp only [ZOR_TAB_STOP] at hr ⊢
      simp [hr]
    · have hlen : (r ++ [32]).length = r.length + 1 := by simp
      have hk : (ZOR_TAB_STOP - (r ++ [32]).length % ZOR_TAB_STOP) % ZOR_TAB_STOP + 1
          = (ZOR_TAB_STOP - r.length % ZOR_TAB_STOP) % ZOR_TAB_STOP := by
        rw [hlen]; simp only [ZOR_TAB_STOP] at hr ⊢; omega
      rw [if_pos hr, ih (r ++ [32]) (by omega), ← hk, List.replicate_succ]
      simp

theorem tabFill_tab (r : List Nat) :
    tabFill ZOR_TAB_STOP (r ++ [32])
      = r ++ List.replicate (ZOR_TAB_STOP - r.length % ZOR_TAB_STOP) 32 := by
  have hlen : (r ++ [32]).length = r.length + 1 := by simp
  have hk : (ZOR_TAB_STOP - (r ++ [32]).length % ZOR_TAB_STOP) % ZOR_TAB_STOP + 1
      = ZOR_TAB_STOP - r.length % ZOR_TAB_STOP := by
    rw [hlen]; simp only [ZOR_TAB_STOP]; omega
  rw [tabFill_eq _ _ (by rw [hlen]; simp only [ZOR_TAB_STOP]; omega), ← hk, List.replicate_succ]
  simp

theorem editorUpdateRowLoop_eq : ∀ (chars r : List Nat),
    editorUpdateRowLoop chars r = r ++ tabExpand chars r.length := by
  intro chars
  induction chars with
  | nil => intro r; simp [editorUpdateRowLoop, tabExpand]
  | cons c cs ih =>
    intro r
    unfold editorUpdateRowLoop tabExpand
    by_cases hc : c = 9
    · rw [if_pos hc, if_pos hc, tabFill_tab, ih]
      simp
    · rw [if_neg hc, if_neg hc, ih]
      simp

theorem editorUpdateSyntaxLoop_length (flags : Nat) : ∀ (render : List Nat) (ps : Bool)
    (ins ph : Nat), (editorUpdateSyntaxLoop flags render ps ins ph).length = render.length := by
  intro render
  induction render with
  | nil => intro ps ins ph; simp [editorUpdateSyntaxLoop]
  | cons c cs ih =>
    intro ps ins ph
    unfold editorUpdateSyntaxLoop
    split_ifs <;> simp [ih]

theorem editorUpdateSyntax_hl_length (syn : Option editorSyntax) (row : editorRow) :
    (editorUpdateSyntax syn row).hl.length = row.render.length := by
  cases syn <;> simp [editorUpdateSyntax, editorUpdateSyntaxLoop_length]

theorem editorUpdateSyntax_render (syn : Option editorSyntax) (row : editorRow) :
    (editorUpdateSyntax syn row).render = row.render := by
  cases syn <;> simp [editorUpdateSyntax]

theorem editorUpdateSyntax_chars (syn : Option editorSyntax) (row : editorRow) :
    (editorUpdateSyntax syn row).chars = row.chars := by
  cases syn <;> simp [editorUpdateSyntax]

theorem editorUpdateRow_chars (syn : Option editorSyntax) (row : editorRow) :
    (editorUpdateRow syn row).chars = row.chars := by
  simp [editorUpdateRow, editorUpdateSyntax_chars]

theorem editorUpdateRow_render (syn : Option editorSyntax) (row : editorRow) :
    (editorUpdateRow syn row).render = tabExpand row.chars 0 := by
  simp [editorUpdateRow, editorUpdateSyntax_render, editorUpdateRowLoop_eq]

theorem editorUpdateRow_hl_length (syn : Option editorSyntax) (row : editorRow) :
    (editorUpdateRow syn row).hl.length = (editorUpdateRow syn row).render.length := by
  simp [editorUpdateRow, editorUpdateSyntax_render, editorUpdateSyntax_hl_length]

theorem rowsDerived_refl (E : editorConf) : rowsDerived E E :=
  ⟨rfl, fun _ h => Or.inl h⟩

theorem rowsDerived_of_eq {E E1 : editorConf} (hs : E1.syn = E.syn) (hr : E1.row = E.row) :
    rowsDerived E E1 :=
  ⟨hs, fun _ h => Or.inl (hr ▸ h)⟩

theorem rowsDerived_trans {E E1 E2 : editorConf} (h1 : rowsDerived E E1)
    (h2 : rowsDerived E1 E2) : rowsDerived E E2 := by
  refine ⟨h2.1.trans h1.1, fun row hrow => ?_⟩
  rcases h2.2 row hrow with h | ⟨r, h⟩
  · exact h1.2 row h
  · exact Or.inr ⟨r, by rw [h, h1.1]⟩

theorem rowsDerived_insertRow (E : editorConf) (pos : Int) (s : List Nat) :
    rowsDerived E (editorInsertRow E pos s) := by
  unfold editorInsertRow
  split_ifs
  · exact rowsDerived_refl E
  · refine ⟨rfl, fun row hrow => ?_⟩
    simp only [List.mem_append, List.mem_singleton] at hrow
    rcases hrow with (h | h) | h
    · exact Or.inl (List.mem_of_mem_take h)
    · exact Or.inr ⟨_, h⟩
    · exact Or.inl (List.mem_of_mem_drop h)

theorem rowsDerived_deleteRow (E : editorConf) (pos : Int) :
    rowsDerived E (editorDeleteRow E pos) := by
  unfold editorDeleteRow
  split_ifs
  · exact rowsDerived_refl E
  · refine ⟨rfl, fun row hrow => ?_⟩
    simp only [List.mem_append] at hrow
    rcases hrow with h | h
    · exact Or.inl (List.mem_of_mem_take h)
    · exact Or.inl (List.mem_of_mem_drop h)

theorem rowsDerived_set {E E1 : editorConf} (n : Nat) (r : editorRow) (hs : E1.syn = E.syn)
    (hr : E1.row = E.row.set n (editorUpdateRow E.syn r)) : rowsDerived E E1 := by
  refine ⟨hs, fun row hrow => ?_⟩
  rw [hr] at hrow
  rcases List.mem_or_eq_of_mem_set hrow with h | h
  · exact Or.inl h
  · exact Or.inr ⟨_, h⟩

theorem rowsDerived_rowInsertChar {E E1 : editorConf} {r pos c : Int}
    (h : editorRowInsertChar E r pos c = some E1) : rowsDerived E E1 := by
  unfold editorRowInsertChar at h
  split at h
  · simp at h
  · simp only [Option.some.injEq] at h
    subst h
    exact rowsDerived_set _ _ rfl rfl

theorem rowsDerived_rowAppendString {E E1 : editorConf} {r : Int} {s : List Nat}
    (h : editorRowAppendString E r s = some E1) : rowsDerived E E1 := by
  unfold editorRowAppendString at h
  split at h
  · simp at h
  · simp only [Option.some.injEq] at h
    subst h
    exact rowsDerived_set _ _ rfl rfl

theorem rowsDerived_rowDeleteChar {E E1 : editorConf} {r pos : Int}
    (h : editorRowDeleteChar E r pos = some E1) : rowsDerived E E1 := by
  unfold editorRowDeleteChar at h
  split at h
  · simp at h
  · split_ifs at h
    · simp only [Option.some.injEq] at h
      subst h
      exact rowsDerived_refl E
    · simp only [Option.some.injEq] at h
      subst h
      exact rowsDerived_set _ _ rfl rfl

theorem rowsDerived_insertChar {E E1 : editorConf} {c : Int}
    (h : editorInsertChar E c = some E1) : rowsDerived E E1 := by
  unfold editorInsertChar at h
  simp only at h
  split at h
  · simp at h
  · rename_i E2 h2
    simp only [Option.some.injEq] at h
    subst h
    have h3 := rowsDerived_rowInsertChar h2
    have h4 : rowsDerived E (if E.cy = E.num_rows then editorInsertRow E E.num_rows [] else E) := by
      split_ifs
      · exact rowsDerived_insertRow E _ _
      · exact rowsDerived_refl E
    exact rowsDerived_trans (rowsDerived_trans h4 h3) (rowsDerived_of_eq rfl rfl)

theorem rowsDerived_insertNewline {E E1 : editorConf}
    (h : editorInsertNewline E = some E1) : rowsDerived E E1 := by
  unfold editorInsertNewline at h
  split_ifs at h
  · simp only [Option.some.injEq] at h
    subst h
    exact rowsDerived_trans (rowsDerived_insertRow E _ _) (rowsDerived_of_eq rfl rfl)
  · cases hrow : rowAt E.row E.cy with
    | none => simp [hrow] at h
    | some row =>
      simp only [hrow] at h
      split_ifs at h
      have hI := rowsDerived_insertRow E (E.cy + 1) (List.drop E.cx.toNat row.chars)
      split at h
      · simp at h
      · simp only [Option.some.injEq] at h
        subst h
        exact rowsDerived_trans hI (rowsDerived_set _ _ rfl rfl)

theorem rowsDerived_deleteChar {E E1 : editorConf}
    (h : editorDeleteChar E = some E1) : rowsDerived E E1 := by
  unfold editorDeleteChar at h
  split_ifs at h
  · simp only [Option.some.injEq] at h; subst h; exact rowsDerived_refl E
  · simp only [Option.some.injEq] at h; subst h; exact rowsDerived_refl E
  · split at h
    · simp at h
    · rename_i E2 h2
      simp only [Option.some.injEq] at h
      subst h
      exact rowsDerived_trans (rowsDerived_rowDeleteChar h2) (rowsDerived_of_eq rfl rfl)
  · split at h
    · simp only at h
      split at h
      · simp at h
      · rename_i E2 h2
        simp only [Option.some.injEq] at h
        subst h
        have h4 := rowsDerived_rowAppendString h2
        have h3 : rowsDerived E E2 := rowsDerived_trans (rowsDerived_of_eq rfl rfl) h4
        exact rowsDerived_trans h3
          (rowsDerived_trans (rowsDerived_deleteRow E2 _) (rowsDerived_of_eq rfl rfl))
    · simp at h

theorem rowsDerived_moveCursor {E E1 : editorConf} {key : Int}
    (h : editorMoveCursor E key = some E1) : rowsDerived E E1 := by
  unfold editorMoveCursor at h
  split at h
  · simp at h
  · rename_i E2 h2
    have h3 : rowsDerived E E2 := by
      apply rowsDerived_of_eq
      · split_ifs at h2 <;> first
          | (simp only [Option.some.injEq] at h2; subst h2; rfl)
          | (split at h2 <;> first
              | (simp at h2; done)
              | (split_ifs at h2 <;> simp only [Option.some.injEq] at h2 <;> subst h2 <;> rfl)
              | (simp only [Option.some.injEq] at h2; subst h2; rfl))
      · split_ifs at h2 <;> first
          | (simp only [Option.some.injEq] at h2; subst h2; rfl)
          | (split at h2 <;> first
              | (simp at h2; done)
              | (split_ifs at h2 <;> simp only [Option.some.injEq] at h2 <;> subst h2 <;> rfl)
              | (simp only [Option.some.injEq] at h2; subst h2; rfl))
    split at h
    · simp at h
    · simp only [Option.some.injEq] at h
      subst h
      refine rowsDerived_trans h3 (rowsDerived_of_eq ?_ ?_) <;> split_ifs <;> rfl

theorem rowsDerived_applyMutation {E E1 : editorConf} {m : rowMutation}
    (h : applyMutation E m = some E1) : rowsDerived E E1 := by
  cases m <;> simp only [applyMutation, Option.some.injEq] at h
  · exact rowsDerived_rowInsertChar h
  · exact rowsDerived_rowDeleteChar h
  · exact rowsDerived_rowAppendString h
  · subst h; exact rowsDerived_insertRow E _ _
  · subst h; exact rowsDerived_deleteRow E _
  · exact rowsDerived_insertChar h
  · exact rowsDerived_insertNewline h
  · exact rowsDerived_deleteChar h
  · exact rowsDerived_moveCursor h

theorem rowsDerived_applyMutations : ∀ (ms : List rowMutation) (E E1 : editorConf),
    applyMutations ms E = some E1 → rowsDerived E E1 := by
  intro ms
  induction ms with
  | nil =>
    intro E E1 h
    simp only [applyMutations, Option.some.injEq] at h
    subst h
    exact rowsDerived_refl E
  | cons m ms ih =>
    intro E E1 h
    unfold applyMutations at h
    split at h
    · simp at h
    · rename_i E2 h2
      exact rowsDerived_trans (rowsDerived_applyMutation h2) (ih E2 E1 h)

theorem rowOK_editorUpdateRow (syn : Option editorSyntax) (r : editorRow) :
    rowOK (editorUpdateRow syn r) := by
  refine ⟨editorUpdateRow_hl_length syn r, ?_, ?_⟩
  · simp [editorRow.rsize, editorUpdateRow_hl_length]
  · rw [editorUpdateRow_render, editorUpdateRow_chars]

theorem hlFresh_editorUpdateRow (syn : Option editorSyntax) (r : editorRow) :
    hlFresh syn (editorUpdateRow syn r) := by
  unfold hlFresh editorUpdateRow
  cases syn <;> simp [editorUpdateSyntax]

/-- C1. Starting from a document whose rows are consistent, after every
sequence of row mutations (with cursor movements in between) that the code
executes, every row has a highlight array as long as its rendered bytes and
`rsize`, and rendered bytes equal to the tab expansion of its raw bytes; rows
whose highlight was the one of the syntax scan keep that property too. -/
theorem row_mutations_keep_render_and_highlight (ms : List rowMutation) (E E1 : editorConf)
    (hE : ∀ row ∈ E.row, rowOK row) (hrun : applyMutations ms E = some E1) :
    (∀ row ∈ E1.row, rowOK row) ∧
      ((∀ row ∈ E.row, hlFresh E.syn row) → ∀ row ∈ E1.row, hlFresh E1.syn row) := by
  have hd := rowsDerived_applyMutations ms E E1 hrun
  refine ⟨fun row hrow => ?_, fun hf row hrow => ?_⟩
  · rcases hd.2 row hrow with h | ⟨r, h⟩
    · exact hE row h
    · rw [h]; exact rowOK_editorUpdateRow _ _
  · rw [hd.1]
    rcases hd.2 row hrow with h | ⟨r, h⟩
    · exact hf row h
    · rw [h]; exact hlFresh_editorUpdateRow _ _

theorem row_mutations_witness :
    ∃ E1, applyMutations sampleMutations startState = some E1 ∧
      E1.row.map (fun r => r.chars) = [[9, 120, 98, 33], [9, 9]] ∧
      (∀ row ∈ E1.row, rowOK row) ∧
      ((∀ row ∈ startState.row, hlFresh startState.syn row) →
        ∀ row ∈ E1.row, hlFresh E1.syn row) :=
  ⟨_, rfl, rfl,
    row_mutations_keep_render_and_highlight sampleMutations startState _
      (by simp [startState, initEditor]) rfl⟩

/-! ## The two coordinate maps on rows without tabs (C2) -/

theorem rxStep_no_tab {c : Nat} (hc : c ≠ 9) (rx : Int) : rxStep c rx = rx + 1 := by
  simp [rxStep, hc]

theorem editorRowCxToRxLoop_no_tab : ∀ (chars : List Nat) (n : Nat) (rx : Int),
    9 ∉ chars → n ≤ chars.length → editorRowCxToRxLoop chars n rx = some (rx + n) := by
  intro chars
  induction chars with
  | nil =>
    intro n rx _ hn
    have : n = 0 := by simpa using hn
    subst this
    simp [editorRowCxToRxLoop]
  | cons c cs ih =>
    intro n rx hnt hn
    cases n with
    | zero => simp [editorRowCxToRxLoop]
    | succ m =>
      have hc : c ≠ 9 := fun h => hnt (by simp [h])
      have hcs : 9 ∉ cs := fun h => hnt (by simp [h])
      rw [editorRowCxToRxLoop, rxStep_no_tab hc, ih m (rx + 1) hcs (by simpa using hn)]
      congr 1
      push_cast
      omega

theorem editorRowRxToCxLoop_no_tab : ∀ (chars : List Nat) (cx curr_rx rx : Int),
    9 ∉ chars → curr_rx ≤ rx →
    editorRowRxToCxLoop chars cx curr_rx rx = cx + min (rx - curr_rx) (chars.length : Int) := by
  intro chars
  induction chars with
  | nil =>
    intro cx cur rx _ h
    simp only [editorRowRxToCxLoop, List.length_nil, Nat.cast_zero]
    omega
  | cons c cs ih =>
    intro cx cur rx hnt h
    have hc : c ≠ 9 := fun h => hnt (by simp [h])
    have hcs : 9 ∉ cs := fun h => hnt (by simp [h])
    rw [editorRowRxToCxLoop, rxStep_no_tab hc]
    by_cases hgt : cur + 1 > rx
    · rw [if_pos hgt]
      simp only [List.length_cons, Nat.cast_add, Nat.cast_one]
      omega
    · rw [if_neg hgt, ih (cx + 1) (cur + 1) rx hcs (by omega)]
      simp only [List.length_cons, Nat.cast_add, Nat.cast_one]
      omega

/-- C2. On a row without a tab, for every raw column `col` with
`0 <= col <= size`, `editorRowCxToRx` returns a rendered column and
`editorRowRxToCx` maps it back to `col`. -/
theorem rx_to_cx_inverts_cx_to_rx_without_tab (row : editorRow) (col : Int)
    (hnotab : 9 ∉ row.chars) (h0 : 0 ≤ col) (h1 : col ≤ row.size) :
    ∃ rx, editorRowCxToRx row col = some rx ∧ editorRowRxToCx row rx = col := by
  have hn : col.toNat ≤ row.chars.length := by
    simp only [editorRow.size] at h1
    omega
  refine ⟨0 + (col.toNat : Int), editorRowCxToRxLoop_no_tab _ _ _ hnotab hn, ?_⟩
  unfold editorRowRxToCx
  rw [editorRowRxToCxLoop_no_tab _ _ _ _ hnotab (by omega)]
  simp only [editorRow.size] at h1
  omega

theorem rx_to_cx_inverts_cx_to_rx_witness :
    ∃ rx, editorRowCxToRx { chars := [97, 98, 99], render := [97, 98, 99], hl := [0, 0, 0] } 2
        = some rx ∧
      editorRowRxToCx { chars := [97, 98, 99], render := [97, 98, 99], hl := [0, 0, 0] } rx = 2 :=
  rx_to_cx_inverts_cx_to_rx_without_tab _ 2 (by decide) (by decide) (by decide)

/-! ## Loading a file and serialising it (C3) -/

theorem editorInsertRow_at_end (E : editorConf) (s : List Nat) :
    (editorInsertRow E E.num_rows s).row
        = E.row ++ [editorUpdateRow E.syn { chars := s, render := [], hl := [] }] ∧
      (editorInsertRow E E.num_rows s).syn = E.syn := by
  have h : ¬ (E.num_rows < 0 ∨ E.num_rows > E.num_rows) := by
    simp only [editorConf.num_rows]; omega
  unfold editorInsertRow
  rw [if_neg h]
  simp [editorConf.num_rows]

theorem editorOpenLoop_chars : ∀ (lines : List (List Nat)) (E : editorConf),
    (editorOpenLoop lines E).row.map (fun r => r.chars)
      = E.row.map (fun r => r.chars) ++ lines.map stripEol := by
  intro lines
  induction lines with
  | nil => intro E; simp [editorOpenLoop]
  | cons l ls ih =>
    intro E
    rw [editorOpenLoop, ih, (editorInsertRow_at_end E (stripEol l)).1]
    simp [editorUpdateRow_chars]

theorem rowsCopy_eq : ∀ rows : List editorRow,
    rowsCopy rows = (rows.map (fun r => r.chars ++ [10])).flatten := by
  intro rows
  induction rows with
  | nil => simp [rowsCopy]
  | cons r rs ih => simp [rowsCopy, ih]

theorem rowsTotalLen_eq : ∀ rows : List editorRow,
    rowsTotalLen rows = (rows.map (fun r => r.size)).sum + (rows.length : Int) := by
  intro rows
  induction rows with
  | nil => simp [rowsTotalLen]
  | cons r rs ih =>
    simp only [rowsTotalLen, ih, List.map_cons, List.sum_cons, List.length_cons]
    push_cast
    omega

theorem rowsTotalLen_eq_length : ∀ rows : List editorRow,
    rowsTotalLen rows = ((rowsCopy rows).length : Int) := by
  intro rows
  induction rows with
  | nil => simp [rowsTotalLen, rowsCopy]
  | cons r rs ih =>
    simp only [rowsTotalLen, rowsCopy, ih, editorRow.size, List.length_append,
      List.length_singleton]
    push_cast
    omega

theorem getlines_line : ∀ (l cur rest : List Nat), 10 ∉ l →
    getlines (l ++ 10 :: rest) cur = (cur ++ l ++ [10]) :: getlines rest [] := by
  intro l
  induction l with
  | nil => intro cur rest _; simp [getlines]
  | cons c cs ih =>
    intro cur rest h
    have hc : c ≠ 10 := fun e => h (by simp [e])
    have hcs : 10 ∉ cs := fun e => h (by simp [e])
    rw [List.cons_append, getlines, if_neg hc, ih _ _ hcs]
    simp

theorem getlines_terminated : ∀ lines : List (List Nat), (∀ l ∈ lines, 10 ∉ l) →
    getlines (lines.map (fun l => l ++ [10])).flatten [] = lines.map (fun l => l ++ [10]) := by
  intro lines
  induction lines with
  | nil => intro _; simp [getlines]
  | cons l ls ih =>
    intro h
    have hl : 10 ∉ l := h l (by simp)
    have hls : ∀ l ∈ ls, 10 ∉ l := fun x hx => h x (by simp [hx])
    simp only [List.map_cons, List.flatten_cons, List.append_assoc, List.singleton_append]
    rw [getlines_line l [] _ hl, ih hls]
    simp

theorem stripEol_terminated (l : List Nat) (h10 : 10 ∉ l) (h13 : 13 ∉ l) :
    stripEol (l ++ [10]) = l := by
  unfold stripEol
  simp only [List.reverse_append, List.reverse_singleton, List.singleton_append]
  rw [List.dropWhile_cons_of_pos (by simp)]
  have : l.reverse.dropWhile (fun b => decide (b = 10 ∨ b = 13)) = l.reverse := by
    cases hr : l.reverse with
    | nil => simp
    | cons x xs =>
      have hx : x ∈ l := by
        have : x ∈ l.reverse := by rw [hr]; simp
        simpa using this
      have h1 : x ≠ 10 := fun e => h10 (e ▸ hx)
      have h2 : x ≠ 13 := fun e => h13 (e ▸ hx)
      rw [List.dropWhile_cons_of_neg (by simp [h1, h2])]
  rw [this, List.reverse_reverse]

theorem selectEntries_row_nil (filename : List Nat) (ext : Option (List Nat)) :
    ∀ (entries : List editorSyntax) (E E0 : editorConf), E.row = [] →
    selectEntries E filename ext entries = .ret E0 → E0.row = [] := by
  intro entries
  induction entries with
  | nil =>
    intro E E0 hrow h
    simp only [selectEntries, Run.ret.injEq] at h
    rw [← h, hrow]
  | cons s rest ih =>
    intro E E0 hrow h
    unfold selectEntries at h
    split at h
    · exact ih E E0 hrow h
    · split_ifs at h
      simp only [Run.ret.injEq] at h
      rw [← h]
      simp [selectSyntax, hrow]

theorem editorSelectSyntaxHighlight_row_nil {E E0 : editorConf} (hrow : E.row = [])
    (h : editorSelectSyntaxHighlight E = .ret E0) : E0.row = [] := by
  unfold editorSelectSyntaxHighlight at h
  simp only at h
  split at h
  · simp only [Run.ret.injEq] at h
    rw [← h]
    exact hrow
  · exact selectEntries_row_nil _ _ _ _ _ (by exact hrow) h

/-- Loading a file into an empty editor, once the syntax selection for its name
has returned, gives one row per line of the file (split after each LF) holding
the line without its trailing CR/LF bytes; serialising at once with
`editorRowsToString` yields each row followed by one LF, in order, with the
reported length equal to the sum of the row lengths plus the number of rows
(the length of the buffer); and a file made of lines without CR, each ended by
one LF, is reproduced byte for byte. -/
theorem editorOpen_rows_to_string (E E0 : editorConf) (filename content : List Nat)
    (hrow : E.row = [])
    (hsel : editorSelectSyntaxHighlight { E with filename := some (cstr filename) } = .ret E0) :
    ∃ E1, editorOpen E filename (some content) = .ret E1 ∧
      E1.row.map (fun r => r.chars) = (getlines content []).map stripEol ∧
      (editorRowsToString E1).1 = (E1.row.map (fun r => r.chars ++ [10])).flatten ∧
      (editorRowsToString E1).1
        = ((getlines content []).map (fun l => stripEol l ++ [10])).flatten ∧
      (editorRowsToString E1).2 = (E1.row.map (fun r => r.size)).sum + E1.num_rows ∧
      (editorRowsToString E1).2 = ((editorRowsToString E1).1.length : Int) ∧
      ∀ lines : List (List Nat), content = (lines.map (fun l => l ++ [10])).flatten →
        (∀ l ∈ lines, 10 ∉ l ∧ 13 ∉ l) → (editorRowsToString E1).1 = content := by
  have hrow0 : E0.row = [] := editorSelectSyntaxHighlight_row_nil (by simpa using hrow) hsel
  have hchars : (editorOpenLoop (getlines content []) E0).row.map (fun r => r.chars)
      = (getlines content []).map stripEol := by
    rw [editorOpenLoop_chars, hrow0]; simp
  have hbuf : rowsCopy (editorOpenLoop (getlines content []) E0).row
      = ((getlines content []).map (fun l => stripEol l ++ [10])).flatten := by
    rw [rowsCopy_eq]
    have : (editorOpenLoop (getlines content []) E0).row.map (fun r => r.chars ++ [10])
        = ((editorOpenLoop (getlines content []) E0).row.map (fun r => r.chars)).map
            (fun l => l ++ [10]) := by
      simp
    rw [this, hchars]
    simp [Function.comp_def]
  refine ⟨{ editorOpenLoop (getlines content []) E0 with dirty := 0 }, ?_, hchars, ?_, hbuf,
    ?_, ?_, ?_⟩
  · simp [editorOpen, hsel, Run.bind]
  · simp [editorRowsToString, rowsCopy_eq]
  · simp [editorRowsToString, rowsTotalLen_eq, editorConf.num_rows]
  · simp [editorRowsToString, rowsTotalLen_eq_length]
  · intro lines hc hl
    simp only [editorRowsToString]
    rw [hbuf, hc, getlines_terminated lines (fun l h => (hl l h).1)]
    congr 1
    rw [List.map_map]
    apply List.map_congr_left
    intro l h
    simp [stripEol_terminated l (hl l h).1 (hl l h).2]

/-! ## Rows addressed by an `int` index -/

theorem rowAt_natCast (rows : List editorRow) (n : Nat) : rowAt rows (n : Int) = rows[n]? := by
  simp [rowAt]

theorem rowAt_some_of_lt (rows : List editorRow) (i : Int) (h0 : 0 ≤ i)
    (h1 : i < (rows.length : Int)) : ∃ row, rowAt rows i = some row ∧ rows[i.toNat]? = some row := by
  have hlt : i.toNat < rows.length := by omega
  refine ⟨rows[i.toNat], ?_, ?_⟩
  · simp [rowAt, h0, List.getElem?_eq_getElem hlt]
  · exact List.getElem?_eq_getElem hlt

theorem rowAt_lt {rows : List editorRow} {i : Int} {row : editorRow}
    (h : rowAt rows i = some row) : 0 ≤ i ∧ i < (rows.length : Int) := by
  unfold rowAt at h
  split_ifs at h with h0
  have := (List.getElem?_eq_some_iff.mp h).1
  omega

theorem take_drop_set_succ {α : Type} : ∀ (l : List α) (m : Nat) (x : α), m < l.length →
    (l.set m x).take (m + 1) ++ (l.set m x).drop (m + 2) = l.take m ++ [x] ++ l.drop (m + 2) := by
  intro l
  induction l with
  | nil => intro m x h; simp at h
  | cons a as ih =>
    intro m x h
    cases m with
    | zero => simp
    | succ k =>
      have hk : k < as.length := by simpa using h
      have := ih k x hk
      simp only [List.set_cons_succ, List.take_succ_cons, List.drop_succ_cons, List.cons_append,
        List.append_assoc] at this ⊢
      rw [this]


theorem drop_eq_cons_of_getElem? {α : Type} : ∀ (l : List α) (n : Nat) (x : α),
    l[n]? = some x → l.drop n = x :: l.drop (n + 1) := by
  intro l
  induction l with
  | nil => intro n x h; simp at h
  | cons a as ih =>
    intro n x h
    cases n with
    | zero => simp at h; simp [h]
    | succ k =>
      simp only [List.getElem?_cons_succ] at h
      simpa using ih k x h

theorem set_take_succ_append {α : Type} : ∀ (l t : List α) (n : Nat) (x : α), n < l.length →
    (l.take (n + 1) ++ t).set n x = l.take n ++ x :: t := by
  intro l
  induction l with
  | nil => intro t n x h; simp at h
  | cons a as ih =>
    intro t n x h
    cases n with
    | zero => simp
    | succ k =>
      have hk : k < as.length := by simpa using h
      simp [ih t k x hk]

theorem getElem?_take_succ_append {α : Type} (l t : List α) (n : Nat) (h : n < l.length) :
    (l.take (n + 1) ++ t)[n]? = l[n]? := by
  rw [List.getElem?_append_left (by simp; omega), List.getElem?_take_of_lt (by omega)]


/-! ## The cursor invariant under Arrow Down (C4) -/

/-- C4 (the code breaks the claim). In the start state, which satisfies the
cursor invariant, the key Arrow Down processed in Normal mode returns a state
with `cy = num_rows + 1`, outside the invariant, and the same happens with `j`
on a non-empty document with the cursor past its last row; typing `i a` after
the Arrow Down then indexes `row[cy]` outside the array. -/
theorem arrow_down_moves_cursor_past_document :
    cursorValid startState ∧
    (∃ E1, editorProccessKeypress startState ARROW_DOWN = .ret E1 ∧
      E1.num_rows = 0 ∧ E1.cy = 1 ∧ ¬ cursorValid E1) ∧
    cursorValid { sampleDoc with cy := 2 } ∧
    (∃ E1, editorProccessKeypress { sampleDoc with cy := 2 } 106 = .ret E1 ∧
      E1.num_rows = 2 ∧ E1.cy = 3 ∧ ¬ cursorValid E1) ∧
    mainLoop 3 { startState with input := [ARROW_DOWN, 105, 97] } = .undefined :=
  ⟨by decide, ⟨_, rfl, by decide, by decide, by decide⟩, by decide,
    ⟨_, rfl, by decide, by decide, by decide⟩, rfl⟩

/-! ## Backward delete at the start of a line (C5) -/

/-- C5. With the cursor in column 0: on row 0 `editorDeleteChar` changes
nothing; on a row `r` with `0 < r < num_rows` it replaces rows `r - 1` and `r`
by one row holding the bytes of row `r - 1` followed by those of row `r`
(rendered anew), keeps every other row and their order, so that `num_rows`
drops by one, and leaves the cursor at row `r - 1`, column `size` of the old
row `r - 1`. -/
theorem backward_delete_at_column_zero (E : editorConf) (hcx : E.cx = 0) :
    (E.cy = 0 → editorDeleteChar E = some E) ∧
    (0 < E.cy → E.cy < E.num_rows →
      ∃ prev cur E1, rowAt E.row (E.cy - 1) = some prev ∧ rowAt E.row E.cy = some cur ∧
        editorDeleteChar E = some E1 ∧
        E1.row = E.row.take (E.cy.toNat - 1)
          ++ [editorUpdateRow E.syn { prev with chars := prev.chars ++ cur.chars }]
          ++ E.row.drop (E.cy.toNat + 1) ∧
        (editorUpdateRow E.syn { prev with chars := prev.chars ++ cur.chars }).chars
          = prev.chars ++ cur.chars ∧
        E1.num_rows = E.num_rows - 1 ∧ E1.cy = E.cy - 1 ∧ E1.cx = prev.size) := by
  constructor
  · intro hcy
    unfold editorDeleteChar
    split_ifs <;> first | rfl | (exfalso; omega)
  · intro h0 h1
    simp only [editorConf.num_rows] at h1
    obtain ⟨cur, hcur, hcur'⟩ := rowAt_some_of_lt E.row E.cy (by omega) h1
    obtain ⟨prev, hprev, hprev'⟩ := rowAt_some_of_lt E.row (E.cy - 1) (by omega) (by omega)
    have hm : (E.cy - 1).toNat = E.cy.toNat - 1 := by omega
    have hlt : E.cy.toNat - 1 < E.row.length := by omega
    have hsucc : E.cy.toNat - 1 + 1 = E.cy.toNat := by omega
    have hrows : (E.row.set (E.cy.toNat - 1)
          (editorUpdateRow E.syn { prev with chars := prev.chars ++ cur.chars })).take E.cy.toNat
        ++ (E.row.set (E.cy.toNat - 1)
          (editorUpdateRow E.syn { prev with chars := prev.chars ++ cur.chars })).drop
            (E.cy.toNat + 1)
        = E.row.take (E.cy.toNat - 1)
          ++ [editorUpdateRow E.syn { prev with chars := prev.chars ++ cur.chars }]
          ++ E.row.drop (E.cy.toNat + 1) := by
      have := take_drop_set_succ E.row (E.cy.toNat - 1)
        (editorUpdateRow E.syn { prev with chars := prev.chars ++ cur.chars }) hlt
      rw [hsucc] at this
      have h2 : E.cy.toNat - 1 + 2 = E.cy.toNat + 1 := by omega
      rw [h2] at this
      exact this
    have hne1 : ¬ E.cy = (E.row.length : Int) := by omega
    have hne2 : ¬ (E.cx = 0 ∧ E.cy = 0) := by omega
    have hne3 : ¬ E.cx > 0 := by omega
    have hdel : ¬ (E.cy < 0 ∨ E.cy ≥ (E.row.length : Int)) := by omega
    refine ⟨prev, cur,
      { E with
        cx := prev.size, cy := E.cy - 1, dirty := wrapInt (wrapInt (E.dirty + 1) + 1),
        row := (E.row.set (E.cy.toNat - 1)
            (editorUpdateRow E.syn { prev with chars := prev.chars ++ cur.chars })).take E.cy.toNat
          ++ (E.row.set (E.cy.toNat - 1)
            (editorUpdateRow E.syn { prev with chars := prev.chars ++ cur.chars })).drop
              (E.cy.toNat + 1) },
      hprev, hcur, ?_, hrows, editorUpdateRow_chars _ _, ?_, ?_, ?_⟩
    · unfold editorDeleteChar
      simp only [editorConf.num_rows, if_neg hne1, if_neg hne2, if_neg hne3, hcur, hprev,
        editorRowAppendString, editorDeleteRow, List.length_set, if_neg hdel, hm]
    · simp only [editorConf.num_rows, List.length_append, List.length_take, List.length_drop,
        List.length_set]
      omega
    · rfl
    · rfl

theorem backward_delete_witness :
    (editorDeleteChar sampleDoc = some sampleDoc) ∧
    ∃ prev cur E1, rowAt sampleDoc.row 0 = some prev ∧ rowAt sampleDoc.row 1 = some cur ∧
      editorDeleteChar { sampleDoc with cy := 1 } = some E1 ∧
      E1.row = [editorUpdateRow none { prev with chars := prev.chars ++ cur.chars }] ∧
      (editorUpdateRow none { prev with chars := prev.chars ++ cur.chars }).chars
        = prev.chars ++ cur.chars ∧
      E1.num_rows = 1 ∧ E1.cy = 0 ∧ E1.cx = prev.size :=
  ⟨(backward_delete_at_column_zero sampleDoc rfl).1 rfl,
    (backward_delete_at_column_zero { sampleDoc with cy := 1 } rfl).2 (by decide) (by decide)⟩

/-! ## Inserting a newline (C6) -/

/-- C6. With the cursor on an existing row `R` at a column `cx` with
`0 <= cx <= size`, `editorInsertNewline` returns; rows `R` and `R + 1` of the
result hold the bytes before and from `cx` of the old row `R`, every other row
is kept in order (so `num_rows` grows by one), and the cursor is at column 0 of
row `R + 1`.  For `cx = size` the new row is empty and row `R` keeps its
bytes. -/
theorem insert_newline_splits_row (E : editorConf) (hcy0 : 0 ≤ E.cy) (hcy : E.cy < E.num_rows)
    (hcx0 : 0 ≤ E.cx)
    (hcx : ∀ cur, rowAt E.row E.cy = some cur → E.cx ≤ cur.size) :
    ∃ cur E1 A B, rowAt E.row E.cy = some cur ∧ editorInsertNewline E = some E1 ∧
      E1.row = E.row.take E.cy.toNat ++ [A, B] ++ E.row.drop (E.cy.toNat + 1) ∧
      A.chars = cur.chars.take E.cx.toNat ∧ B.chars = cur.chars.drop E.cx.toNat ∧
      E1.num_rows = E.num_rows + 1 ∧ E1.cx = 0 ∧ E1.cy = E.cy + 1 ∧
      (E.cx = cur.size → A.chars = cur.chars ∧ B.chars = []) := by
  simp only [editorConf.num_rows] at hcy
  obtain ⟨cur, hcur, hcur'⟩ := rowAt_some_of_lt E.row E.cy hcy0 hcy
  have hle := hcx cur hcur
  have hlt : E.cy.toNat < E.row.length := by omega
  have hend : E.cx = cur.size → cur.chars.take E.cx.toNat = cur.chars ∧
      cur.chars.drop E.cx.toNat = [] := by
    intro h
    have : E.cx.toNat = cur.chars.length := by simp only [editorRow.size] at h; omega
    simp [this]
  by_cases h0 : E.cx = 0
  · have hins : ¬ (E.cy < 0 ∨ E.cy > (E.row.length : Int)) := by omega
    refine ⟨cur, { editorInsertRow E E.cy [] with cy := (editorInsertRow E E.cy []).cy + 1, cx := 0 },
      editorUpdateRow E.syn { chars := [], render := [], hl := [] }, cur, hcur, ?_, ?_, ?_, ?_, ?_,
      rfl, ?_, ?_⟩
    · simp [editorInsertNewline, h0]
    · simp only [editorInsertRow, editorConf.num_rows, if_neg hins]
      rw [drop_eq_cons_of_getElem? E.row E.cy.toNat cur hcur']
      simp
    · simp [editorUpdateRow_chars, h0]
    · simp [h0]
    · simp only [editorInsertRow, editorConf.num_rows, if_neg hins, List.length_append,
        List.length_take, List.length_drop, List.length_singleton]
      omega
    · simp [editorInsertRow, editorConf.num_rows, if_neg hins]
    · intro h
      have := hend h
      simp only [h0, Int.toNat_zero, List.take_zero, List.drop_zero] at this
      rw [editorUpdateRow_chars]
      exact ⟨this.1, this.1.symm⟩
  · have hins : ¬ (E.cy + 1 < 0 ∨ E.cy + 1 > (E.row.length : Int)) := by omega
    have hbad : ¬ (E.cx < 0 ∨ E.cx > cur.size) := by omega
    have hsucc : (E.cy + 1).toNat = E.cy.toNat + 1 := by omega
    have hrow1 : rowAt (E.row.take (E.cy.toNat + 1)
          ++ [editorUpdateRow E.syn { chars := cur.chars.drop E.cx.toNat, render := [], hl := [] }]
          ++ E.row.drop (E.cy.toNat + 1)) E.cy = some cur := by
      simp only [rowAt, if_pos hcy0, List.append_assoc]
      rw [getElem?_take_succ_append _ _ _ hlt]
      exact hcur'
    refine ⟨cur,
      { E with
        cx := 0, cy := E.cy + 1, dirty := wrapInt (E.dirty + 1),
        row := E.row.take E.cy.toNat
          ++ [editorUpdateRow E.syn { cur with chars := cur.chars.take E.cx.toNat },
              editorUpdateRow E.syn { chars := cur.chars.drop E.cx.toNat, render := [], hl := [] }]
          ++ E.row.drop (E.cy.toNat + 1) },
      editorUpdateRow E.syn { cur with chars := cur.chars.take E.cx.toNat },
      editorUpdateRow E.syn { chars := cur.chars.drop E.cx.toNat, render := [], hl := [] },
      hcur, ?_, rfl, editorUpdateRow_chars _ _, editorUpdateRow_chars _ _, ?_, rfl, rfl, ?_⟩
    · unfold editorInsertNewline
      simp only [if_neg h0, hcur, if_neg hbad, editorInsertRow, editorConf.num_rows,
        if_neg hins, hsucc, hrow1]
      simp only [List.append_assoc, set_take_succ_append _ _ _ _ hlt]
      simp
    · simp only [editorConf.num_rows, List.length_append, List.length_take, List.length_drop,
        List.length_cons, List.length_nil]
      push_cast
      omega
    · intro h
      rw [editorUpdateRow_chars, editorUpdateRow_chars]
      exact hend h

theorem insert_newline_witness :
    ∃ cur E1 A B, rowAt sampleDoc.row 1 = some cur ∧
      editorInsertNewline { sampleDoc with cx := 1, cy := 1 } = some E1 ∧
      E1.row = sampleDoc.row.take 1 ++ [A, B] ++ sampleDoc.row.drop 2 ∧
      A.chars = cur.chars.take 1 ∧ B.chars = cur.chars.drop 1 ∧
      E1.num_rows = 3 ∧ E1.cx = 0 ∧ E1.cy = 2 ∧
      ((1 : Int) = cur.size → A.chars = cur.chars ∧ B.chars = []) :=
  insert_newline_splits_row { sampleDoc with cx := 1, cy := 1 } (by decide) (by decide)
    (by decide) (fun cur h => (Option.some.inj h) ▸ (by decide))

/-! ## Incremental search with a single matching row (C7) -/

theorem isPrefixOf_length : ∀ (n h : List Nat), n.isPrefixOf h = true → n.length ≤ h.length := by
  intro n
  induction n with
  | nil => intro h _; simp
  | cons a as ih =>
    intro h hp
    cases h with
    | nil => simp [List.isPrefixOf] at hp
    | cons b bs =>
      simp only [List.isPrefixOf, Bool.and_eq_true] at hp
      have := ih bs hp.2
      simp only [List.length_cons]
      omega

theorem strstrFrom_bound : ∀ (hay needle : List Nat) (o r : Nat),
    strstrFrom hay needle o = some r → r + needle.length ≤ o + hay.length := by
  intro hay
  induction hay with
  | nil =>
    intro needle o r h
    simp only [strstrFrom] at h
    split_ifs at h with hn
    simp only [Option.some.injEq] at h
    subst hn
    simp [h]
  | cons a as ih =>
    intro needle o r h
    simp only [strstrFrom] at h
    split_ifs at h with hp
    · simp only [Option.some.injEq] at h
      have := isPrefixOf_length _ _ hp
      omega
    · have := ih needle (o + 1) r h
      simp only [List.length_cons]
      omega

theorem cstr_length_le (buf : List Nat) : (cstr buf).length ≤ buf.length := by
  unfold cstr
  exact (List.takeWhile_sublist _).length_le

theorem strstr_bound {hay needle : List Nat} {off : Nat} (h : strstr hay needle = some off) :
    off + (cstr needle).length ≤ hay.length := by
  have := strstrFrom_bound _ _ _ _ h
  have := cstr_length_le hay
  omega


theorem editorFindCallback_eq (E : editorConf) (query : List Nat) (key : Int) :
    editorFindCallback E query key
      = match findRestore E with
        | none => none
        | some E1 =>
          if key = 13 ∨ key = 27 then some { E1 with last_match := -1, direction := 1 }
          else editorFindLoop query (findDirection E1 key).num_rows.toNat
            (findDirection E1 key).last_match (findDirection E1 key) := rfl

theorem editorFindLoop_succ (query : List Nat) (m : Nat) (current : Int) (E : editorConf) :
    editorFindLoop query (m + 1) current E
      = match rowAt E.row (findNext E current) with
        | none => none
        | some row =>
          match strstr row.render query with
          | some off =>
            if off + (cstr query).length ≤ row.hl.length ∧ row.render.length ≤ row.hl.length then
              some (findHit E query (findNext E current) row off)
            else none
          | none => editorFindLoop query m (findNext E current) E := rfl

/-- C8 (the code breaks the claim). On a fresh editor the keys `i x Esc : q Enter`
leave a dirty document and the first `q` returns (the warning branch) with the
counter of `editorExecuteCommand` at 0; the three keys `i y Esc` that follow
reset only the counter of `editorProccessKeypress`; the next `q` then ends the
process although other keys came in between. -/
theorem second_quit_terminates_after_other_keys :
    (∃ E1, mainLoop 6 { startState with input := quitKeys } = .ret E1 ∧
      E1.dirty = 2 ∧ E1.execute_quit_times = 0 ∧ E1.mode = editorModes.NORMAL_MODE) ∧
    (∃ E2, mainLoop 9 { startState with input := quitKeys } = .ret E2 ∧
      E2.dirty = 3 ∧ E2.execute_quit_times = 0 ∧ E2.keypress_quit_times = ZOR_QUIT_TIMES ∧
      E2.input = [58, 113, 13]) ∧
    (∃ E3, mainLoop 12 { startState with input := quitKeys } = .exit E3 0 ∧ E3.dirty = 3) :=
  ⟨⟨_, rfl, rfl, rfl, rfl⟩, ⟨_, rfl, rfl, rfl, rfl, rfl⟩, ⟨_, rfl, rfl⟩⟩

/-- C9 (the code breaks the claim). After `i` and three tabs typed on a fresh
editor of 20 columns the cursor is valid and stands at raw column 3, rendered
column 24; `editorScroll` stores `rx = cx = 3` and leaves `col_off = 0`, so the
rendered column 24 is not below `col_off + screen_cols = 20`. -/
theorem scroll_ignores_rendered_column :
    ∃ E1 E2 row, mainLoop 4 (initEditor 24 20 tabKeys .ok []) = .ret E1 ∧
      cursorValid E1 ∧ 1 ≤ E1.screen_rows ∧ 1 ≤ E1.screen_cols ∧
      editorScroll E1 = some E2 ∧ rowAt E2.row E2.cy = some row ∧
      editorRowCxToRx row E2.cx = some 24 ∧ E2.rx = 3 ∧ E2.col_off = 0 ∧
      E2.screen_cols = 20 ∧ ¬ ((24 : Int) < E2.col_off + E2.screen_cols) :=
  ⟨_, _, _, rfl, by decide, by decide, by decide, rfl, rfl, rfl, rfl, rfl, rfl, by decide⟩

/-! ## The mode after a key event (C10) -/

theorem Run.bind_eq_ret {α β : Type} {r : Run α} {f : α → Run β} {b : β}
    (h : r.bind f = .ret b) : ∃ a, r = .ret a ∧ f a = .ret b := by
  cases r <;> simp [Run.bind] at h
  exact ⟨_, rfl, h⟩

theorem Run.ofOption_eq_ret {α : Type} {o : Option α} {a : α}
    (h : Run.ofOption o = .ret a) : o = some a := by
  cases o <;> simp [Run.ofOption] at h
  rw [h]

theorem editorInsertRow_mode (E : editorConf) (pos : Int) (s : List Nat) :
    (editorInsertRow E pos s).mode = E.mode := by
  unfold editorInsertRow
  split_ifs <;> rfl

theorem editorDeleteRow_mode (E : editorConf) (pos : Int) :
    (editorDeleteRow E pos).mode = E.mode := by
  unfold editorDeleteRow
  split_ifs <;> rfl

theorem editorRowInsertChar_mode {E E1 : editorConf} {r pos c : Int}
    (h : editorRowInsertChar E r pos c = some E1) : E1.mode = E.mode := by
  unfold editorRowInsertChar at h
  split at h
  · simp at h
  · simp only [Option.some.injEq] at h
    subst h
    rfl

theorem editorRowAppendString_mode {E E1 : editorConf} {r : Int} {s : List Nat}
    (h : editorRowAppendString E r s = some E1) : E1.mode = E.mode := by
  unfold editorRowAppendString at h
  split at h
  · simp at h
  · simp only [Option.some.injEq] at h
    subst h
    rfl

theorem editorRowDeleteChar_mode {E E1 : editorConf} {r pos : Int}
    (h : editorRowDeleteChar E r pos = some E1) : E1.mode = E.mode := by
  unfold editorRowDeleteChar at h
  split at h
  · simp at h
  · split_ifs at h <;> simp only [Option.some.injEq] at h <;> subst h <;> rfl

theorem editorInsertChar_mode {E E1 : editorConf} {c : Int}
    (h : editorInsertChar E c = some E1) : E1.mode = E.mode := by
  unfold editorInsertChar at h
  simp only at h
  split at h
  · simp at h
  · rename_i E2 h2
    simp only [Option.some.injEq] at h
    subst h
    have := editorRowInsertChar_mode h2
    simp only [this]
    split_ifs
    · exact editorInsertRow_mode _ _ _
    · rfl

theorem editorInsertNewline_mode {E E1 : editorConf}
    (h : editorInsertNewline E = some E1) : E1.mode = E.mode := by
  unfold editorInsertNewline at h
  split_ifs at h
  · simp only [Option.some.injEq] at h
    subst h
    exact editorInsertRow_mode _ _ _
  · split at h
    · simp at h
    · split_ifs at h
      simp only at h
      split at h
      · simp at h
      · simp only [Option.some.injEq] at h
        subst h
        exact editorInsertRow_mode _ _ _

theorem editorDeleteChar_mode {E E1 : editorConf}
    (h : editorDeleteChar E = some E1) : E1.mode = E.mode := by
  unfold editorDeleteChar at h
  split_ifs at h
  · simp only [Option.some.injEq] at h; subst h; rfl
  · simp only [Option.some.injEq] at h; subst h; rfl
  · split at h
    · simp at h
    · rename_i E2 h2
      simp only [Option.some.injEq] at h
      subst h
      exact (editorRowDeleteChar_mode h2 : E2.mode = E.mode)
  · split at h
    · simp only at h
      split at h
      · simp at h
      · rename_i E2 h2
        simp only [Option.some.injEq] at h
        subst h
        have h3 := editorRowAppendString_mode h2
        simp only [editorDeleteRow_mode, h3]
    · simp at h

theorem editorMoveCursor_mode {E E1 : editorConf} {key : Int}
    (h : editorMoveCursor E key = some E1) : E1.mode = E.mode := by
  unfold editorMoveCursor at h
  split at h
  · simp at h
  · rename_i E2 h2
    have h3 : E2.mode = E.mode := by
      split_ifs at h2 <;> first
        | (simp only [Option.some.injEq] at h2; subst h2; rfl)
        | (split at h2 <;> first
            | (simp at h2; done)
            | (split_ifs at h2 <;> simp only [Option.some.injEq] at h2 <;> subst h2 <;> rfl)
            | (simp only [Option.some.injEq] at h2; subst h2; rfl))
    split at h
    · simp at h
    · simp only [Option.some.injEq] at h
      subst h
      rw [← h3]
      split_ifs <;> rfl

theorem moveTimes_mode (key : Int) : ∀ (n : Nat) (E E1 : editorConf),
    moveTimes key n E = some E1 → E1.mode = E.mode := by
  intro n
  induction n with
  | zero =>
    intro E E1 h
    simp only [moveTimes, Option.some.injEq] at h
    rw [h]
  | succ n ih =>
    intro E E1 h
    unfold moveTimes at h
    split at h
    · simp at h
    · rename_i E2 h2
      rw [ih E2 E1 h, editorMoveCursor_mode h2]

theorem pageMove_mode {E E1 : editorConf} {up : Bool}
    (h : pageMove E up = some E1) : E1.mode = E.mode := by
  unfold pageMove at h
  simp only at h
  split_ifs at h <;> rw [moveTimes_mode _ _ _ _ h]

theorem scrollUp_mode (E : editorConf) : (scrollUp E).mode = E.mode := by
  unfold scrollUp
  split_ifs <;> rfl

theorem scrollDown_mode (E : editorConf) : (scrollDown E).mode = E.mode := by
  unfold scrollDown
  split_ifs <;> rfl

theorem scrollLeft_mode (E : editorConf) : (scrollLeft E).mode = E.mode := by
  unfold scrollLeft
  split_ifs <;> rfl

theorem scrollRight_mode (E : editorConf) : (scrollRight E).mode = E.mode := by
  unfold scrollRight
  split_ifs <;> rfl

theorem editorScroll_mode {E E1 : editorConf} (h : editorScroll E = some E1) :
    E1.mode = E.mode := by
  unfold editorScroll at h
  split at h
  · simp at h
  · simp only [Option.some.injEq] at h
    rw [← h, scrollRight_mode, scrollLeft_mode, scrollDown_mode, scrollUp_mode]
    rfl

theorem editorFindLoop_mode (query : List Nat) : ∀ (n : Nat) (current : Int) (E E1 : editorConf),
    editorFindLoop query n current E = some E1 → E1.mode = E.mode := by
  intro n
  induction n with
  | zero =>
    intro current E E1 h
    simp only [editorFindLoop, Option.some.injEq] at h
    rw [h]
  | succ n ih =>
    intro current E E1 h
    rw [editorFindLoop_succ] at h
    split at h
    · simp at h
    · split at h
      · split_ifs at h
        simp only [Option.some.injEq] at h
        subst h
        rfl
      · exact ih _ E E1 h

theorem findRestore_mode {E E1 : editorConf} (h : findRestore E = some E1) :
    E1.mode = E.mode := by
  unfold findRestore at h
  split at h
  · simp only [Option.some.injEq] at h; rw [h]
  · split at h
    · simp at h
    · split_ifs at h
      simp only [Option.some.injEq] at h
      subst h
      rfl

theorem findDirection_mode (E : editorConf) (key : Int) :
    (findDirection E key).mode = E.mode := by
  unfold findDirection
  simp only
  split_ifs <;> rfl

theorem editorFindCallback_mode {E E1 : editorConf} {query : List Nat} {key : Int}
    (h : editorFindCallback E query key = some E1) : E1.mode = E.mode := by
  rw [editorFindCallback_eq] at h
  split at h
  · simp at h
  · rename_i E2 h2
    have h3 := findRestore_mode h2
    split_ifs at h
    · simp only [Option.some.injEq] at h
      subst h
      exact h3
    · rw [editorFindLoop_mode _ _ _ _ _ h, findDirection_mode, h3]

theorem callback_mode (callback : Option (editorConf → List Nat → Int → Option editorConf))
    (E : editorConf) (buf : List Nat) (c : Int) (E3 : editorConf)
    (h : (match callback with
      | none => some E
      | some f => f E buf c) = some E3)
    (hcb : ∀ f, callback = some f → ∀ E b c E1, f E b c = some E1 → E1.mode = E.mode) :
    E3.mode = E.mode := by
  cases callback with
  | none => simp only [Option.some.injEq] at h; rw [← h]
  | some f => exact hcb f rfl E buf c E3 h

theorem editorRefreshScreen_mode {E E1 : editorConf} (h : editorRefreshScreen E = some E1) :
    E1.mode = E.mode := editorScroll_mode h

theorem editorPromptLoop_mode (prompt : List Nat)
    (callback : Option (editorConf → List Nat → Int → Option editorConf))
    (hcb : ∀ f, callback = some f → ∀ E b c E1, f E b c = some E1 → E1.mode = E.mode) :
    ∀ (keys : List Int) (E : editorConf) (buf : List Nat) (r : Option (List Nat) × editorConf),
    editorPromptLoop prompt callback keys E buf = .ret r → r.2.mode = E.mode := by
  intro keys
  induction keys with
  | nil =>
    intro E buf r h
    unfold editorPromptLoop at h
    split at h <;> simp at h
  | cons c rest ih =>
    intro E buf r h
    unfold editorPromptLoop at h
    split at h
    · simp at h
    · rename_i E1 h1
      have hm0 := editorRefreshScreen_mode h1
      have hm1 : E1.mode = E.mode := hm0
      simp only at h
      split_ifs at h
      · split at h
        · simp at h
        · rename_i E3 h3
          rw [ih _ _ _ h, callback_mode callback _ _ _ _ h3 hcb]
          exact hm1
      · split at h
        · simp at h
        · rename_i E3 h3
          simp only [Run.ret.injEq] at h
          rw [← h]
          simp only
          rw [callback_mode callback _ _ _ _ h3 hcb]
          exact hm1
      · split at h
        · simp at h
        · rename_i E3 h3
          simp only [Run.ret.injEq] at h
          rw [← h]
          simp only
          rw [callback_mode callback _ _ _ _ h3 hcb]
          exact hm1
      · split at h
        · simp at h
        · rename_i E3 h3
          rw [ih _ _ _ h, callback_mode callback _ _ _ _ h3 hcb]
          exact hm1
      · split at h
        · simp at h
        · rename_i E3 h3
          rw [ih _ _ _ h, callback_mode callback _ _ _ _ h3 hcb]
          exact hm1
      · split at h
        · simp at h
        · rename_i E3 h3
          rw [ih _ _ _ h, callback_mode callback _ _ _ _ h3 hcb]
          exact hm1

theorem editorPrompt_mode (E : editorConf) (prompt : List Nat)
    (callback : Option (editorConf → List Nat → Int → Option editorConf))
    (hcb : ∀ f, callback = some f → ∀ E b c E1, f E b c = some E1 → E1.mode = E.mode)
    (r : Option (List Nat) × editorConf) (h : editorPrompt E prompt callback = .ret r) :
    r.2.mode = E.mode :=
  editorPromptLoop_mode prompt callback hcb _ _ _ _ h

theorem editorFind_mode {E E1 : editorConf} (h : editorFind E = .ret E1) : E1.mode = E.mode := by
  unfold editorFind at h
  obtain ⟨r, hr, h2⟩ := Run.bind_eq_ret h
  have hm := editorPrompt_mode E _ _
    (fun f hf E b c E1 h => by
      simp only [Option.some.injEq] at hf
      subst hf
      exact editorFindCallback_mode h) r hr
  split at h2 <;> simp only [Run.ret.injEq] at h2 <;> rw [← h2] <;> exact hm

theorem selectEntries_mode (filename : List Nat) (ext : Option (List Nat)) :
    ∀ (entries : List editorSyntax) (E E1 : editorConf),
    selectEntries E filename ext entries = .ret E1 → E1.mode = E.mode := by
  intro entries
  induction entries with
  | nil =>
    intro E E1 h
    simp only [selectEntries, Run.ret.injEq] at h
    rw [h]
  | cons s rest ih =>
    intro E E1 h
    unfold selectEntries at h
    split at h
    · exact ih E E1 h
    · split_ifs at h
      simp only [Run.ret.injEq] at h
      rw [← h]
      rfl

theorem editorSelectSyntaxHighlight_mode {E E1 : editorConf}
    (h : editorSelectSyntaxHighlight E = .ret E1) : E1.mode = E.mode := by
  unfold editorSelectSyntaxHighlight at h
  simp only at h
  split at h
  · simp only [Run.ret.injEq] at h
    rw [← h]
  · have := selectEntries_mode _ _ _ _ _ h
    exact this

theorem editorSaveWrite_mode (E : editorConf) : (editorSaveWrite E).mode = E.mode := by
  unfold editorSaveWrite
  simp only
  split <;> rfl

theorem editorSave_mode {E E1 : editorConf} (h : editorSave E = .ret E1) : E1.mode = E.mode := by
  unfold editorSave at h
  split at h
  · obtain ⟨r, hr, h2⟩ := Run.bind_eq_ret h
    have hm := editorPrompt_mode E _ none (fun f hf => by simp at hf) r hr
    split at h2
    · simp only [Run.ret.injEq] at h2
      rw [← h2]
      exact hm
    · obtain ⟨E2, h3, h4⟩ := Run.bind_eq_ret h2
      simp only [Run.ret.injEq] at h4
      rw [← h4, editorSaveWrite_mode, editorSelectSyntaxHighlight_mode h3]
      exact hm
  · simp only [Run.ret.injEq] at h
    rw [← h, editorSaveWrite_mode]

theorem editorExecuteCommand_mode {E E1 : editorConf} {command : List Nat}
    (h : editorExecuteCommand E command = .ret E1) : E1.mode = E.mode := by
  unfold editorExecuteCommand at h
  simp only at h
  split_ifs at h <;> first
    | (simp only [Run.ret.injEq] at h; rw [← h]; rfl)
    | exact editorSave_mode h
    | (obtain ⟨E2, _, h3⟩ := Run.bind_eq_ret h; simp at h3)

theorem CTRL_KEY_values : CTRL_KEY 104 = 8 ∧ CTRL_KEY 108 = 12 ∧ CTRL_KEY 113 = 17 ∧
    CTRL_KEY 115 = 19 ∧ CTRL_KEY 117 = 21 ∧ CTRL_KEY 100 = 4 := by decide

theorem keypressDone_mode {E E1 : editorConf} (h : keypressDone E = .ret E1) :
    E1.mode = E.mode := by
  simp only [keypressDone, Run.ret.injEq] at h
  rw [← h]

theorem ofOption_bind_keypressDone {o : Option editorConf} {E1 : editorConf}
    (h : (Run.ofOption o).bind keypressDone = .ret E1) : ∃ E2, o = some E2 ∧ E1.mode = E2.mode := by
  obtain ⟨E2, h1, h2⟩ := Run.bind_eq_ret h
  exact ⟨E2, Run.ofOption_eq_ret h1, keypressDone_mode h2⟩

theorem bufSet_zero_cstr {buf b : List Nat} (h : bufSet buf 0 0 = some b) : cstr b = [] := by
  unfold bufSet at h
  split_ifs at h
  simp only [Option.some.injEq] at h
  subst h
  cases buf with
  | nil => simp [cstr]
  | cons x xs => simp [cstr]

theorem editorHandleCommand_mode {E E1 : editorConf} {c : Int}
    (h : editorHandleCommand E c = .ret E1) :
    E1.mode = if c = 13 ∨ c = 27 then editorModes.NORMAL_MODE else E.mode := by
  unfold editorHandleCommand at h
  simp only at h
  obtain ⟨E2, hr, h2⟩ := Run.bind_eq_ret h
  simp only [Run.ret.injEq] at h2
  have hm : E1.mode = E2.mode := by rw [← h2]; rfl
  rw [hm]
  have hv := CTRL_KEY_values
  simp only [BACKSPACE, hv.1] at hr
  split_ifs at hr with h13 h27 hbs hlen hpr
  · split at hr
    · simp at hr
    · obtain ⟨E3, _, h4⟩ := Run.bind_eq_ret hr
      simp only [Run.ret.injEq] at h4
      rw [← h4]
      simp [h13, editorSetStatusMessage]
  · simp only [Run.ret.injEq] at hr
    rw [← hr]
    simp [h27, editorSetStatusMessage]
  · have hne : ¬ (c = 13 ∨ c = 27) := by omega
    split at hr
    · simp at hr
    · simp only [Run.ret.injEq] at hr
      rw [← hr, if_neg hne]
  · have hne : ¬ (c = 13 ∨ c = 27) := by omega
    simp only [Run.ret.injEq] at hr
    rw [← hr, if_neg hne]
  · have hne : ¬ (c = 13 ∨ c = 27) := by omega
    split at hr
    · simp at hr
    · split at hr
      · simp at hr
      · simp only [Run.ret.injEq] at hr
        rw [← hr, if_neg hne]
  · have hne : ¬ (c = 13 ∨ c = 27) := by omega
    simp only [Run.ret.injEq] at hr
    rw [← hr, if_neg hne]


/-- The mode table and the reset of the command accumulator, for a call of
`editorProccessKeypress` that returns. -/
theorem keypress_mode_table (E E1 : editorConf) (c : Int)
    (h : editorProccessKeypress E c = .ret E1) :
    E1.mode = modeAfter E.mode c ∧
      (E.mode = editorModes.NORMAL_MODE → c = 58 →
        E1.command_len = 0 ∧ cstr E1.command_buffer = []) := by
  have hv := CTRL_KEY_values
  unfold editorProccessKeypress at h
  cases hmode : E.mode with
  | NORMAL_MODE =>
    simp only [hmode] at h
    simp only [modeAfter]
    by_cases h1 : c = 105 ∨ c = 73
    · rw [if_pos h1] at h
      rw [keypressDone_mode h, if_pos h1]
      exact ⟨rfl, fun _ hc => by omega⟩
    rw [if_neg h1] at h
    by_cases h2 : c = 58
    · rw [if_pos h2] at h
      split at h
      · simp at h
      · rename_i b hb
        simp only [keypressDone, Run.ret.injEq] at h
        rw [← h, if_neg h1, if_pos h2]
        exact ⟨rfl, fun _ _ => ⟨rfl, bufSet_zero_cstr hb⟩⟩
    rw [if_neg h2] at h
    rw [if_neg h1, if_neg h2]
    refine ⟨?_, fun _ hc => absurd hc h2⟩
    by_cases h3 : c = 104
    · rw [if_pos h3] at h
      obtain ⟨E2, h1, h2⟩ := ofOption_bind_keypressDone h
      rw [h2, editorMoveCursor_mode h1, hmode]
    rw [if_neg h3] at h
    by_cases h4 : c = 106
    · rw [if_pos h4] at h
      obtain ⟨E2, h1, h2⟩ := ofOption_bind_keypressDone h
      rw [h2, editorMoveCursor_mode h1, hmode]
    rw [if_neg h4] at h
    by_cases h5 : c = 107
    · rw [if_pos h5] at h
      obtain ⟨E2, h1, h2⟩ := ofOption_bind_keypressDone h
      rw [h2, editorMoveCursor_mode h1, hmode]
    rw [if_neg h5] at h
    by_cases h6 : c = 108
    · rw [if_pos h6] at h
      obtain ⟨E2, h1, h2⟩ := ofOption_bind_keypressDone h
      rw [h2, editorMoveCursor_mode h1, hmode]
    rw [if_neg h6] at h
    by_cases h7 : c = 47
    · rw [if_pos h7] at h
      obtain ⟨E2, h1, h2⟩ := Run.bind_eq_ret h
      rw [keypressDone_mode h2, editorFind_mode h1, hmode]
    rw [if_neg h7] at h
    by_cases h8 : c = CTRL_KEY 117 ∨ c = CTRL_KEY 100
    · rw [if_pos h8] at h
      obtain ⟨E2, h1, h2⟩ := ofOption_bind_keypressDone h
      rw [h2, pageMove_mode h1, hmode]
    rw [if_neg h8] at h
    by_cases h9 : c = HOME_KEY
    · rw [if_pos h9] at h
      rw [keypressDone_mode h]
    rw [if_neg h9] at h
    by_cases h10 : c = END_KEY
    · rw [if_pos h10] at h
      split_ifs at h
      · split at h
        · simp at h
        · rw [keypressDone_mode h]
      · rw [keypressDone_mode h, hmode]
    rw [if_neg h10] at h
    by_cases h11 : c = BACKSPACE ∨ c = CTRL_KEY 104 ∨ c = DEL_KEY
    · rw [if_pos h11] at h
      split at h
      · simp at h
      · rename_i E3 h3
        obtain ⟨E2, h1, h2⟩ := ofOption_bind_keypressDone h
        rw [h2, editorDeleteChar_mode h1]
        split_ifs at h3
        · rw [editorMoveCursor_mode h3, hmode]
        · simp only [Option.some.injEq] at h3
          rw [← h3, hmode]
    rw [if_neg h11] at h
    by_cases h12 : c = PAGE_UP ∨ c = PAGE_DOWN
    · rw [if_pos h12] at h
      obtain ⟨E2, h1, h2⟩ := ofOption_bind_keypressDone h
      rw [h2, pageMove_mode h1, hmode]
    rw [if_neg h12] at h
    by_cases h13 : c = ARROW_LEFT ∨ c = ARROW_RIGHT ∨ c = ARROW_UP ∨ c = ARROW_DOWN
    · rw [if_pos h13] at h
      obtain ⟨E2, h1, h2⟩ := ofOption_bind_keypressDone h
      rw [h2, editorMoveCursor_mode h1, hmode]
    rw [if_neg h13] at h
    rw [keypressDone_mode h, hmode]
  | INSERT_MODE =>
    simp only [hmode] at h
    simp only [modeAfter]
    refine ⟨?_, fun hm => by simp at hm⟩
    by_cases h1 : c = 13
    · rw [if_pos h1] at h
      obtain ⟨E2, h1', h2'⟩ := ofOption_bind_keypressDone h
      rw [h2', editorInsertNewline_mode h1', hmode, if_neg (by rw [hv.2.1]; omega)]
    rw [if_neg h1] at h
    by_cases h2 : c = CTRL_KEY 113
    · rw [if_pos h2] at h
      split_ifs at h
      simp only [Run.ret.injEq] at h
      rw [← h, if_neg (by rw [hv.2.1]; rw [hv.2.2.1] at h2; omega)]
      exact hmode
    rw [if_neg h2] at h
    by_cases h3 : c = CTRL_KEY 115
    · rw [if_pos h3] at h
      obtain ⟨E2, h1', h2'⟩ := Run.bind_eq_ret h
      rw [keypressDone_mode h2', editorSave_mode h1', hmode,
        if_neg (by rw [hv.2.1]; rw [hv.2.2.2.1] at h3; omega)]
    rw [if_neg h3] at h
    by_cases h4 : c = HOME_KEY
    · rw [if_pos h4] at h
      rw [keypressDone_mode h, if_neg (by rw [hv.2.1]; simp only [HOME_KEY] at h4; omega)]
    rw [if_neg h4] at h
    by_cases h5 : c = END_KEY
    · rw [if_pos h5] at h
      rw [if_neg (by rw [hv.2.1]; simp only [END_KEY] at h5; omega)]
      split_ifs at h
      · split at h
        · simp at h
        · rw [keypressDone_mode h]
      · rw [keypressDone_mode h, hmode]
    rw [if_neg h5] at h
    by_cases h6 : c = BACKSPACE ∨ c = CTRL_KEY 104 ∨ c = DEL_KEY
    · rw [if_pos h6] at h
      rw [if_neg (by rw [hv.2.1]; simp only [BACKSPACE, DEL_KEY, hv.1] at h6; omega)]
      split at h
      · simp at h
      · rename_i E3 h3
        obtain ⟨E2, h1', h2'⟩ := ofOption_bind_keypressDone h
        rw [h2', editorDeleteChar_mode h1']
        split_ifs at h3
        · rw [editorMoveCursor_mode h3, hmode]
        · simp only [Option.some.injEq] at h3
          rw [← h3, hmode]
    rw [if_neg h6] at h
    by_cases h7 : c = PAGE_UP ∨ c = PAGE_DOWN
    · rw [if_pos h7] at h
      obtain ⟨E2, h1', h2'⟩ := ofOption_bind_keypressDone h
      rw [h2', pageMove_mode h1', hmode,
        if_neg (by rw [hv.2.1]; simp only [PAGE_UP, PAGE_DOWN] at h7; omega)]
    rw [if_neg h7] at h
    by_cases h8 : c = ARROW_LEFT ∨ c = ARROW_RIGHT ∨ c = ARROW_UP ∨ c = ARROW_DOWN
    · rw [if_pos h8] at h
      obtain ⟨E2, h1', h2'⟩ := ofOption_bind_keypressDone h
      rw [h2', editorMoveCursor_mode h1', hmode,
        if_neg (by
          rw [hv.2.1]
          simp only [ARROW_LEFT, ARROW_RIGHT, ARROW_UP, ARROW_DOWN] at h8
          omega)]
    rw [if_neg h8] at h
    by_cases h9 : c = CTRL_KEY 108 ∨ c = 27
    · rw [if_pos h9] at h
      rw [keypressDone_mode h, if_pos (by tauto)]
    rw [if_neg h9] at h
    obtain ⟨E2, h1', h2'⟩ := ofOption_bind_keypressDone h
    rw [h2', editorInsertChar_mode h1', hmode, if_neg (by tauto)]
  | COMMAND_MODE =>
    simp only [hmode] at h
    simp only [modeAfter]
    refine ⟨?_, fun hm => by simp at hm⟩
    obtain ⟨E2, h1, h2⟩ := Run.bind_eq_ret h
    rw [keypressDone_mode h2, editorHandleCommand_mode h1, hmode]

theorem bufSet_zero_some {buf : List Nat} (h : buf ≠ []) : ∃ b, bufSet buf 0 0 = some b := by
  cases buf with
  | nil => exact absurd rfl h
  | cons x xs => exact ⟨0 :: xs, by simp [bufSet]⟩

theorem keypress_normal_i (E : editorConf) (c : Int) (hm : E.mode = editorModes.NORMAL_MODE)
    (hc : c = 105 ∨ c = 73) : ∃ E1, editorProccessKeypress E c = .ret E1 := by
  unfold editorProccessKeypress
  rw [hm]
  exact ⟨_, if_pos hc⟩

theorem keypress_normal_colon (E : editorConf) (c : Int) (hm : E.mode = editorModes.NORMAL_MODE)
    (hc : c = 58) (hb : E.command_buffer ≠ []) : ∃ E1, editorProccessKeypress E c = .ret E1 := by
  obtain ⟨b, hb1⟩ := bufSet_zero_some hb
  have h1 : ¬ (c = 105 ∨ c = 73) := by omega
  unfold editorProccessKeypress
  rw [hm]
  show ∃ E1, (if c = 105 ∨ c = 73 then _ else _) = Run.ret E1
  rw [if_neg h1, if_pos hc, hb1]
  exact ⟨_, rfl⟩

theorem keypress_insert_key {E : editorConf} {c : Int} (hm : E.mode = editorModes.INSERT_MODE)
    (n1 : ¬ c = 13) (n2 : ¬ c = CTRL_KEY 113) (n3 : ¬ c = CTRL_KEY 115) (n4 : ¬ c = HOME_KEY)
    (n5 : ¬ c = END_KEY) (n6 : ¬ (c = BACKSPACE ∨ c = CTRL_KEY 104 ∨ c = DEL_KEY))
    (n7 : ¬ (c = PAGE_UP ∨ c = PAGE_DOWN))
    (n8 : ¬ (c = ARROW_LEFT ∨ c = ARROW_RIGHT ∨ c = ARROW_UP ∨ c = ARROW_DOWN))
    (p9 : c = CTRL_KEY 108 ∨ c = 27) : ∃ E1, editorProccessKeypress E c = .ret E1 := by
  unfold editorProccessKeypress
  rw [hm]
  show ∃ E1, (if c = 13 then _ else _) = Run.ret E1
  rw [if_neg n1, if_neg n2, if_neg n3, if_neg n4, if_neg n5, if_neg n6, if_neg n7,
    if_neg n8, if_pos p9]
  exact ⟨_, rfl⟩

theorem keypress_insert_escape (E : editorConf) (c : Int) (hm : E.mode = editorModes.INSERT_MODE)
    (hc : c = 27 ∨ c = CTRL_KEY 108) : ∃ E1, editorProccessKeypress E c = .ret E1 := by
  rcases hc with hc | hc <;> subst hc <;>
    exact keypress_insert_key hm (by decide) (by decide) (by decide) (by decide) (by decide)
      (by decide) (by decide) (by decide) (by decide)

theorem keypress_command_escape (E : editorConf) (c : Int)
    (hm : E.mode = editorModes.COMMAND_MODE) (hc : c = 27) :
    ∃ E1, editorProccessKeypress E c = .ret E1 := by
  have n1 : ¬ c = 13 := by omega
  unfold editorProccessKeypress
  rw [hm]
  show ∃ E1, (editorHandleCommand _ c).bind keypressDone = Run.ret E1
  unfold editorHandleCommand
  simp only []
  rw [if_neg n1, if_pos hc]
  exact ⟨_, rfl⟩

/-- C10. The mode after one key event is the one the transition table gives
for the old mode and the key whenever `editorProccessKeypress` returns: Normal
to Insert on `i` and `I`, Normal to Command on `:`, Insert to Normal on Escape
and Ctrl-L, Command to Normal on Enter and Escape, unchanged otherwise; after
`:` in Normal mode `command_len` is 0 and the accumulator holds the empty
string.  The call does return on `i`, `I` and `:` in Normal mode (the
accumulator being the array it is in the source, not an empty one), on Escape
and Ctrl-L in Insert mode and on Escape in Command mode. -/
theorem mode_after_keypress (E : editorConf) (c : Int) :
    (∀ E1, editorProccessKeypress E c = .ret E1 →
      E1.mode = modeAfter E.mode c ∧
        (E.mode = editorModes.NORMAL_MODE → c = 58 →
          E1.command_len = 0 ∧ cstr E1.command_buffer = [])) ∧
    (E.mode = editorModes.NORMAL_MODE → c = 105 ∨ c = 73 →
      ∃ E1, editorProccessKeypress E c = .ret E1) ∧
    (E.mode = editorModes.NORMAL_MODE → c = 58 → E.command_buffer ≠ [] →
      ∃ E1, editorProccessKeypress E c = .ret E1) ∧
    (E.mode = editorModes.INSERT_MODE → c = 27 ∨ c = CTRL_KEY 108 →
      ∃ E1, editorProccessKeypress E c = .ret E1) ∧
    (E.mode = editorModes.COMMAND_MODE → c = 27 →
      ∃ E1, editorProccessKeypress E c = .ret E1) :=
  ⟨fun E1 h => keypress_mode_table E E1 c h, keypress_normal_i E c, keypress_normal_colon E c,
    keypress_insert_escape E c, keypress_command_escape E c⟩

theorem mode_after_keypress_witness :
    ∃ E1, editorProccessKeypress startState 58 = .ret E1 ∧
      E1.mode = editorModes.COMMAND_MODE ∧ E1.command_len = 0 ∧ cstr E1.command_buffer = [] :=
  ⟨_, rfl, ((mode_after_keypress startState 58).1 _ rfl).1.trans (by decide),
    ((mode_after_keypress startState 58).1 _ rfl).2 rfl rfl⟩

/-! ## What `editorScroll` guarantees -/

theorem editorRowCxToRxLoop_some : ∀ (chars : List Nat) (n : Nat) (rx : Int),
    n ≤ chars.length → ∃ r, editorRowCxToRxLoop chars n rx = some r := by
  intro chars
  induction chars with
  | nil =>
    intro n rx hn
    have : n = 0 := by simpa using hn
    subst this
    exact ⟨rx, rfl⟩
  | cons c cs ih =>
    intro n rx hn
    cases n with
    | zero => exact ⟨rx, rfl⟩
    | succ m => exact ih m (rxStep c rx) (by simpa using hn)

theorem scrollInit_spec (E : editorConf) (rx0 : Int) :
    (scrollInit E rx0).cx = E.cx ∧ (scrollInit E rx0).cy = E.cy ∧
      (scrollInit E rx0).rx = E.cx ∧ (scrollInit E rx0).row = E.row ∧
      (scrollInit E rx0).row_off = E.row_off ∧ (scrollInit E rx0).col_off = E.col_off ∧
      (scrollInit E rx0).screen_rows = E.screen_rows ∧
      (scrollInit E rx0).screen_cols = E.screen_cols :=
  ⟨rfl, rfl, rfl, rfl, rfl, rfl, rfl, rfl⟩

theorem scrollUp_spec (E : editorConf) :
    (scrollUp E).cx = E.cx ∧ (scrollUp E).cy = E.cy ∧ (scrollUp E).rx = E.rx ∧
      (scrollUp E).row = E.row ∧ (scrollUp E).col_off = E.col_off ∧
      (scrollUp E).screen_rows = E.screen_rows ∧ (scrollUp E).screen_cols = E.screen_cols ∧
      (scrollUp E).row_off = min E.cy E.row_off := by
  unfold scrollUp
  split_ifs <;> simp only [true_and] <;> omega

theorem scrollDown_spec (E : editorConf) :
    (scrollDown E).cx = E.cx ∧ (scrollDown E).cy = E.cy ∧ (scrollDown E).rx = E.rx ∧
      (scrollDown E).row = E.row ∧ (scrollDown E).col_off = E.col_off ∧
      (scrollDown E).screen_rows = E.screen_rows ∧ (scrollDown E).screen_cols = E.screen_cols ∧
      (scrollDown E).row_off = max E.row_off (E.cy - E.screen_rows + 1) := by
  unfold scrollDown
  split_ifs <;> simp only [true_and] <;> omega

theorem scrollLeft_spec (E : editorConf) :
    (scrollLeft E).cx = E.cx ∧ (scrollLeft E).cy = E.cy ∧ (scrollLeft E).rx = E.rx ∧
      (scrollLeft E).row = E.row ∧ (scrollLeft E).row_off = E.row_off ∧
      (scrollLeft E).screen_rows = E.screen_rows ∧ (scrollLeft E).screen_cols = E.screen_cols ∧
      (scrollLeft E).col_off = min E.rx E.col_off := by
  unfold scrollLeft
  split_ifs <;> simp only [true_and] <;> omega

theorem scrollRight_spec (E : editorConf) :
    (scrollRight E).cx = E.cx ∧ (scrollRight E).cy = E.cy ∧ (scrollRight E).rx = E.rx ∧
      (scrollRight E).row = E.row ∧ (scrollRight E).row_off = E.row_off ∧
      (scrollRight E).screen_rows = E.screen_rows ∧
      (scrollRight E).screen_cols = E.screen_cols ∧
      (scrollRight E).col_off = max E.col_off (E.rx - E.screen_cols + 1) := by
  unfold scrollRight
  split_ifs <;> simp only [true_and] <;> omega

/-- On a valid cursor and a screen of at least one row and one column
`editorScroll` returns; it leaves cursor and rows alone, stores the raw column
in `rx`, and puts the cursor row into `[row_off, row_off + screen_rows)` and
the raw column `cx` into `[col_off, col_off + screen_cols)`. -/
theorem editorScroll_window (E : editorConf) (hv : cursorValid E) (hr : 1 ≤ E.screen_rows)
    (hc : 1 ≤ E.screen_cols) :
    ∃ E1, editorScroll E = some E1 ∧ E1.cx = E.cx ∧ E1.cy = E.cy ∧ E1.row = E.row ∧
      E1.screen_rows = E.screen_rows ∧ E1.screen_cols = E.screen_cols ∧ E1.rx = E.cx ∧
      E1.row_off ≤ E1.cy ∧ E1.cy < E1.row_off + E1.screen_rows ∧
      E1.col_off ≤ E1.cx ∧ E1.cx < E1.col_off + E1.screen_cols := by
  obtain ⟨h0, h1, h2, h3⟩ := hv
  have hstep : ∀ rx0 : Int, ∃ E1,
      some (scrollRight (scrollLeft (scrollDown (scrollUp (scrollInit E rx0))))) = some E1 ∧
      E1.cx = E.cx ∧ E1.cy = E.cy ∧ E1.row = E.row ∧
      E1.screen_rows = E.screen_rows ∧ E1.screen_cols = E.screen_cols ∧ E1.rx = E.cx ∧
      E1.row_off ≤ E1.cy ∧ E1.cy < E1.row_off + E1.screen_rows ∧
      E1.col_off ≤ E1.cx ∧ E1.cx < E1.col_off + E1.screen_cols := by
    intro rx0
    have hA1 := scrollInit_spec E rx0
    generalize scrollInit E rx0 = A at hA1
    have hB := scrollUp_spec A
    generalize scrollUp A = B at hB
    have hC := scrollDown_spec B
    generalize scrollDown B = C at hC
    have hD := scrollLeft_spec C
    generalize scrollLeft C = D at hD
    have hF := scrollRight_spec D
    generalize scrollRight D = F at hF
    obtain ⟨a1, a2, a3, a4, a5, a6, a7, a8⟩ := hA1
    obtain ⟨b1, b2, b3, b4, b5, b6, b7, b8⟩ := hB
    obtain ⟨c1, c2, c3, c4, c5, c6, c7, c8⟩ := hC
    obtain ⟨d1, d2, d3, d4, d5, d6, d7, d8⟩ := hD
    obtain ⟨f1, f2, f3, f4, f5, f6, f7, f8⟩ := hF
    refine ⟨F, rfl, by omega, by omega, ?_, by omega, by omega, by omega, by omega, by omega,
      by omega, by omega⟩
    rw [f4, d4, c4, b4, a4]
  unfold editorScroll
  by_cases hlt : E.cy < E.num_rows
  · obtain ⟨row, hrow, _⟩ := rowAt_some_of_lt E.row E.cy h0 hlt
    rw [hrow] at h3
    simp only [editorRow.size] at h3
    obtain ⟨r, hr⟩ := editorRowCxToRxLoop_some row.chars E.cx.toNat 0 (by omega)
    have hr1 : editorRowCxToRx row E.cx = some r := hr
    simp only [if_pos hlt, hrow, hr1]
    exact hstep r
  · simp only [if_neg hlt]
    exact hstep 0

/-! ## Commands run from Command mode (C12, C13) -/

/-- Enter in Command mode on a text that is no command: the state returned
differs from the old one in the terminator written to the accumulator, the mode
and the message, and the message is `:` followed by the text, not the report of
`editorExecuteCommand`. -/
theorem editorHandleCommand_enter_unknown (E : editorConf) (b : List Nat)
    (hb : bufSet E.command_buffer E.command_len 0 = some b)
    (h1 : cstr b ≠ bytes "q") (h2 : cstr b ≠ bytes "q!") (h3 : cstr b ≠ bytes "w")
    (h4 : cstr b ≠ bytes "wq") :
    editorHandleCommand E 13
      = .ret { E with command_buffer := b, mode := editorModes.NORMAL_MODE,
                      statusmsg := (bytes ":" ++ cstr b).take 79 } := by
  unfold editorHandleCommand
  simp only [if_true, hb]
  unfold editorExecuteCommand
  rw [if_neg h1, if_neg h2, if_neg h3, if_neg h4]
  rfl

/-- C12 (the code breaks the claim). On a fresh editor the keys `: x` leave the
text `x` in the accumulator; `editorExecuteCommand` on it stores the message
`Unknown command: x`; the Enter key handled in Command mode returns with the
message `:x`, because `editorHandleCommand` stores two further messages after
the call.  Rows, cursor and dirty counter are those of before. -/
theorem unknown_command_report_is_overwritten :
    ∃ E0 E1, mainLoop 2 { startState with input := unknownKeys } = .ret E0 ∧
      E0.mode = editorModes.COMMAND_MODE ∧ cstr E0.command_buffer = bytes "x" ∧
      editorExecuteCommand E0 E0.command_buffer
        = .ret (editorSetStatusMessage E0 (bytes "Unknown command: x")) ∧
      editorProccessKeypress { E0 with input := [] } 13 = .ret E1 ∧
      E1.statusmsg = bytes ":x" ∧ E1.statusmsg ≠ bytes "Unknown command: x" ∧
      E1.row = E0.row ∧ E1.cx = E0.cx ∧ E1.cy = E0.cy ∧ E1.dirty = E0.dirty :=
  ⟨_, _, rfl, rfl, by decide, rfl, rfl, by decide, by decide, rfl, rfl, rfl, rfl⟩

/-- C13 (the code breaks the claim). With a file that cannot be opened for
writing, `: w Enter` after an edit returns with the rows and the dirty counter
of before, while `: w q Enter` ends the process with the edited row in memory,
the dirty counter at 1 and nothing written; the same happens on a fresh editor
when the prompt for a file name is left with Escape. -/
theorem write_quit_terminates_after_failed_save :
    (∃ E0 E1, readOnlyFile saveKeys = .ret E0 ∧ mainLoop 6 E0 = .ret E1 ∧
      E1.row.map editorRow.chars = [bytes "xint x;"] ∧ E1.dirty = 1 ∧ E1.disk = none) ∧
    (∃ E0 E1, readOnlyFile saveQuitKeys = .ret E0 ∧ mainLoop 7 E0 = .exit E1 0 ∧
      E1.row.map editorRow.chars = [bytes "xint x;"] ∧ E1.dirty = 1 ∧ E1.disk = none ∧
      E1.statusmsg = bytes "Can't save! I/O error: Permission denied") ∧
    (∃ E1, mainLoop 7 { startState with input := abortKeys } = .exit E1 0 ∧
      E1.row.map editorRow.chars = [bytes "x"] ∧ E1.dirty = 2 ∧ E1.disk = none ∧
      E1.statusmsg = bytes "Save aborted") :=
  ⟨⟨_, _, rfl, rfl, by decide, rfl, rfl⟩, ⟨_, _, rfl, rfl, by decide, rfl, rfl, by decide⟩,
    ⟨_, rfl, by decide, rfl, rfl, by decide⟩⟩

/-! ## The cached render column (C17) -/

/-- C17 (the code breaks the claim). After `i` and one tab typed on a fresh
editor the cursor is valid, on row 0 at raw column 1, rendered column 8;
`editorScroll` returns with `rx = 1`, and the directive of the frame places the
cursor in screen column 2 where column 9 is the one after the tab. -/
theorem scroll_caches_raw_column :
    ∃ E1 E2 row, mainLoop 2 { startState with input := [105, 9] } = .ret E1 ∧
      cursorValid E1 ∧ E1.cy < E1.num_rows ∧ editorScroll E1 = some E2 ∧
      rowAt E2.row E2.cy = some row ∧ row.chars = [9] ∧ E2.cx = 1 ∧
      editorRowCxToRx row E2.cx = some 8 ∧ E2.rx = 1 ∧
      cursorDirective E2 = [27] ++ bytes "[1;2H" :=
  ⟨_, _, _, rfl, by decide, by decide, rfl, rfl, rfl, rfl, rfl, rfl, by decide⟩

/-! ## The row store (C14) -/

/-- In the range of `int` nothing wraps. -/
theorem wrapInt_of_range (n : Int) (h0 : INT_MIN ≤ n) (h1 : n ≤ INT_MAX) : wrapInt n = n := by
  unfold wrapInt
  unfold INT_MIN at h0
  unfold INT_MAX at h1
  omega

theorem editorDeleteRow_row (E : editorConf) (i : Int) (h0 : 0 ≤ i) (h1 : i < E.num_rows) :
    (editorDeleteRow E i).row = E.row.eraseIdx i.toNat ∧
      (editorDeleteRow E i).dirty = wrapInt (E.dirty + 1) := by
  have h : ¬ (i < 0 ∨ i ≥ E.num_rows) := by omega
  unfold editorDeleteRow
  rw [if_neg h]
  exact ⟨(List.eraseIdx_eq_take_drop_succ _ _).symm, rfl⟩

theorem eraseIdx_take_append_cons {α : Type} (l : List α) (n : Nat) (a : α) (h : n ≤ l.length) :
    (l.take n ++ [a] ++ l.drop n).eraseIdx n = l := by
  have hlen : (l.take n).length = n := by simp [h]
  rw [List.append_assoc, List.eraseIdx_append_of_length_le (by omega), hlen, Nat.sub_self]
  simp

/-- C14, the claim as stated fails. On the two-row sample document with the
dirty counter at `INT_MAX`, `editorInsertRow(1, "x")` and `editorDeleteRow(1)`
change the rows as claimed, and the counter is `INT_MIN` afterwards, not one
more than before: `dirty++` on an `int` wraps. -/
theorem row_store_wraps_dirty_counter :
    (editorInsertRow { sampleDoc with dirty := INT_MAX } 1 [120]).row.map editorRow.chars
      = [[97, 98], [120], [99, 100, 101]] ∧
    (editorInsertRow { sampleDoc with dirty := INT_MAX } 1 [120]).dirty = INT_MIN ∧
    (editorInsertRow { sampleDoc with dirty := INT_MAX } 1 [120]).dirty ≠ INT_MAX + 1 ∧
    (editorDeleteRow { sampleDoc with dirty := INT_MAX } 1).row.map editorRow.chars
      = [[97, 98]] ∧
    (editorDeleteRow { sampleDoc with dirty := INT_MAX } 1).dirty = INT_MIN ∧
    (editorDeleteRow { sampleDoc with dirty := INT_MAX } 1).dirty ≠ INT_MAX + 1 :=
  ⟨by decide, by decide, by decide, by decide, by decide, by decide⟩

/-- C14 (as amended). With `0 <= i <= num_rows`, `editorInsertRow(i, s)` yields
the rows before `i`, a new row with the bytes `s` whose rendered bytes and
highlight classes are regenerated, and the rows from `i` on, one row more in
all; the dirty counter becomes `wrapInt (dirty + 1)`, which is one more than
before when the counter is below `INT_MAX`.  With `i` outside that range the
state is returned unchanged.  With `0 <= i < num_rows`, `editorDeleteRow(i)`
removes row `i` and does the same to the dirty counter; outside that range it
returns the state unchanged.  Deleting row `i` after inserting at `i` gives
back the rows. -/
theorem insert_row_then_delete_row (E : editorConf) (i : Int) (s : List Nat) :
    (0 ≤ i → i ≤ E.num_rows →
      (∃ row, (editorInsertRow E i s).row = E.row.take i.toNat ++ [row] ++ E.row.drop i.toNat ∧
        row.chars = s ∧ rowOK row ∧ hlFresh E.syn row) ∧
      (editorInsertRow E i s).num_rows = E.num_rows + 1 ∧
      (editorInsertRow E i s).dirty = wrapInt (E.dirty + 1) ∧
      (INT_MIN ≤ E.dirty → E.dirty < INT_MAX → (editorInsertRow E i s).dirty = E.dirty + 1)) ∧
    (i < 0 ∨ i > E.num_rows → editorInsertRow E i s = E) ∧
    (0 ≤ i → i < E.num_rows →
      (editorDeleteRow E i).row = E.row.eraseIdx i.toNat ∧
      (editorDeleteRow E i).num_rows = E.num_rows - 1 ∧
      (editorDeleteRow E i).dirty = wrapInt (E.dirty + 1) ∧
      (INT_MIN ≤ E.dirty → E.dirty < INT_MAX → (editorDeleteRow E i).dirty = E.dirty + 1)) ∧
    (i < 0 ∨ i ≥ E.num_rows → editorDeleteRow E i = E) ∧
    (editorDeleteRow (editorInsertRow E i s) i).row = E.row := by
  have hn : E.num_rows = (E.row.length : Int) := rfl
  have hw : INT_MIN ≤ E.dirty → E.dirty < INT_MAX → wrapInt (E.dirty + 1) = E.dirty + 1 := by
    intro h0 h1
    apply wrapInt_of_range
    · unfold INT_MIN at h0 ⊢
      omega
    · unfold INT_MAX at h1 ⊢
      omega
  have hins : 0 ≤ i → i ≤ E.num_rows →
      (editorInsertRow E i s).row = E.row.take i.toNat
        ++ [editorUpdateRow E.syn { chars := s, render := [], hl := [] }] ++ E.row.drop i.toNat ∧
      (editorInsertRow E i s).dirty = wrapInt (E.dirty + 1) := by
    intro h0 h1
    have h : ¬ (i < 0 ∨ i > E.num_rows) := by omega
    unfold editorInsertRow
    rw [if_neg h]
    exact ⟨rfl, rfl⟩
  have hlen : 0 ≤ i → i ≤ E.num_rows →
      (editorInsertRow E i s).num_rows = E.num_rows + 1 := by
    intro h0 h1
    have hle : i.toNat ≤ E.row.length := by omega
    simp only [editorConf.num_rows, (hins h0 h1).1, List.length_append, List.length_take,
      List.length_drop, List.length_singleton]
    omega
  refine ⟨fun h0 h1 => ⟨⟨_, (hins h0 h1).1, editorUpdateRow_chars _ _,
      rowOK_editorUpdateRow _ _, hlFresh_editorUpdateRow _ _⟩, hlen h0 h1, (hins h0 h1).2,
      fun hd0 hd1 => (hins h0 h1).2.trans (hw hd0 hd1)⟩,
    fun h => ?_, fun h0 h1 => ?_, fun h => ?_, ?_⟩
  · unfold editorInsertRow
    rw [if_pos h]
  · have hd := editorDeleteRow_row E i h0 h1
    refine ⟨hd.1, ?_, hd.2, fun hd0 hd1 => hd.2.trans (hw hd0 hd1)⟩
    have hlt : i.toNat < E.row.length := by omega
    simp only [editorConf.num_rows, hd.1, List.length_eraseIdx, if_pos hlt]
    omega
  · unfold editorDeleteRow
    rw [if_pos h]
  · by_cases h : i < 0 ∨ i > E.num_rows
    · have h1 : editorInsertRow E i s = E := by
        unfold editorInsertRow
        rw [if_pos h]
      have h2 : i < 0 ∨ i ≥ E.num_rows := by omega
      rw [h1]
      unfold editorDeleteRow
      rw [if_pos h2]
    · have h0 : 0 ≤ i := by omega
      have h1 : i ≤ E.num_rows := by omega
      have hd := editorDeleteRow_row (editorInsertRow E i s) i h0 (by rw [hlen h0 h1]; omega)
      rw [hd.1, (hins h0 h1).1]
      exact eraseIdx_take_append_cons _ _ _ (by omega)

theorem insert_row_then_delete_row_witness :
    (∃ row, (editorInsertRow sampleDoc 1 [9, 120]).row
        = sampleDoc.row.take 1 ++ [row] ++ sampleDoc.row.drop 1 ∧
      row.chars = [9, 120] ∧ rowOK row ∧ hlFresh sampleDoc.syn row) ∧
    (editorInsertRow sampleDoc 1 [9, 120]).num_rows = 3 ∧
    (editorInsertRow sampleDoc 1 [9, 120]).dirty = 1 ∧
    (editorDeleteRow sampleDoc 1).row = sampleDoc.row.eraseIdx 1 ∧
    (editorDeleteRow sampleDoc 1).dirty = 1 ∧
    editorInsertRow sampleDoc 3 [9, 120] = sampleDoc ∧
    (editorDeleteRow (editorInsertRow sampleDoc 1 [9, 120]) 1).row = sampleDoc.row :=
  ⟨((insert_row_then_delete_row sampleDoc 1 [9, 120]).1 (by decide) (by decide)).1,
    ((insert_row_then_delete_row sampleDoc 1 [9, 120]).1 (by decide) (by decide)).2.1,
    ((insert_row_then_delete_row sampleDoc 1 [9, 120]).1 (by decide) (by decide)).2.2.2
      (by decide) (by decide),
    ((insert_row_then_delete_row sampleDoc 1 [9, 120]).2.2.1 (by decide) (by decide)).1,
    ((insert_row_then_delete_row sampleDoc 1 [9, 120]).2.2.1 (by decide) (by decide)).2.2.2
      (by decide) (by decide),
    (insert_row_then_delete_row sampleDoc 3 [9, 120]).2.1 (Or.inr (by decide)),
    (insert_row_then_delete_row sampleDoc 1 [9, 120]).2.2.2.2⟩

/-! ## Keys shared by Normal and Insert mode (C11) -/

theorem editorDeleteRow_withMode (m : editorModes) (E : editorConf) (pos : Int) :
    editorDeleteRow (withMode m E) pos = withMode m (editorDeleteRow E pos) := by
  unfold editorDeleteRow
  simp only [withMode, editorConf.num_rows]
  split_ifs <;> rfl

theorem editorRowDeleteChar_withMode (m : editorModes) (E : editorConf) (r pos : Int) :
    editorRowDeleteChar (withMode m E) r pos = (editorRowDeleteChar E r pos).map (withMode m) := by
  unfold editorRowDeleteChar
  simp only [withMode]
  cases rowAt E.row r with
  | none => rfl
  | some row =>
    simp only
    split_ifs <;> rfl

theorem editorRowAppendString_withMode (m : editorModes) (E : editorConf) (r : Int)
    (s : List Nat) :
    editorRowAppendString (withMode m E) r s
      = (editorRowAppendString E r s).map (withMode m) := by
  unfold editorRowAppendString
  simp only [withMode]
  cases rowAt E.row r with
  | none => rfl
  | some row => rfl

theorem editorMoveCursor_eq (E : editorConf) (key : Int) :
    editorMoveCursor E key = (moveStep E key).bind clampCx := by
  unfold editorMoveCursor
  split
  · rename_i h
    have h1 : moveStep E key = none := h
    rw [h1]
    rfl
  · rename_i E1 h
    have h1 : moveStep E key = some E1 := h
    rw [h1]
    rfl

theorem moveStep_withMode (m : editorModes) (E : editorConf) (key : Int) :
    moveStep (withMode m E) key = (moveStep E key).map (withMode m) := by
  unfold moveStep
  simp only [withMode, editorConf.num_rows]
  split_ifs <;> first
    | rfl
    | (cases rowAt E.row (E.cy - 1) <;> rfl)
    | (cases rowAt E.row E.cy with
        | none => rfl
        | some row => simp only [Option.map]; split_ifs <;> rfl)

theorem clampCx_withMode (m : editorModes) (E : editorConf) :
    clampCx (withMode m E) = (clampCx E).map (withMode m) := by
  unfold clampCx
  simp only [withMode, editorConf.num_rows]
  split_ifs
  · simp only [Option.map]; split_ifs <;> rfl
  · cases rowAt E.row E.cy with
    | none => rfl
    | some row => simp only [Option.map]; split_ifs <;> rfl

theorem editorMoveCursor_withMode (m : editorModes) (E : editorConf) (key : Int) :
    editorMoveCursor (withMode m E) key = (editorMoveCursor E key).map (withMode m) := by
  rw [editorMoveCursor_eq, editorMoveCursor_eq, moveStep_withMode]
  cases moveStep E key with
  | none => rfl
  | some E1 => exact clampCx_withMode m E1

theorem moveTimes_withMode (m : editorModes) (key : Int) : ∀ (n : Nat) (E : editorConf),
    moveTimes key n (withMode m E) = (moveTimes key n E).map (withMode m) := by
  intro n
  induction n with
  | zero => intro E; rfl
  | succ n ih =>
    intro E
    unfold moveTimes
    rw [editorMoveCursor_withMode]
    cases editorMoveCursor E key with
    | none => rfl
    | some E1 => exact ih E1

theorem pageMove_withMode (m : editorModes) (E : editorConf) (up : Bool) :
    pageMove (withMode m E) up = (pageMove E up).map (withMode m) := by
  by_cases h : E.screen_rows < 0
  · have h1 : pageMove E up = none := by
      unfold pageMove; cases up <;> simp only [] <;> split_ifs <;> rfl
    have h2 : pageMove (withMode m E) up = none := by
      unfold pageMove; cases up <;> simp only [] <;> split_ifs <;> first | rfl | (exfalso; exact ‹¬ _› h)
    rw [h1, h2]; rfl
  · cases up with
    | true =>
      have h1 : pageMove E true
          = moveTimes ARROW_UP E.screen_rows.toNat { E with cy := E.row_off } := by
        unfold pageMove; simp only [if_true]; exact if_neg h
      have h2 : pageMove (withMode m E) true
          = moveTimes ARROW_UP E.screen_rows.toNat (withMode m { E with cy := E.row_off }) := by
        unfold pageMove; simp only [if_true]; exact if_neg h
      rw [h1, h2, moveTimes_withMode]
    | false =>
      by_cases hc : E.row_off + E.screen_rows - 1 > E.num_rows
      · have h1 : pageMove E false
            = moveTimes ARROW_DOWN E.screen_rows.toNat { E with cy := E.num_rows } := by
          unfold pageMove
          simp only [Bool.false_eq_true, if_false]
          exact (congrArg (fun (E1 : editorConf) =>
            if E1.screen_rows < 0 then none
            else moveTimes ARROW_DOWN E1.screen_rows.toNat E1) (if_pos hc)).trans (if_neg h)
        have h2 : pageMove (withMode m E) false
            = moveTimes ARROW_DOWN E.screen_rows.toNat (withMode m { E with cy := E.num_rows }) := by
          unfold pageMove
          simp only [Bool.false_eq_true, if_false]
          exact (congrArg (fun (E1 : editorConf) =>
            if E1.screen_rows < 0 then none
            else moveTimes ARROW_DOWN E1.screen_rows.toNat E1) (if_pos hc)).trans (if_neg h)
        rw [h1, h2, moveTimes_withMode]
      · have h1 : pageMove E false
            = moveTimes ARROW_DOWN E.screen_rows.toNat
                { E with cy := E.row_off + E.screen_rows - 1 } := by
          unfold pageMove
          simp only [Bool.false_eq_true, if_false]
          exact (congrArg (fun (E1 : editorConf) =>
            if E1.screen_rows < 0 then none
            else moveTimes ARROW_DOWN E1.screen_rows.toNat E1) (if_neg hc)).trans (if_neg h)
        have h2 : pageMove (withMode m E) false
            = moveTimes ARROW_DOWN E.screen_rows.toNat
                (withMode m { E with cy := E.row_off + E.screen_rows - 1 }) := by
          unfold pageMove
          simp only [Bool.false_eq_true, if_false]
          exact (congrArg (fun (E1 : editorConf) =>
            if E1.screen_rows < 0 then none
            else moveTimes ARROW_DOWN E1.screen_rows.toNat E1) (if_neg hc)).trans (if_neg h)
        rw [h1, h2, moveTimes_withMode]

theorem sharedKeys_values {c : Int} (hc : c ∈ sharedKeys) :
    c = 1000 ∨ c = 1001 ∨ c = 1002 ∨ c = 1003 ∨ c = 1007 ∨ c = 1008 ∨ c = 1005 ∨ c = 1006 ∨
      c = 1004 ∨ c = 127 ∨ c = 8 := by
  simpa [sharedKeys, ARROW_LEFT, ARROW_RIGHT, ARROW_UP, ARROW_DOWN, PAGE_UP, PAGE_DOWN, HOME_KEY,
    END_KEY, DEL_KEY, BACKSPACE, CTRL_KEY_values.1] using hc

theorem keypress_normal_shared (E : editorConf) (c : Int) (hc : c ∈ sharedKeys) :
    editorProccessKeypress (withMode .NORMAL_MODE E) c
      = sharedCases (withMode .NORMAL_MODE E) c (keypressDone (withMode .NORMAL_MODE E)) := by
  have hv := CTRL_KEY_values
  have hk := sharedKeys_values hc
  have n1 : ¬ (c = 105 ∨ c = 73) := by omega
  have n2 : ¬ c = 58 := by omega
  have n3 : ¬ c = 104 := by omega
  have n4 : ¬ c = 106 := by omega
  have n5 : ¬ c = 107 := by omega
  have n6 : ¬ c = 108 := by omega
  have n7 : ¬ c = 47 := by omega
  have n8 : ¬ (c = CTRL_KEY 117 ∨ c = CTRL_KEY 100) := by rw [hv.2.2.2.2.1, hv.2.2.2.2.2]; omega
  unfold editorProccessKeypress
  show (if c = 105 ∨ c = 73 then _ else _) = _
  rw [if_neg n1, if_neg n2, if_neg n3, if_neg n4, if_neg n5, if_neg n6, if_neg n7, if_neg n8]
  rfl

theorem keypress_insert_shared (E : editorConf) (c : Int) (hc : c ∈ sharedKeys) :
    editorProccessKeypress (withMode .INSERT_MODE E) c
      = sharedCases (withMode .INSERT_MODE E) c
          (if c = CTRL_KEY 108 ∨ c = 27 then
            keypressDone { withMode .INSERT_MODE E with mode := .NORMAL_MODE }
          else (Run.ofOption (editorInsertChar (withMode .INSERT_MODE E) c)).bind keypressDone) := by
  have hv := CTRL_KEY_values
  have hk := sharedKeys_values hc
  have n1 : ¬ c = 13 := by omega
  have n2 : ¬ c = CTRL_KEY 113 := by rw [hv.2.2.1]; omega
  have n3 : ¬ c = CTRL_KEY 115 := by rw [hv.2.2.2.1]; omega
  unfold editorProccessKeypress
  show (if c = 13 then _ else _) = _
  rw [if_neg n1, if_neg n2, if_neg n3]
  rfl

theorem withMode_cx (m : editorModes) (E : editorConf) : (withMode m E).cx = E.cx := rfl
theorem withMode_cy (m : editorModes) (E : editorConf) : (withMode m E).cy = E.cy := rfl
theorem withMode_row (m : editorModes) (E : editorConf) : (withMode m E).row = E.row := rfl
theorem withMode_num_rows (m : editorModes) (E : editorConf) :
    (withMode m E).num_rows = E.num_rows := rfl

theorem editorDeleteChar_withMode (m : editorModes) (E : editorConf) :
    editorDeleteChar (withMode m E) = (editorDeleteChar E).map (withMode m) := by
  unfold editorDeleteChar
  simp only [withMode_cx, withMode_cy, withMode_row, withMode_num_rows,
    editorRowDeleteChar_withMode]
  split_ifs
  · rfl
  · rfl
  · cases editorRowDeleteChar E E.cy (E.cx - 1) <;> rfl
  · cases h0 : rowAt E.row E.cy with
    | none => rfl
    | some row =>
      cases h1 : rowAt E.row (E.cy - 1) with
      | none => rfl
      | some prev =>
        simp only []
        have e := editorRowAppendString_withMode m { E with cx := prev.size } (E.cy - 1) row.chars
        cases h2 : editorRowAppendString { E with cx := prev.size } (E.cy - 1) row.chars with
        | none =>
          rw [h2] at e
          split
          · rfl
          · rename_i E3 heq
            exact absurd (heq.symm.trans e) (by simp)
        | some E2 =>
          rw [h2] at e
          split
          · rename_i heq
            exact absurd (heq.symm.trans e) (by simp)
          · rename_i E3 heq
            have h3 : E3 = withMode m E2 := Option.some.inj (heq.symm.trans e)
            subst h3
            simp only [Option.map, withMode_cy, editorDeleteRow_withMode]
            rfl

theorem keypressDone_withMode (m : editorModes) (E : editorConf) :
    keypressDone (withMode m E) = (keypressDone E).bind fun E1 => .ret (withMode m E1) := rfl

theorem ofOption_map_bind_keypressDone (m : editorModes) (o : Option editorConf) :
    (Run.ofOption (o.map (withMode m))).bind keypressDone
      = ((Run.ofOption o).bind keypressDone).bind fun E1 => .ret (withMode m E1) := by
  cases o <;> rfl

theorem sharedCases_withMode (m : editorModes) (E : editorConf) (c : Int) (hc : c ∈ sharedKeys)
    (r1 r2 : Run editorConf) :
    sharedCases (withMode m E) c r1
      = (sharedCases E c r2).bind fun E1 => .ret (withMode m E1) := by
  have hk := sharedKeys_values hc
  unfold sharedCases
  simp only [withMode_cx, withMode_cy, withMode_row, withMode_num_rows,
    editorMoveCursor_withMode, pageMove_withMode, ofOption_map_bind_keypressDone]
  by_cases h1 : c = HOME_KEY
  · rw [if_pos h1, if_pos h1]; rfl
  rw [if_neg h1, if_neg h1]
  by_cases h2 : c = END_KEY
  · rw [if_pos h2, if_pos h2]
    split_ifs
    · cases rowAt E.row E.cy <;> rfl
    · rfl
  rw [if_neg h2, if_neg h2]
  by_cases h3 : c = BACKSPACE ∨ c = CTRL_KEY 104 ∨ c = DEL_KEY
  · rw [if_pos h3, if_pos h3]
    split_ifs
    · cases editorMoveCursor E ARROW_RIGHT with
      | none => rfl
      | some E1 =>
        show (Run.ofOption (editorDeleteChar (withMode m E1))).bind keypressDone = _
        rw [editorDeleteChar_withMode, ofOption_map_bind_keypressDone]
    · simp only [editorDeleteChar_withMode, ofOption_map_bind_keypressDone]
  rw [if_neg h3, if_neg h3]
  by_cases h4 : c = PAGE_UP ∨ c = PAGE_DOWN
  · rw [if_pos h4, if_pos h4]
  rw [if_neg h4, if_neg h4]
  have h5 : c = ARROW_LEFT ∨ c = ARROW_RIGHT ∨ c = ARROW_UP ∨ c = ARROW_DOWN := by
    simp only [HOME_KEY, END_KEY, BACKSPACE, DEL_KEY, CTRL_KEY_values.1, PAGE_UP, PAGE_DOWN]
      at h1 h2 h3 h4
    simp only [ARROW_LEFT, ARROW_RIGHT, ARROW_UP, ARROW_DOWN]
    omega
  rw [if_pos h5, if_pos h5]

/-- C11 (as amended). For every state and every key among the arrows, Page Up,
Page Down, Home, End, Delete, Backspace and Ctrl-H, processing the key in
Insert mode ends as processing it in Normal mode does, with the same state but
for the mode field.  Ctrl-U and Ctrl-D are keys of Normal mode only: there
they do what Page Up and Page Down do, and in Insert mode they go to
`editorInsertChar` like every key without a case of its own. -/
theorem shared_keys_same_in_normal_and_insert (E : editorConf) (c : Int) :
    (c ∈ sharedKeys →
      editorProccessKeypress (withMode .INSERT_MODE E) c
        = (editorProccessKeypress (withMode .NORMAL_MODE E) c).bind fun E1 =>
            .ret (withMode .INSERT_MODE E1)) ∧
    editorProccessKeypress (withMode .NORMAL_MODE E) (CTRL_KEY 117)
      = editorProccessKeypress (withMode .NORMAL_MODE E) PAGE_UP ∧
    editorProccessKeypress (withMode .NORMAL_MODE E) (CTRL_KEY 100)
      = editorProccessKeypress (withMode .NORMAL_MODE E) PAGE_DOWN ∧
    (c = CTRL_KEY 117 ∨ c = CTRL_KEY 100 →
      editorProccessKeypress (withMode .INSERT_MODE E) c
        = (Run.ofOption (editorInsertChar (withMode .INSERT_MODE E) c)).bind keypressDone) := by
  refine ⟨fun hc => ?_, rfl, rfl, fun hc => ?_⟩
  · rw [keypress_insert_shared E c hc, keypress_normal_shared E c hc]
    exact sharedCases_withMode .INSERT_MODE (withMode .NORMAL_MODE E) c hc _ _
  · rcases hc with hc | hc <;> subst hc <;> rfl

theorem shared_keys_witness :
    editorProccessKeypress (withMode .INSERT_MODE sampleDoc) ARROW_RIGHT
      = (editorProccessKeypress (withMode .NORMAL_MODE sampleDoc) ARROW_RIGHT).bind fun E1 =>
          .ret (withMode .INSERT_MODE E1) :=
  (shared_keys_same_in_normal_and_insert sampleDoc ARROW_RIGHT).1 (by decide)

/-- C11, the claim as stated fails. On the two-row sample document with the
cursor at its start, Ctrl-U processed in Normal mode leaves rows, cursor and
dirty counter as they are, while in Insert mode it puts the byte 21 into row 0,
moves the cursor one column to the right and adds one to the dirty counter. -/
theorem half_page_key_differs_in_insert_mode :
    ∃ E1 E2, editorProccessKeypress (withMode .NORMAL_MODE sampleDoc) (CTRL_KEY 117) = .ret E1 ∧
      editorProccessKeypress (withMode .INSERT_MODE sampleDoc) (CTRL_KEY 117) = .ret E2 ∧
      E1.row = sampleDoc.row ∧ E1.dirty = 0 ∧ E1.cy = 0 ∧ E1.cx = 0 ∧
      E2.row.map editorRow.chars = [[21, 97, 98], [99, 100, 101]] ∧ E2.dirty = 1 ∧ E2.cy = 0 ∧
      E2.cx = 1 ∧ E1.row ≠ E2.row :=
  ⟨_, _, rfl, rfl, rfl, rfl, rfl, rfl, by decide, rfl, rfl, rfl, by decide⟩

/-! ## Number highlighting (C20) -/

theorem editorUpdateSyntaxLoop_cons_no_quote (flags : Nat)
    (hnum : flags &&& HL_HIGHLIGHT_NUMBERS ≠ 0) (c : Nat) (rest : List Nat) (ps : Bool) (ph : Nat)
    (h34 : c ≠ 34) (h39 : c ≠ 39) :
    editorUpdateSyntaxLoop flags (c :: rest) ps 0 ph
      = if (isdigit c = true ∧ (ps = true ∨ ph = HL_NUMBER)) ∨ (c = 46 ∧ ph = HL_NUMBER) then
          HL_NUMBER :: editorUpdateSyntaxLoop flags rest false 0 HL_NUMBER
        else HL_NORMAL :: editorUpdateSyntaxLoop flags rest (is_separator c) 0 HL_NORMAL := by
  have n1 : ¬ (flags &&& HL_HIGHLIGHT_STRINGS ≠ 0 ∧ (0 : Nat) ≠ 0) := fun h => h.2 rfl
  have n2 : ¬ (flags &&& HL_HIGHLIGHT_STRINGS ≠ 0 ∧ (c = 34 ∨ c = 39)) := by
    rintro ⟨_, h | h⟩
    · exact h34 h
    · exact h39 h
  rw [editorUpdateSyntaxLoop, if_neg n1, if_neg n2]
  by_cases h : (isdigit c = true ∧ (ps = true ∨ ph = HL_NUMBER)) ∨ (c = 46 ∧ ph = HL_NUMBER)
  · rw [if_pos h, if_pos ⟨hnum, h⟩]
  · rw [if_neg h, if_neg (fun h1 => h h1.2)]

theorem editorUpdateSyntaxLoop_number (flags : Nat) (hnum : flags &&& HL_HIGHLIGHT_NUMBERS ≠ 0) :
    ∀ (render : List Nat) (ps : Bool) (ph : Nat), 34 ∉ render → 39 ∉ render →
      ∀ i, i < render.length →
        ((editorUpdateSyntaxLoop flags render ps 0 ph).getD i 0 = HL_NUMBER ↔
          numberByteFrom render (editorUpdateSyntaxLoop flags render ps 0 ph) ps ph i) ∧
        ((editorUpdateSyntaxLoop flags render ps 0 ph).getD i 0 = HL_NUMBER ∨
          (editorUpdateSyntaxLoop flags render ps 0 ph).getD i 0 = HL_NORMAL) := by
  intro render
  induction render with
  | nil => intro ps ph _ _ i hi; simp at hi
  | cons c rest ih =>
    intro ps ph h34 h39 i hi
    have c34 : c ≠ 34 := fun h => h34 (by simp [h])
    have c39 : c ≠ 39 := fun h => h39 (by simp [h])
    have r34 : 34 ∉ rest := fun h => h34 (List.mem_cons_of_mem _ h)
    have r39 : 39 ∉ rest := fun h => h39 (List.mem_cons_of_mem _ h)
    rw [editorUpdateSyntaxLoop_cons_no_quote flags hnum c rest ps ph c34 c39]
    by_cases h : (isdigit c = true ∧ (ps = true ∨ ph = HL_NUMBER)) ∨ (c = 46 ∧ ph = HL_NUMBER)
    · rw [if_pos h]
      cases i with
      | zero => exact ⟨⟨fun _ => h, fun _ => rfl⟩, Or.inl rfl⟩
      | succ j =>
        have hj : j < rest.length := by simpa using hi
        have := ih false HL_NUMBER r34 r39 j hj
        cases j with
        | zero =>
          simpa [numberByteFrom, List.getD_cons_succ, List.getD_cons_zero] using this
        | succ k =>
          simpa [numberByteFrom, List.getD_cons_succ] using this
    · rw [if_neg h]
      cases i with
      | zero =>
        refine ⟨⟨fun h0 => ?_, fun h1 => absurd h1 h⟩, Or.inr rfl⟩
        simp [HL_NORMAL, HL_NUMBER] at h0
      | succ j =>
        have hj : j < rest.length := by simpa using hi
        have := ih (is_separator c) HL_NORMAL r34 r39 j hj
        cases j with
        | zero =>
          simpa [numberByteFrom, List.getD_cons_succ, List.getD_cons_zero, HL_NORMAL, HL_NUMBER]
            using this
        | succ k =>
          simpa [numberByteFrom, List.getD_cons_succ] using this

theorem numberByteFrom_start (render hl : List Nat) (i : Nat) :
    numberByteFrom render hl true HL_NORMAL i ↔ numberByte render hl i := by
  cases i with
  | zero => simp [numberByteFrom, numberByte, HL_NORMAL, HL_NUMBER]
  | succ j => simp [numberByteFrom, numberByte]

/-- C20. With number highlighting enabled in the selected profile and no quote
byte in the rendered row, `editorUpdateSyntax` gives the byte at index `i` the
number class exactly when it is a digit that starts the row or follows a
separator or a byte of number class, or a `.` that follows a byte of number
class; every other byte gets the normal class. -/
theorem number_class_characterised (s : editorSyntax) (row : editorRow)
    (hnum : s.flags &&& HL_HIGHLIGHT_NUMBERS ≠ 0) (h34 : 34 ∉ row.render)
    (h39 : 39 ∉ row.render) :
    (editorUpdateSyntax (some s) row).hl.length = row.render.length ∧
    ∀ i, i < row.render.length →
      ((editorUpdateSyntax (some s) row).hl.getD i 0 = HL_NUMBER ↔
        numberByte row.render (editorUpdateSyntax (some s) row).hl i) ∧
      (¬ numberByte row.render (editorUpdateSyntax (some s) row).hl i →
        (editorUpdateSyntax (some s) row).hl.getD i 0 = HL_NORMAL) := by
  have hhl : (editorUpdateSyntax (some s) row).hl
      = editorUpdateSyntaxLoop s.flags row.render true 0 HL_NORMAL := rfl
  rw [hhl]
  refine ⟨editorUpdateSyntaxLoop_length _ _ _ _ _, fun i hi => ?_⟩
  have h := editorUpdateSyntaxLoop_number s.flags hnum row.render true HL_NORMAL h34 h39 i hi
  rw [numberByteFrom_start] at h
  refine ⟨h.1, fun hn => ?_⟩
  rcases h.2 with h2 | h2
  · exact absurd (h.1.mp h2) hn
  · exact h2

theorem number_class_witness :
    (editorUpdateSyntax (some cSyntax) { chars := [], render := sampleRender, hl := [] }).hl.getD 8 0
        = HL_NUMBER ∧
    (editorUpdateSyntax (some cSyntax) { chars := [], render := sampleRenderX5, hl := [] }).hl.getD 0 0
        = HL_NORMAL ∧
    (editorUpdateSyntax (some cSyntax) { chars := [], render := sampleRenderX5, hl := [] }).hl.getD 1 0
        = HL_NORMAL :=
  ⟨((number_class_characterised cSyntax { chars := [], render := sampleRender, hl := [] }
      (by decide) (by decide) (by decide)).2 8 (by decide)).1.mpr (by decide),
    ((number_class_characterised cSyntax { chars := [], render := sampleRenderX5, hl := [] }
      (by decide) (by decide) (by decide)).2 0 (by decide)).2 (by decide),
    ((number_class_characterised cSyntax { chars := [], render := sampleRenderX5, hl := [] }
      (by decide) (by decide) (by decide)).2 1 (by decide)).2 (by decide)⟩

/-! ## Rendering and the coordinate maps in the presence of tabs (C15, C16) -/

theorem rxStep_natCast (c col : Nat) : rxStep c (col : Int) = (colStep c col : Nat) := by
  unfold rxStep colStep
  split_ifs
  · simp only [ZOR_TAB_STOP]
    push_cast
    omega
  · push_cast
    rfl

theorem colStep_gt (c col : Nat) : col < colStep c col ∧ colStep c col ≤ col + 8 := by
  unfold colStep
  simp only [ZOR_TAB_STOP]
  split_ifs <;> omega

theorem renderCol_ge : ∀ (chars : List Nat) (col : Nat), col ≤ renderCol chars col := by
  intro chars
  induction chars with
  | nil => intro col; exact Nat.le_refl _
  | cons c cs ih =>
    intro col
    have := ih (colStep c col)
    have := colStep_gt c col
    simp only [renderCol]
    omega

theorem tabExpand_length : ∀ (chars : List Nat) (col : Nat),
    col + (tabExpand chars col).length = renderCol chars col := by
  intro chars
  induction chars with
  | nil => intro col; rfl
  | cons c cs ih =>
    intro col
    unfold tabExpand renderCol colStep
    split_ifs
    · rw [← ih]
      simp only [List.length_append, List.length_replicate]
      omega
    · rw [← ih]
      simp only [List.length_cons]
      omega

theorem editorRowCxToRxLoop_eq : ∀ (chars : List Nat) (n : Nat) (col : Nat),
    n ≤ chars.length →
    editorRowCxToRxLoop chars n (col : Int) = some ((renderCol (chars.take n) col : Nat) : Int) := by
  intro chars
  induction chars with
  | nil =>
    intro n col hn
    have : n = 0 := by simpa using hn
    subst this
    rfl
  | cons c cs ih =>
    intro n col hn
    cases n with
    | zero => rfl
    | succ m =>
      rw [editorRowCxToRxLoop, rxStep_natCast, ih m _ (by simpa using hn)]
      rfl

theorem editorRowCxToRx_eq (row : editorRow) (j : Nat) (hj : j ≤ row.chars.length) :
    editorRowCxToRx row (j : Int) = some ((renderCol (row.chars.take j) 0 : Nat) : Int) := by
  unfold editorRowCxToRx
  have := editorRowCxToRxLoop_eq row.chars j 0 hj
  simpa using this

theorem editorRowRxToCxLoop_spec : ∀ (cs : List Nat) (cx : Int) (cur : Nat) (rx : Int),
    (cur : Int) ≤ rx →
    (rx < (renderCol cs cur : Nat) →
      ∃ k : Nat, k < cs.length ∧ editorRowRxToCxLoop cs cx (cur : Int) rx = cx + k ∧
        ((renderCol (cs.take k) cur : Nat) : Int) ≤ rx ∧
        rx < ((renderCol (cs.take (k + 1)) cur : Nat) : Int)) ∧
    (((renderCol cs cur : Nat) : Int) ≤ rx →
      editorRowRxToCxLoop cs cx (cur : Int) rx = cx + cs.length) := by
  intro cs
  induction cs with
  | nil =>
    intro cx cur rx h
    refine ⟨fun h1 => ?_, fun _ => ?_⟩
    · simp only [renderCol] at h1
      omega
    · simp [editorRowRxToCxLoop]
  | cons c cs ih =>
    intro cx cur rx h
    have hge := renderCol_ge cs (colStep c cur)
    rw [editorRowRxToCxLoop, rxStep_natCast]
    by_cases hgt : ((colStep c cur : Nat) : Int) > rx
    · rw [if_pos hgt]
      refine ⟨fun _ => ⟨0, by simp, by simp, by simpa [renderCol] using h, ?_⟩, fun h2 => ?_⟩
      · simpa [renderCol] using hgt
      · simp only [renderCol] at h2
        omega
    · rw [if_neg hgt]
      have ih1 := ih (cx + 1) (colStep c cur) rx (by omega)
      refine ⟨fun h1 => ?_, fun h2 => ?_⟩
      · obtain ⟨k, hk, he, h3, h4⟩ := ih1.1 (by simpa [renderCol] using h1)
        refine ⟨k + 1, by simpa using hk, ?_, ?_, ?_⟩
        · rw [he]
          push_cast
          omega
        · simpa [renderCol] using h3
        · simpa [renderCol] using h4
      · rw [ih1.2 (by simpa [renderCol] using h2)]
        simp only [List.length_cons]
        push_cast
        omega

/-- C16. On a row whose rendered bytes are the tab expansion of its raw bytes,
for a rendered column `rx` with `0 <= rx < rsize` the index
`c = editorRowRxToCx(row, rx)` lies below `size` and the columns
`editorRowCxToRx` gives for `c` and `c + 1` enclose `rx`; for `rx >= rsize`
the result is `size`. -/
theorem rx_to_cx_consistent_with_tabs (row : editorRow) (rx : Int) (hrow : rowOK row) :
    (0 ≤ rx → rx < row.rsize →
      0 ≤ editorRowRxToCx row rx ∧ editorRowRxToCx row rx < row.size ∧
      ∃ x y : Int, editorRowCxToRx row (editorRowRxToCx row rx) = some x ∧
        editorRowCxToRx row (editorRowRxToCx row rx + 1) = some y ∧ x ≤ rx ∧ rx < y) ∧
    (row.rsize ≤ rx → editorRowRxToCx row rx = row.size) := by
  have hlen : row.render.length = renderCol row.chars 0 := by
    rw [hrow.2.2, ← tabExpand_length row.chars 0, Nat.zero_add]
  have hspec := editorRowRxToCxLoop_spec row.chars 0 0 rx
  simp only [editorRow.rsize, editorRow.size, hlen]
  unfold editorRowRxToCx
  refine ⟨fun h0 h1 => ?_, fun h1 => ?_⟩
  · obtain ⟨k, hk, he, h3, h4⟩ := (hspec (by simpa using h0)).1 h1
    simp only [Nat.cast_zero] at he
    rw [he]
    refine ⟨by omega, by omega, _, _, ?_, ?_, h3, h4⟩
    · have := editorRowCxToRx_eq row k (by omega)
      simpa using this
    · have := editorRowCxToRx_eq row (k + 1) (by omega)
      simpa using this
  · have := (hspec (by have := renderCol_ge row.chars 0; omega)).2 h1
    simpa using this

theorem rx_to_cx_consistent_with_tabs_witness :
    rowOK (editorUpdateRow none tabRow) ∧
    editorRowRxToCx (editorUpdateRow none tabRow) 5 < (editorUpdateRow none tabRow).size ∧
    (∃ x y : Int,
      editorRowCxToRx (editorUpdateRow none tabRow) (editorRowRxToCx (editorUpdateRow none tabRow) 5)
        = some x ∧
      editorRowCxToRx (editorUpdateRow none tabRow)
        (editorRowRxToCx (editorUpdateRow none tabRow) 5 + 1) = some y ∧ x ≤ 5 ∧ 5 < y) ∧
    editorRowRxToCx (editorUpdateRow none tabRow) 9 = (editorUpdateRow none tabRow).size :=
  ⟨rowOK_editorUpdateRow _ _,
    ((rx_to_cx_consistent_with_tabs (editorUpdateRow none tabRow) 5
      (rowOK_editorUpdateRow _ _)).1 (by decide) (by decide)).2.1,
    ((rx_to_cx_consistent_with_tabs (editorUpdateRow none tabRow) 5
      (rowOK_editorUpdateRow _ _)).1 (by decide) (by decide)).2.2,
    (rx_to_cx_consistent_with_tabs (editorUpdateRow none tabRow) 9
      (rowOK_editorUpdateRow _ _)).2 (by decide)⟩

/-! ## The command accumulator (C19) -/

theorem editorInsertRow_cmd (E : editorConf) (pos : Int) (s : List Nat) :
    (editorInsertRow E pos s).cmd = E.cmd := by
  unfold editorInsertRow
  split_ifs <;> rfl

theorem editorDeleteRow_cmd (E : editorConf) (pos : Int) :
    (editorDeleteRow E pos).cmd = E.cmd := by
  unfold editorDeleteRow
  split_ifs <;> rfl

theorem editorRowInsertChar_cmd {E E1 : editorConf} {r pos c : Int}
    (h : editorRowInsertChar E r pos c = some E1) : E1.cmd = E.cmd := by
  unfold editorRowInsertChar at h
  split at h
  · simp at h
  · simp only [Option.some.injEq] at h
    subst h
    rfl

theorem editorRowAppendString_cmd {E E1 : editorConf} {r : Int} {s : List Nat}
    (h : editorRowAppendString E r s = some E1) : E1.cmd = E.cmd := by
  unfold editorRowAppendString at h
  split at h
  · simp at h
  · simp only [Option.some.injEq] at h
    subst h
    rfl

theorem editorRowDeleteChar_cmd {E E1 : editorConf} {r pos : Int}
    (h : editorRowDeleteChar E r pos = some E1) : E1.cmd = E.cmd := by
  unfold editorRowDeleteChar at h
  split at h
  · simp at h
  · split_ifs at h <;> simp only [Option.some.injEq] at h <;> subst h <;> rfl

theorem editorInsertChar_cmd {E E1 : editorConf} {c : Int}
    (h : editorInsertChar E c = some E1) : E1.cmd = E.cmd := by
  unfold editorInsertChar at h
  simp only at h
  split at h
  · simp at h
  · rename_i E2 h2
    simp only [Option.some.injEq] at h
    subst h
    have := editorRowInsertChar_cmd h2
    simp only [this]
    split_ifs
    · exact editorInsertRow_cmd _ _ _
    · rfl

theorem editorInsertNewline_cmd {E E1 : editorConf}
    (h : editorInsertNewline E = some E1) : E1.cmd = E.cmd := by
  unfold editorInsertNewline at h
  split_ifs at h
  · simp only [Option.some.injEq] at h
    subst h
    exact editorInsertRow_cmd _ _ _
  · split at h
    · simp at h
    · split_ifs at h
      simp only at h
      split at h
      · simp at h
      · simp only [Option.some.injEq] at h
        subst h
        exact editorInsertRow_cmd _ _ _

theorem editorDeleteChar_cmd {E E1 : editorConf}
    (h : editorDeleteChar E = some E1) : E1.cmd = E.cmd := by
  unfold editorDeleteChar at h
  split_ifs at h
  · simp only [Option.some.injEq] at h; subst h; rfl
  · simp only [Option.some.injEq] at h; subst h; rfl
  · split at h
    · simp at h
    · rename_i E2 h2
      simp only [Option.some.injEq] at h
      subst h
      exact (editorRowDeleteChar_cmd h2 : E2.cmd = E.cmd)
  · split at h
    · simp only at h
      split at h
      · simp at h
      · rename_i E2 h2
        simp only [Option.some.injEq] at h
        subst h
        have h3 := editorRowAppendString_cmd h2
        exact (editorDeleteRow_cmd E2 E2.cy).trans h3
    · simp at h

theorem editorMoveCursor_cmd {E E1 : editorConf} {key : Int}
    (h : editorMoveCursor E key = some E1) : E1.cmd = E.cmd := by
  unfold editorMoveCursor at h
  split at h
  · simp at h
  · rename_i E2 h2
    have h3 : E2.cmd = E.cmd := by
      split_ifs at h2 <;> first
        | (simp only [Option.some.injEq] at h2; subst h2; rfl)
        | (split at h2 <;> first
            | (simp at h2; done)
            | (split_ifs at h2 <;> simp only [Option.some.injEq] at h2 <;> subst h2 <;> rfl)
            | (simp only [Option.some.injEq] at h2; subst h2; rfl))
    split at h
    · simp at h
    · simp only [Option.some.injEq] at h
      subst h
      rw [← h3]
      split_ifs <;> rfl

theorem moveTimes_cmd (key : Int) : ∀ (n : Nat) (E E1 : editorConf),
    moveTimes key n E = some E1 → E1.cmd = E.cmd := by
  intro n
  induction n with
  | zero =>
    intro E E1 h
    simp only [moveTimes, Option.some.injEq] at h
    rw [h]
  | succ n ih =>
    intro E E1 h
    unfold moveTimes at h
    split at h
    · simp at h
    · rename_i E2 h2
      rw [ih E2 E1 h, editorMoveCursor_cmd h2]

theorem pageMove_cmd {E E1 : editorConf} {up : Bool}
    (h : pageMove E up = some E1) : E1.cmd = E.cmd := by
  unfold pageMove at h
  simp only at h
  split_ifs at h <;> rw [moveTimes_cmd _ _ _ _ h]

theorem scrollUp_cmd (E : editorConf) : (scrollUp E).cmd = E.cmd := by
  unfold scrollUp
  split_ifs <;> rfl

theorem scrollDown_cmd (E : editorConf) : (scrollDown E).cmd = E.cmd := by
  unfold scrollDown
  split_ifs <;> rfl

theorem scrollLeft_cmd (E : editorConf) : (scrollLeft E).cmd = E.cmd := by
  unfold scrollLeft
  split_ifs <;> rfl

theorem scrollRight_cmd (E : editorConf) : (scrollRight E).cmd = E.cmd := by
  unfold scrollRight
  split_ifs <;> rfl

theorem editorScroll_cmd {E E1 : editorConf} (h : editorScroll E = some E1) :
    E1.cmd = E.cmd := by
  unfold editorScroll at h
  split at h
  · simp at h
  · simp only [Option.some.injEq] at h
    rw [← h, scrollRight_cmd, scrollLeft_cmd, scrollDown_cmd, scrollUp_cmd]
    rfl

theorem editorFindLoop_cmd (query : List Nat) : ∀ (n : Nat) (current : Int) (E E1 : editorConf),
    editorFindLoop query n current E = some E1 → E1.cmd = E.cmd := by
  intro n
  induction n with
  | zero =>
    intro current E E1 h
    simp only [editorFindLoop, Option.some.injEq] at h
    rw [h]
  | succ n ih =>
    intro current E E1 h
    rw [editorFindLoop_succ] at h
    split at h
    · simp at h
    · split at h
      · split_ifs at h
        simp only [Option.some.injEq] at h
        subst h
        rfl
      · exact ih _ E E1 h

theorem findRestore_cmd {E E1 : editorConf} (h : findRestore E = some E1) :
    E1.cmd = E.cmd := by
  unfold findRestore at h
  split at h
  · simp only [Option.some.injEq] at h; rw [h]
  · split at h
    · simp at h
    · split_ifs at h
      simp only [Option.some.injEq] at h
      subst h
      rfl

theorem findDirection_cmd (E : editorConf) (key : Int) :
    (findDirection E key).cmd = E.cmd := by
  unfold findDirection
  simp only
  split_ifs <;> rfl

theorem editorFindCallback_cmd {E E1 : editorConf} {query : List Nat} {key : Int}
    (h : editorFindCallback E query key = some E1) : E1.cmd = E.cmd := by
  rw [editorFindCallback_eq] at h
  split at h
  · simp at h
  · rename_i E2 h2
    have h3 := findRestore_cmd h2
    split_ifs at h
    · simp only [Option.some.injEq] at h
      subst h
      exact h3
    · rw [editorFindLoop_cmd _ _ _ _ _ h, findDirection_cmd, h3]

theorem callback_cmd (callback : Option (editorConf → List Nat → Int → Option editorConf))
    (E : editorConf) (buf : List Nat) (c : Int) (E3 : editorConf)
    (h : (match callback with
      | none => some E
      | some f => f E buf c) = some E3)
    (hcb : ∀ f, callback = some f → ∀ E b c E1, f E b c = some E1 → E1.cmd = E.cmd) :
    E3.cmd = E.cmd := by
  cases callback with
  | none => simp only [Option.some.injEq] at h; rw [← h]
  | some f => exact hcb f rfl E buf c E3 h

theorem editorRefreshScreen_cmd {E E1 : editorConf} (h : editorRefreshScreen E = some E1) :
    E1.cmd = E.cmd := editorScroll_cmd h

theorem editorPromptLoop_cmd (prompt : List Nat)
    (callback : Option (editorConf → List Nat → Int → Option editorConf))
    (hcb : ∀ f, callback = some f → ∀ E b c E1, f E b c = some E1 → E1.cmd = E.cmd) :
    ∀ (keys : List Int) (E : editorConf) (buf : List Nat) (r : Option (List Nat) × editorConf),
    editorPromptLoop prompt callback keys E buf = .ret r → r.2.cmd = E.cmd := by
  intro keys
  induction keys with
  | nil =>
    intro E buf r h
    unfold editorPromptLoop at h
    split at h <;> simp at h
  | cons c rest ih =>
    intro E buf r h
    unfold editorPromptLoop at h
    split at h
    · simp at h
    · rename_i E1 h1
      have hm0 := editorRefreshScreen_cmd h1
      have hm1 : E1.cmd = E.cmd := hm0
      simp only at h
      split_ifs at h
      · split at h
        · simp at h
        · rename_i E3 h3
          rw [ih _ _ _ h, callback_cmd callback _ _ _ _ h3 hcb]
          exact hm1
      · split at h
        · simp at h
        · rename_i E3 h3
          simp only [Run.ret.injEq] at h
          rw [← h]
          simp only
          rw [callback_cmd callback _ _ _ _ h3 hcb]
          exact hm1
      · split at h
        · simp at h
        · rename_i E3 h3
          simp only [Run.ret.injEq] at h
          rw [← h]
          simp only
          rw [callback_cmd callback _ _ _ _ h3 hcb]
          exact hm1
      · split at h
        · simp at h
        · rename_i E3 h3
          rw [ih _ _ _ h, callback_cmd callback _ _ _ _ h3 hcb]
          exact hm1
      · split at h
        · simp at h
        · rename_i E3 h3
          rw [ih _ _ _ h, callback_cmd callback _ _ _ _ h3 hcb]
          exact hm1
      · split at h
        · simp at h
        · rename_i E3 h3
          rw [ih _ _ _ h, callback_cmd callback _ _ _ _ h3 hcb]
          exact hm1

theorem editorPrompt_cmd (E : editorConf) (prompt : List Nat)
    (callback : Option (editorConf → List Nat → Int → Option editorConf))
    (hcb : ∀ f, callback = some f → ∀ E b c E1, f E b c = some E1 → E1.cmd = E.cmd)
    (r : Option (List Nat) × editorConf) (h : editorPrompt E prompt callback = .ret r) :
    r.2.cmd = E.cmd :=
  editorPromptLoop_cmd prompt callback hcb _ _ _ _ h

theorem editorFind_cmd {E E1 : editorConf} (h : editorFind E = .ret E1) : E1.cmd = E.cmd := by
  unfold editorFind at h
  obtain ⟨r, hr, h2⟩ := Run.bind_eq_ret h
  have hm := editorPrompt_cmd E _ _
    (fun f hf E b c E1 h => by
      simp only [Option.some.injEq] at hf
      subst hf
      exact editorFindCallback_cmd h) r hr
  split at h2 <;> simp only [Run.ret.injEq] at h2 <;> rw [← h2] <;> exact hm

theorem selectEntries_cmd (filename : List Nat) (ext : Option (List Nat)) :
    ∀ (entries : List editorSyntax) (E E1 : editorConf),
    selectEntries E filename ext entries = .ret E1 → E1.cmd = E.cmd := by
  intro entries
  induction entries with
  | nil =>
    intro E E1 h
    simp only [selectEntries, Run.ret.injEq] at h
    rw [h]
  | cons s rest ih =>
    intro E E1 h
    unfold selectEntries at h
    split at h
    · exact ih E E1 h
    · split_ifs at h
      simp only [Run.ret.injEq] at h
      rw [← h]
      rfl

theorem editorSelectSyntaxHighlight_cmd {E E1 : editorConf}
    (h : editorSelectSyntaxHighlight E = .ret E1) : E1.cmd = E.cmd := by
  unfold editorSelectSyntaxHighlight at h
  simp only at h
  split at h
  · simp only [Run.ret.injEq] at h
    rw [← h]
  · have := selectEntries_cmd _ _ _ _ _ h
    exact this

theorem editorSaveWrite_cmd (E : editorConf) : (editorSaveWrite E).cmd = E.cmd := by
  unfold editorSaveWrite
  simp only
  split <;> rfl

theorem editorSave_cmd {E E1 : editorConf} (h : editorSave E = .ret E1) : E1.cmd = E.cmd := by
  unfold editorSave at h
  split at h
  · obtain ⟨r, hr, h2⟩ := Run.bind_eq_ret h
    have hm := editorPrompt_cmd E _ none (fun f hf => by simp at hf) r hr
    split at h2
    · simp only [Run.ret.injEq] at h2
      rw [← h2]
      exact hm
    · obtain ⟨E2, h3, h4⟩ := Run.bind_eq_ret h2
      simp only [Run.ret.injEq] at h4
      rw [← h4, editorSaveWrite_cmd, editorSelectSyntaxHighlight_cmd h3]
      exact hm
  · simp only [Run.ret.injEq] at h
    rw [← h, editorSaveWrite_cmd]

theorem editorExecuteCommand_cmd {E E1 : editorConf} {command : List Nat}
    (h : editorExecuteCommand E command = .ret E1) : E1.cmd = E.cmd := by
  unfold editorExecuteCommand at h
  simp only at h
  split_ifs at h <;> first
    | (simp only [Run.ret.injEq] at h; rw [← h]; rfl)
    | exact editorSave_cmd h
    | (obtain ⟨E2, _, h3⟩ := Run.bind_eq_ret h; simp at h3)

theorem take_set_same {α : Type} (l : List α) (n : Nat) (a : α) :
    (l.set n a).take n = l.take n := by
  rw [List.set_take, List.set_eq_of_length_le (by simp)]

theorem take_succ_set {α : Type} (l : List α) (n : Nat) (a : α) (h : n < l.length) :
    (l.set n a).take (n + 1) = l.take n ++ [a] := by
  rw [List.set_take]
  have := set_take_succ_append l [] n a h
  simpa using this

theorem commandOK_of_cmd {E E1 : editorConf} (h : E1.cmd = E.cmd) (hok : commandOK E) :
    commandOK E1 := by
  have h1 : E1.command_buffer = E.command_buffer := congrArg Prod.fst h
  have h2 : E1.command_len = E.command_len := congrArg Prod.snd h
  unfold commandOK
  rw [h1, h2]
  exact hok

theorem commandText_of_cmd {E E1 : editorConf} (h : E1.cmd = E.cmd) :
    commandText E1 = commandText E := by
  have h1 : E1.command_buffer = E.command_buffer := congrArg Prod.fst h
  have h2 : E1.command_len = E.command_len := congrArg Prod.snd h
  unfold commandText
  rw [h1, h2]

theorem isprint_range {c : Int} (h : isprint c = true) : 32 ≤ c ∧ c ≤ 126 := by
  simpa [isprint] using h

/-- A printable key with room left in the accumulator. -/
theorem editorHandleCommand_printable (E : editorConf) (c : Int) (hok : commandOK E)
    (hp : isprint c = true) (hlen : E.command_len < (ZOR_COMMAND_BUFFER_SIZE : Int) - 1) :
    ∃ E1, editorHandleCommand E c = .ret E1 ∧ E1.command_len = E.command_len + 1 ∧
      commandText E1 = commandText E ++ [toByte c] ∧ commandOK E1 ∧ E1.mode = E.mode := by
  obtain ⟨hl, h0, h1, hz⟩ := hok
  simp only [ZOR_COMMAND_BUFFER_SIZE] at hl h1 hlen
  push_cast at h1 hlen
  have hc := isprint_range hp
  have hv := CTRL_KEY_values
  have n13 : ¬ c = 13 := by omega
  have n27 : ¬ c = 27 := by omega
  have nbs : ¬ (c = BACKSPACE ∨ c = CTRL_KEY 104) := by
    simp only [BACKSPACE, hv.1]; omega
  have hpos : isprint c = true ∧ E.command_len < (ZOR_COMMAND_BUFFER_SIZE : Int) - 1 := by
    refine ⟨hp, ?_⟩
    simp only [ZOR_COMMAND_BUFFER_SIZE]
    push_cast
    omega
  have hn : (E.command_len + 1).toNat = E.command_len.toNat + 1 := by omega
  have hb1 : bufSet E.command_buffer E.command_len (toByte c)
      = some (E.command_buffer.set E.command_len.toNat (toByte c)) := by
    unfold bufSet
    rw [if_pos ⟨h0, by omega⟩]
  have hb2 : bufSet (E.command_buffer.set E.command_len.toNat (toByte c)) (E.command_len + 1) 0
      = some ((E.command_buffer.set E.command_len.toNat (toByte c)).set
          (E.command_len.toNat + 1) 0) := by
    unfold bufSet
    rw [if_pos ⟨by omega, by simp only [List.length_set]; omega⟩, hn]
  have hrun : editorHandleCommand E c
      = .ret (editorSetStatusMessage
          { E with
            command_buffer := (E.command_buffer.set E.command_len.toNat (toByte c)).set
              (E.command_len.toNat + 1) 0,
            command_len := E.command_len + 1 }
          (bytes ":" ++ cstr ((E.command_buffer.set E.command_len.toNat (toByte c)).set
              (E.command_len.toNat + 1) 0))) := by
    unfold editorHandleCommand
    simp only []
    rw [if_neg n13, if_neg n27, if_neg nbs, if_pos hpos, hb1]
    simp only []
    rw [hb2]
    rfl
  refine ⟨_, hrun, rfl, ?_, ⟨?_, ?_, ?_, ?_⟩, rfl⟩
  · show List.take (E.command_len + 1).toNat
        ((E.command_buffer.set E.command_len.toNat (toByte c)).set (E.command_len.toNat + 1) 0)
      = List.take E.command_len.toNat E.command_buffer ++ [toByte c]
    rw [hn, List.set_take, take_succ_set _ _ _ (by omega)]
    have hle : (E.command_buffer.take E.command_len.toNat ++ [toByte c]).length
        ≤ E.command_len.toNat + 1 := by simp
    rw [List.set_eq_of_length_le hle]
  · show ((E.command_buffer.set E.command_len.toNat (toByte c)).set
        (E.command_len.toNat + 1) 0).length = ZOR_COMMAND_BUFFER_SIZE
    simp only [List.length_set, ZOR_COMMAND_BUFFER_SIZE]
    exact hl
  · show 0 ≤ E.command_len + 1
    omega
  · show E.command_len + 1 ≤ (ZOR_COMMAND_BUFFER_SIZE : Int) - 1
    simp only [ZOR_COMMAND_BUFFER_SIZE]
    push_cast
    omega
  · show ((E.command_buffer.set E.command_len.toNat (toByte c)).set
        (E.command_len.toNat + 1) 0)[(E.command_len + 1).toNat]? = some 0
    rw [hn, List.getElem?_set_self (by simp only [List.length_set]; omega)]

/-- Backspace or Ctrl-H with a text in the accumulator. -/
theorem editorHandleCommand_backspace (E : editorConf) (c : Int) (hok : commandOK E)
    (hc : c = BACKSPACE ∨ c = CTRL_KEY 104) (hlen : E.command_len > 0) :
    ∃ E1, editorHandleCommand E c = .ret E1 ∧ E1.command_len = E.command_len - 1 ∧
      commandText E1 = (commandText E).dropLast ∧ commandOK E1 ∧ E1.mode = E.mode := by
  obtain ⟨hl, h0, h1, hz⟩ := hok
  simp only [ZOR_COMMAND_BUFFER_SIZE] at hl h1
  push_cast at h1
  have hv := CTRL_KEY_values
  have n13 : ¬ c = 13 := by simp only [BACKSPACE, hv.1] at hc; omega
  have n27 : ¬ c = 27 := by simp only [BACKSPACE, hv.1] at hc; omega
  have hn : (E.command_len - 1).toNat = E.command_len.toNat - 1 := by omega
  have hb1 : bufSet E.command_buffer (E.command_len - 1) 0
      = some (E.command_buffer.set (E.command_len.toNat - 1) 0) := by
    unfold bufSet
    rw [if_pos ⟨by omega, by omega⟩, hn]
  have hrun : editorHandleCommand E c
      = .ret (editorSetStatusMessage
          { E with
            command_buffer := E.command_buffer.set (E.command_len.toNat - 1) 0,
            command_len := E.command_len - 1 }
          (bytes ":" ++ cstr (E.command_buffer.set (E.command_len.toNat - 1) 0))) := by
    unfold editorHandleCommand
    simp only []
    rw [if_neg n13, if_neg n27, if_pos hc, if_pos hlen, hb1]
    rfl
  refine ⟨_, hrun, rfl, ?_, ⟨?_, ?_, ?_, ?_⟩, rfl⟩
  · show List.take (E.command_len - 1).toNat (E.command_buffer.set (E.command_len.toNat - 1) 0)
      = (List.take E.command_len.toNat E.command_buffer).dropLast
    rw [hn, take_set_same, List.dropLast_eq_take, List.take_take, List.length_take]
    congr 1
    omega
  · show (E.command_buffer.set (E.command_len.toNat - 1) 0).length = ZOR_COMMAND_BUFFER_SIZE
    simp only [List.length_set, ZOR_COMMAND_BUFFER_SIZE]
    exact hl
  · show 0 ≤ E.command_len - 1
    omega
  · show E.command_len - 1 ≤ (ZOR_COMMAND_BUFFER_SIZE : Int) - 1
    simp only [ZOR_COMMAND_BUFFER_SIZE]
    push_cast
    omega
  · show (E.command_buffer.set (E.command_len.toNat - 1) 0)[(E.command_len - 1).toNat]? = some 0
    rw [hn, List.getElem?_set_self (by omega)]

/-- A key that neither ends Command mode nor changes the text: a printable key
on a full accumulator, Backspace or Ctrl-H on an empty one, any other key that
is not Enter or Escape. -/
theorem editorHandleCommand_ignored (E : editorConf) (c : Int)
    (n13 : ¬ c = 13) (n27 : ¬ c = 27)
    (hbs : c = BACKSPACE ∨ c = CTRL_KEY 104 → ¬ E.command_len > 0)
    (hpr : isprint c = true → ¬ E.command_len < (ZOR_COMMAND_BUFFER_SIZE : Int) - 1) :
    editorHandleCommand E c
      = .ret (editorSetStatusMessage E (bytes ":" ++ cstr E.command_buffer)) := by
  unfold editorHandleCommand
  simp only []
  rw [if_neg n13, if_neg n27]
  by_cases h1 : c = BACKSPACE ∨ c = CTRL_KEY 104
  · rw [if_pos h1, if_neg (hbs h1)]
    rfl
  · rw [if_neg h1, if_neg (fun h => hpr h.1 h.2)]
    rfl

/-- Every key handled in Command mode leaves the accumulator well formed. -/
theorem editorHandleCommand_commandOK {E E1 : editorConf} {c : Int} (hok : commandOK E)
    (h : editorHandleCommand E c = .ret E1) : commandOK E1 := by
  by_cases h13 : c = 13
  · obtain ⟨hl, h0, h1, hz⟩ := hok
    have hlt : E.command_len.toNat < E.command_buffer.length := by
      simp only [ZOR_COMMAND_BUFFER_SIZE] at hl h1
      push_cast at h1
      omega
    have hb : bufSet E.command_buffer E.command_len 0
        = some (E.command_buffer.set E.command_len.toNat 0) := by
      unfold bufSet
      rw [if_pos ⟨h0, by omega⟩]
    unfold editorHandleCommand at h
    simp only [] at h
    rw [if_pos h13, hb] at h
    obtain ⟨E2, hr, h2⟩ := Run.bind_eq_ret h
    obtain ⟨E3, hx, h4⟩ := Run.bind_eq_ret hr
    have h3 := editorExecuteCommand_cmd hx
    simp only [Run.ret.injEq] at h2 h4
    have hcmd : E1.cmd = E3.cmd := by rw [← h2, ← h4]; rfl
    refine commandOK_of_cmd (hcmd.trans h3) ⟨?_, h0, h1, ?_⟩
    · show (E.command_buffer.set E.command_len.toNat 0).length = ZOR_COMMAND_BUFFER_SIZE
      rw [List.length_set]
      exact hl
    · show (E.command_buffer.set E.command_len.toNat 0)[E.command_len.toNat]? = some 0
      rw [List.getElem?_set_self hlt]
  by_cases h27 : c = 27
  · unfold editorHandleCommand at h
    simp only [] at h
    rw [if_neg h13, if_pos h27] at h
    simp only [Run.bind, Run.ret.injEq] at h
    exact commandOK_of_cmd (by rw [← h]; rfl) hok
  by_cases hbs : (c = BACKSPACE ∨ c = CTRL_KEY 104) ∧ E.command_len > 0
  · obtain ⟨E2, hr, _, _, hok2, _⟩ := editorHandleCommand_backspace E c hok hbs.1 hbs.2
    rw [hr, Run.ret.injEq] at h
    rw [← h]
    exact hok2
  by_cases hpr : isprint c = true ∧ E.command_len < (ZOR_COMMAND_BUFFER_SIZE : Int) - 1
  · obtain ⟨E2, hr, _, _, hok2, _⟩ := editorHandleCommand_printable E c hok hpr.1 hpr.2
    rw [hr, Run.ret.injEq] at h
    rw [← h]
    exact hok2
  · rw [editorHandleCommand_ignored E c h13 h27 (fun h1 h2 => hbs ⟨h1, h2⟩)
      (fun h1 h2 => hpr ⟨h1, h2⟩), Run.ret.injEq] at h
    exact commandOK_of_cmd (by rw [← h]; rfl) hok

theorem keypressDone_cmd {E E1 : editorConf} (h : keypressDone E = .ret E1) :
    E1.cmd = E.cmd := by
  simp only [keypressDone, Run.ret.injEq] at h
  rw [← h]

theorem ofOption_bind_keypressDone_cmd {o : Option editorConf} {E1 : editorConf}
    (h : (Run.ofOption o).bind keypressDone = .ret E1) : ∃ E2, o = some E2 ∧ E1.cmd = E2.cmd := by
  obtain ⟨E2, h1, h2⟩ := Run.bind_eq_ret h
  exact ⟨E2, Run.ofOption_eq_ret h1, keypressDone_cmd h2⟩

theorem bufSet_eq_some {buf b : List Nat} {i : Int} {v : Nat} (h : bufSet buf i v = some b) :
    0 ≤ i ∧ i < buf.length ∧ b = buf.set i.toNat v := by
  unfold bufSet at h
  split_ifs at h with hi
  simp only [Option.some.injEq] at h
  exact ⟨hi.1, hi.2, h.symm⟩

/-- Every key, in every mode, leaves the accumulator well formed. -/
theorem keypress_commandOK {E E1 : editorConf} {c : Int} (hok : commandOK E)
    (h : editorProccessKeypress E c = .ret E1) : commandOK E1 := by
  have fin : ∀ {E2 : editorConf}, E1.cmd = E2.cmd → E2.cmd = E.cmd → commandOK E1 :=
    fun h1 h2 => commandOK_of_cmd (h1.trans h2) hok
  unfold editorProccessKeypress at h
  cases hmode : E.mode with
  | NORMAL_MODE =>
    simp only [hmode] at h
    by_cases h1 : c = 105 ∨ c = 73
    · rw [if_pos h1] at h
      exact fin (keypressDone_cmd h) rfl
    rw [if_neg h1] at h
    by_cases h2 : c = 58
    · rw [if_pos h2] at h
      split at h
      · simp at h
      · rename_i b hb
        obtain ⟨_, hlt, hbe⟩ := bufSet_eq_some hb
        simp only [keypressDone, Run.ret.injEq] at h
        have hE1 : E1.cmd = (b, 0) := by rw [← h]; rfl
        have hbuf : E1.command_buffer = b := congrArg Prod.fst hE1
        have hlen : E1.command_len = 0 := congrArg Prod.snd hE1
        unfold commandOK
        rw [hbuf, hlen, hbe, List.length_set]
        refine ⟨hok.1, Int.le_refl 0, by simp [ZOR_COMMAND_BUFFER_SIZE], ?_⟩
        exact List.getElem?_set_self (by simpa using hlt)
    rw [if_neg h2] at h
    by_cases h3 : c = 104
    · rw [if_pos h3] at h
      obtain ⟨E2, h1, h2⟩ := ofOption_bind_keypressDone_cmd h
      exact fin (h2.trans (editorMoveCursor_cmd h1)) rfl
    rw [if_neg h3] at h
    by_cases h4 : c = 106
    · rw [if_pos h4] at h
      obtain ⟨E2, h1, h2⟩ := ofOption_bind_keypressDone_cmd h
      exact fin (h2.trans (editorMoveCursor_cmd h1)) rfl
    rw [if_neg h4] at h
    by_cases h5 : c = 107
    · rw [if_pos h5] at h
      obtain ⟨E2, h1, h2⟩ := ofOption_bind_keypressDone_cmd h
      exact fin (h2.trans (editorMoveCursor_cmd h1)) rfl
    rw [if_neg h5] at h
    by_cases h6 : c = 108
    · rw [if_pos h6] at h
      obtain ⟨E2, h1, h2⟩ := ofOption_bind_keypressDone_cmd h
      exact fin (h2.trans (editorMoveCursor_cmd h1)) rfl
    rw [if_neg h6] at h
    by_cases h7 : c = 47
    · rw [if_pos h7] at h
      obtain ⟨E2, h1, h2⟩ := Run.bind_eq_ret h
      exact fin ((keypressDone_cmd h2).trans (editorFind_cmd h1)) rfl
    rw [if_neg h7] at h
    by_cases h8 : c = CTRL_KEY 117 ∨ c = CTRL_KEY 100
    · rw [if_pos h8] at h
      obtain ⟨E2, h1, h2⟩ := ofOption_bind_keypressDone_cmd h
      exact fin (h2.trans (pageMove_cmd h1)) rfl
    rw [if_neg h8] at h
    by_cases h9 : c = HOME_KEY
    · rw [if_pos h9] at h
      exact fin (keypressDone_cmd h) rfl
    rw [if_neg h9] at h
    by_cases h10 : c = END_KEY
    · rw [if_pos h10] at h
      split_ifs at h
      · split at h
        · simp at h
        · exact fin (keypressDone_cmd h) rfl
      · exact fin (keypressDone_cmd h) rfl
    rw [if_neg h10] at h
    by_cases h11 : c = BACKSPACE ∨ c = CTRL_KEY 104 ∨ c = DEL_KEY
    · rw [if_pos h11] at h
      split at h
      · simp at h
      · rename_i E3 h3
        obtain ⟨E2, h1, h2⟩ := ofOption_bind_keypressDone_cmd h
        refine fin (h2.trans (editorDeleteChar_cmd h1)) ?_
        split_ifs at h3
        · exact editorMoveCursor_cmd h3
        · simp only [Option.some.injEq] at h3
          rw [← h3]
    rw [if_neg h11] at h
    by_cases h12 : c = PAGE_UP ∨ c = PAGE_DOWN
    · rw [if_pos h12] at h
      obtain ⟨E2, h1, h2⟩ := ofOption_bind_keypressDone_cmd h
      exact fin (h2.trans (pageMove_cmd h1)) rfl
    rw [if_neg h12] at h
    by_cases h13 : c = ARROW_LEFT ∨ c = ARROW_RIGHT ∨ c = ARROW_UP ∨ c = ARROW_DOWN
    · rw [if_pos h13] at h
      obtain ⟨E2, h1, h2⟩ := ofOption_bind_keypressDone_cmd h
      exact fin (h2.trans (editorMoveCursor_cmd h1)) rfl
    rw [if_neg h13] at h
    exact fin (keypressDone_cmd h) rfl
  | INSERT_MODE =>
    simp only [hmode] at h
    by_cases h1 : c = 13
    · rw [if_pos h1] at h
      obtain ⟨E2, h1, h2⟩ := ofOption_bind_keypressDone_cmd h
      exact fin (h2.trans (editorInsertNewline_cmd h1)) rfl
    rw [if_neg h1] at h
    by_cases h2 : c = CTRL_KEY 113
    · rw [if_pos h2] at h
      split_ifs at h
      simp only [Run.ret.injEq] at h
      exact fin (by rw [← h]; rfl) rfl
    rw [if_neg h2] at h
    by_cases h3 : c = CTRL_KEY 115
    · rw [if_pos h3] at h
      obtain ⟨E2, h1, h2⟩ := Run.bind_eq_ret h
      exact fin ((keypressDone_cmd h2).trans (editorSave_cmd h1)) rfl
    rw [if_neg h3] at h
    by_cases h4 : c = HOME_KEY
    · rw [if_pos h4] at h
      exact fin (keypressDone_cmd h) rfl
    rw [if_neg h4] at h
    by_cases h5 : c = END_KEY
    · rw [if_pos h5] at h
      split_ifs at h
      · split at h
        · simp at h
        · exact fin (keypressDone_cmd h) rfl
      · exact fin (keypressDone_cmd h) rfl
    rw [if_neg h5] at h
    by_cases h6 : c = BACKSPACE ∨ c = CTRL_KEY 104 ∨ c = DEL_KEY
    · rw [if_pos h6] at h
      split at h
      · simp at h
      · rename_i E3 h3
        obtain ⟨E2, h1, h2⟩ := ofOption_bind_keypressDone_cmd h
        refine fin (h2.trans (editorDeleteChar_cmd h1)) ?_
        split_ifs at h3
        · exact editorMoveCursor_cmd h3
        · simp only [Option.some.injEq] at h3
          rw [← h3]
    rw [if_neg h6] at h
    by_cases h7 : c = PAGE_UP ∨ c = PAGE_DOWN
    · rw [if_pos h7] at h
      obtain ⟨E2, h1, h2⟩ := ofOption_bind_keypressDone_cmd h
      exact fin (h2.trans (pageMove_cmd h1)) rfl
    rw [if_neg h7] at h
    by_cases h8 : c = ARROW_LEFT ∨ c = ARROW_RIGHT ∨ c = ARROW_UP ∨ c = ARROW_DOWN
    · rw [if_pos h8] at h
      obtain ⟨E2, h1, h2⟩ := ofOption_bind_keypressDone_cmd h
      exact fin (h2.trans (editorMoveCursor_cmd h1)) rfl
    rw [if_neg h8] at h
    by_cases h9 : c = CTRL_KEY 108 ∨ c = 27
    · rw [if_pos h9] at h
      exact fin (keypressDone_cmd h) rfl
    rw [if_neg h9] at h
    obtain ⟨E2, h1, h2⟩ := ofOption_bind_keypressDone_cmd h
    exact fin (h2.trans (editorInsertChar_cmd h1)) rfl
  | COMMAND_MODE =>
    simp only [hmode] at h
    obtain ⟨E2, h1, h2⟩ := Run.bind_eq_ret h
    exact commandOK_of_cmd (keypressDone_cmd h2) (editorHandleCommand_commandOK hok h1)

/-- The accumulator is well formed after any number of turns of the main loop. -/
theorem mainLoop_commandOK : ∀ (n : Nat) (E E1 : editorConf), commandOK E →
    mainLoop n E = .ret E1 → commandOK E1 := by
  intro n
  induction n with
  | zero =>
    intro E E1 hok h
    simp only [mainLoop, Run.ret.injEq] at h
    rw [← h]
    exact hok
  | succ n ih =>
    intro E E1 hok h
    unfold mainLoop at h
    split at h
    · simp at h
    · rename_i E2 h2
      have hok2 : commandOK E2 := commandOK_of_cmd (editorRefreshScreen_cmd h2) hok
      split at h
      · simp at h
      · rename_i c rest hin
        obtain ⟨E3, h3, h4⟩ := Run.bind_eq_ret h
        have hok3 : commandOK { E2 with input := rest } := hok2
        exact ih E3 E1 (keypress_commandOK hok3 h3) h4

theorem keypress_command_mode (E : editorConf) (c : Int)
    (hmode : E.mode = editorModes.COMMAND_MODE) :
    editorProccessKeypress E c = (editorHandleCommand E c).bind keypressDone := by
  unfold editorProccessKeypress
  rw [hmode]

theorem toByte_printable {c : Int} (h : isprint c = true) : toByte c = c.toNat := by
  have := isprint_range h
  unfold toByte
  congr 1
  omega

/-- C19. The accumulator is well formed at the start of the editor (its array
has 256 bytes, `0 <= command_len <= 255`, the byte at `command_len` is NUL) and
stays so over any number of turns of the main loop, whatever the keys and the
modes.  In Command mode a printable key appends its byte when
`command_len < 255` and changes nothing in the accumulator when
`command_len = 255`; Backspace and Ctrl-H remove the last byte when
`command_len > 0` and change nothing when `command_len = 0`. -/
theorem command_accumulator_bounded (E : editorConf) (c : Int) :
    (∀ rows cols input fs errno_text, commandOK (initEditor rows cols input fs errno_text)) ∧
    (∀ n E1, commandOK E → mainLoop n E = .ret E1 → commandOK E1) ∧
    (commandOK E → E.mode = editorModes.COMMAND_MODE →
      (isprint c = true → E.command_len < 255 →
        ∃ E1, editorProccessKeypress E c = .ret E1 ∧ E1.command_len = E.command_len + 1 ∧
          commandText E1 = commandText E ++ [c.toNat] ∧ commandOK E1) ∧
      (isprint c = true → E.command_len = 255 →
        ∃ E1, editorProccessKeypress E c = .ret E1 ∧ E1.cmd = E.cmd) ∧
      (c = BACKSPACE ∨ c = CTRL_KEY 104 → E.command_len > 0 →
        ∃ E1, editorProccessKeypress E c = .ret E1 ∧ E1.command_len = E.command_len - 1 ∧
          commandText E1 = (commandText E).dropLast ∧ commandOK E1) ∧
      (c = BACKSPACE ∨ c = CTRL_KEY 104 → E.command_len = 0 →
        ∃ E1, editorProccessKeypress E c = .ret E1 ∧ E1.cmd = E.cmd)) := by
  have hv := CTRL_KEY_values
  refine ⟨fun rows cols input fs errno_text => ?_, fun n E1 hok h => mainLoop_commandOK n E E1 hok h,
    fun hok hmode => ⟨fun hp hlen => ?_, fun hp hlen => ?_, fun hc hlen => ?_, fun hc hlen => ?_⟩⟩
  · refine ⟨by simp [initEditor], Int.le_refl 0, ?_, ?_⟩
    · show (0 : Int) ≤ (ZOR_COMMAND_BUFFER_SIZE : Int) - 1
      simp [ZOR_COMMAND_BUFFER_SIZE]
    · show (List.replicate ZOR_COMMAND_BUFFER_SIZE 0)[(0 : Int).toNat]? = some 0
      simp [ZOR_COMMAND_BUFFER_SIZE]
  · obtain ⟨E1, hr, h1, h2, h3, _⟩ := editorHandleCommand_printable E c hok hp
      (by simp only [ZOR_COMMAND_BUFFER_SIZE]; push_cast; omega)
    rw [toByte_printable hp] at h2
    exact ⟨{ E1 with keypress_quit_times := ZOR_QUIT_TIMES },
      by rw [keypress_command_mode E c hmode, hr]; rfl, h1, h2, h3⟩
  · have hc := isprint_range hp
    have hr := editorHandleCommand_ignored E c (by omega) (by omega)
      (fun h => by simp only [BACKSPACE, hv.1] at h; omega)
      (fun _ => by simp only [ZOR_COMMAND_BUFFER_SIZE]; push_cast; omega)
    exact ⟨{ editorSetStatusMessage E (bytes ":" ++ cstr E.command_buffer) with
        keypress_quit_times := ZOR_QUIT_TIMES },
      by rw [keypress_command_mode E c hmode, hr]; rfl, rfl⟩
  · obtain ⟨E1, hr, h1, h2, h3, _⟩ := editorHandleCommand_backspace E c hok hc hlen
    exact ⟨{ E1 with keypress_quit_times := ZOR_QUIT_TIMES },
      by rw [keypress_command_mode E c hmode, hr]; rfl, h1, h2, h3⟩
  · have hr := editorHandleCommand_ignored E c
      (by simp only [BACKSPACE, hv.1] at hc; omega) (by simp only [BACKSPACE, hv.1] at hc; omega)
      (fun _ => by omega)
      (fun hp => by have := isprint_range hp; simp only [BACKSPACE, hv.1] at hc; omega)
    exact ⟨{ editorSetStatusMessage E (bytes ":" ++ cstr E.command_buffer) with
        keypress_quit_times := ZOR_QUIT_TIMES },
      by rw [keypress_command_mode E c hmode, hr]; rfl, rfl⟩

theorem command_accumulator_witness :
    commandOK commandState ∧ commandText commandState = bytes "wq" ∧
    (∃ E1, editorProccessKeypress commandState 33 = .ret E1 ∧ E1.command_len = 3 ∧
      commandText E1 = bytes "wq!" ∧ commandOK E1) ∧
    (∃ E1, editorProccessKeypress commandState BACKSPACE = .ret E1 ∧ E1.command_len = 1 ∧
      commandText E1 = bytes "w" ∧ commandOK E1) :=
  ⟨by decide, by decide,
    ((command_accumulator_bounded commandState 33).2.2 (by decide) rfl).1 (by decide) (by decide),
    ((command_accumulator_bounded commandState BACKSPACE).2.2 (by decide) rfl).2.2.1
      (by decide) (by decide)⟩

/-! ## The visual lines of the document rows (C18) -/

/-- A save that fails on a named file leaves everything but the message alone. -/
theorem editorSaveWrite_failed (E : editorConf) (hfs : E.fs ≠ .ok) :
    editorSaveWrite E
      = editorSetStatusMessage E (bytes "Can't save! I/O error: " ++ E.errno_text) := by
  unfold editorSaveWrite
  cases h : E.fs with
  | ok => exact absurd h hfs
  | open_fails => rfl
  | ftruncate_fails => rfl
  | write_fails => rfl

/-- The command `w` on a named file whose save fails returns, with the rows and
the dirty counter of before. -/
theorem editorExecuteCommand_w_failed (E : editorConf) (command f : List Nat)
    (hc : cstr command = bytes "w") (hf : E.filename = some f) (hfs : E.fs ≠ .ok) :
    ∃ E1, editorExecuteCommand E command = .ret E1 ∧ E1.row = E.row ∧ E1.dirty = E.dirty ∧
      E1.disk = E.disk := by
  have hrun : editorExecuteCommand E command = .ret (editorSaveWrite E) := by
    unfold editorExecuteCommand
    rw [hc, if_neg (by decide), if_neg (by decide), if_pos rfl]
    unfold editorSave
    rw [hf]
  rw [hrun, editorSaveWrite_failed E hfs]
  exact ⟨_, rfl, rfl, rfl, rfl⟩

/-- The command `wq` on a named file ends the process whatever the save did:
after a failed save with the rows of before and the dirty counter untouched. -/
theorem editorExecuteCommand_wq_exits (E : editorConf) (command f : List Nat)
    (hc : cstr command = bytes "wq") (hf : E.filename = some f) :
    editorExecuteCommand E command = .exit (editorSaveWrite E) 0 ∧
      (E.fs ≠ .ok → (editorSaveWrite E).row = E.row ∧ (editorSaveWrite E).dirty = E.dirty ∧
        (editorSaveWrite E).disk = E.disk) := by
  refine ⟨?_, fun hfs => ?_⟩
  · unfold editorExecuteCommand
    rw [hc, if_neg (by decide), if_neg (by decide), if_neg (by decide), if_pos rfl]
    unfold editorSave
    rw [hf]
    rfl
  · rw [editorSaveWrite_failed E hfs]
    exact ⟨rfl, rfl, rfl⟩

/-! ## The flags of the C profile (C22) -/

/-- C22 (the code breaks the claim). The flags of the entry of `HLDB` are the
value of `HL_HIGHLIGHT_NUMBERS || HL_HIGHLIGHT_STRINGS`, which is 1: the bit of
number highlighting is set and the bit of string highlighting is not.  Under
this profile `editorUpdateSyntax` gives the three bytes of `"a"` the normal
class, also in a file opened as `a.c`; with both bits set (flags 3) the same
loop gives them the string class. -/
theorem c_profile_flags_lack_string_bit :
    HLDB.length = 1 ∧ cSyntax.flags = 1 ∧ cSyntax.flags &&& HL_HIGHLIGHT_NUMBERS ≠ 0 ∧
    cSyntax.flags &&& HL_HIGHLIGHT_STRINGS = 0 ∧
    (editorUpdateSyntax (some cSyntax) quotedRow).hl = [HL_NORMAL, HL_NORMAL, HL_NORMAL] ∧
    (∃ E1, editorOpen startState (bytes "a.c") (some [34, 97, 34, 10]) = .ret E1 ∧
      E1.syn = some cSyntax ∧ E1.row.map editorRow.render = [[34, 97, 34]] ∧
      E1.row.map editorRow.hl = [[HL_NORMAL, HL_NORMAL, HL_NORMAL]]) ∧
    editorUpdateSyntaxLoop (HL_HIGHLIGHT_NUMBERS ||| HL_HIGHLIGHT_STRINGS) quotedRow.render true 0
      HL_NORMAL = [HL_STRING, HL_STRING, HL_STRING] :=
  ⟨rfl, rfl, by decide, by decide, by decide, ⟨_, rfl, rfl, by decide, by decide⟩, by decide⟩

/-! ## Syntax selection on other file names (C25) -/

/-- A file name whose text from the last `.` on is not `.c` (or that has no
`.`) is no hit for the first pattern of the C profile, and the loop over the
patterns then tests that pattern again and again. -/
theorem editorSelectSyntaxHighlight_diverges (E : editorConf) (filename : List Nat)
    (hname : E.filename = some filename) (hext : strrchr filename 46 ≠ some (bytes ".c")) :
    editorSelectSyntaxHighlight E = .diverge { E with syn := none } ∧
      ∀ fuel, selectWhile { E with syn := none } filename (strrchr filename 46) cSyntax 0 fuel
        = none := by
  have hhead : (bytes ".c").head? = some 46 := by decide
  have hmiss : filematchHit filename (strrchr filename 46) (bytes ".c") = false := by
    unfold filematchHit
    cases h : strrchr filename 46 with
    | none => simp [hhead]
    | some e =>
      have hne : e ≠ bytes ".c" := fun h1 => hext (by rw [h, h1])
      have hne2 : ¬ e = cstr (bytes ".c") := hne
      simp [hne2, hhead]
  refine ⟨?_, selectWhile_stuck _ _ _ cSyntax 0 (bytes ".c") rfl hmiss⟩
  unfold editorSelectSyntaxHighlight
  simp only [hname]
  show (match (bytes ".c" : List Nat) with
    | pat => if filematchHit filename (strrchr filename 46) pat = true then _ else _) = _
  simp only [hmiss]
  rfl

/-- C25 (the code breaks the claim). For the name `a.c` the selection returns
with the C profile.  For `a.h`, `a.cpp`, `notes.txt` and `Makefile` the first
pattern `.c` is no hit, the loop `while (s->filematch[i])` has no `i++`, and no
number of iterations ends it: the call does not return, and neither does
`editorOpen` on such a file. -/
theorem syntax_selection_loops_unless_dot_c :
    (∃ E1, editorSelectSyntaxHighlight (namedState "a.c") = .ret E1 ∧ E1.syn = some cSyntax) ∧
    (∃ E1, editorSelectSyntaxHighlight (namedState "a.h") = .diverge E1) ∧
    (∃ E1, editorSelectSyntaxHighlight (namedState "a.cpp") = .diverge E1) ∧
    (∃ E1, editorSelectSyntaxHighlight (namedState "notes.txt") = .diverge E1) ∧
    (∃ E1, editorSelectSyntaxHighlight (namedState "Makefile") = .diverge E1) ∧
    (∀ fuel, selectWhile (namedState "a.h") (bytes "a.h") (strrchr (bytes "a.h") 46) cSyntax 0 fuel
      = none) ∧
    (∃ E1, editorOpen startState (bytes "a.h") (some (bytes "int x;")) = .diverge E1) :=
  ⟨⟨_, rfl, rfl⟩, ⟨_, rfl⟩, ⟨_, rfl⟩, ⟨_, rfl⟩, ⟨_, rfl⟩,
    selectWhile_stuck _ _ _ cSyntax 0 (bytes ".c") rfl (by decide), ⟨_, rfl⟩⟩

/-! ## Horizontal cursor movement (C23) -/

theorem clampCx_same (E : editorConf) (h0 : 0 ≤ E.cy)
    (hsome : ∀ row, rowAt E.row E.cy = some row → E.cx ≤ row.size)
    (hnone : rowAt E.row E.cy = none → E.cx ≤ 0) : clampCx E = some E := by
  unfold clampCx
  by_cases hge : E.cy ≥ E.num_rows
  · have hn : rowAt E.row E.cy = none := by
      simp only [editorConf.num_rows] at hge
      unfold rowAt
      rw [if_pos h0]
      exact List.getElem?_eq_none (by omega)
    have := hnone hn
    rw [if_pos hge]
    simp only []
    rw [if_neg (by omega)]
  · rw [if_neg hge]
    cases hrow : rowAt E.row E.cy with
    | none =>
      simp only [editorConf.num_rows] at hge
      obtain ⟨row, hr, _⟩ := rowAt_some_of_lt E.row E.cy h0 (by omega)
      rw [hr] at hrow
      exact absurd hrow (by simp)
    | some row =>
      have := hsome row hrow
      simp only [Option.map]
      rw [if_neg (by omega)]

theorem cursorValid_cases {E : editorConf} (hv : cursorValid E) :
    0 ≤ E.cy ∧ E.cy ≤ E.num_rows ∧ 0 ≤ E.cx ∧
      (∀ row, rowAt E.row E.cy = some row → E.cx ≤ row.size) ∧
      (rowAt E.row E.cy = none → E.cx ≤ 0) ∧
      (E.cy < E.num_rows → ∃ row, rowAt E.row E.cy = some row) ∧
      (E.cy = E.num_rows → rowAt E.row E.cy = none) := by
  obtain ⟨h0, h1, h2, h3⟩ := hv
  refine ⟨h0, h1, h2, fun row hr => ?_, fun hn => ?_, fun hlt => ?_, fun he => ?_⟩
  · rw [hr] at h3
    exact h3
  · rw [hn] at h3
    exact h3
  · simp only [editorConf.num_rows] at hlt
    obtain ⟨row, hr, _⟩ := rowAt_some_of_lt E.row E.cy h0 hlt
    exact ⟨row, hr⟩
  · simp only [editorConf.num_rows] at he
    unfold rowAt
    rw [if_pos h0]
    exact List.getElem?_eq_none (by omega)

theorem moveLeft_in_row (E : editorConf) (h0 : 0 ≤ E.cy) (hcx : 0 < E.cx)
    (hsome : ∀ row, rowAt E.row E.cy = some row → E.cx ≤ row.size)
    (hnone : rowAt E.row E.cy = none → E.cx ≤ 0) :
    editorMoveCursor E ARROW_LEFT = some { E with cx := E.cx - 1 } := by
  have hstep : moveStep E ARROW_LEFT = some { E with cx := E.cx - 1 } := by
    unfold moveStep
    rw [if_pos rfl, if_pos (by omega)]
  rw [editorMoveCursor_eq, hstep]
  exact clampCx_same _ h0 (fun row hr => by have := hsome row hr; show E.cx - 1 ≤ row.size; omega)
    (fun hr => by have := hnone hr; omega)

theorem moveLeft_wrap (E : editorConf) (prev : editorRow) (hcx : E.cx = 0) (hcy : 0 < E.cy)
    (hprev : rowAt E.row (E.cy - 1) = some prev) :
    editorMoveCursor E ARROW_LEFT = some { E with cy := E.cy - 1, cx := prev.size } := by
  have hstep : moveStep E ARROW_LEFT = some { E with cy := E.cy - 1, cx := prev.size } := by
    unfold moveStep
    rw [if_pos rfl, if_neg (by omega), if_pos hcy, hprev]
  rw [editorMoveCursor_eq, hstep]
  exact clampCx_same _ (by show 0 ≤ E.cy - 1; omega)
    (fun row hr => by
      have hr1 : rowAt E.row (E.cy - 1) = some row := hr
      rw [hprev] at hr1
      rw [← Option.some.inj hr1])
    (fun hr => by
      have hr1 : rowAt E.row (E.cy - 1) = none := hr
      rw [hprev] at hr1
      exact absurd hr1 (by simp))

theorem moveLeft_origin (E : editorConf) (hcx : E.cx = 0) (hcy : E.cy = 0) :
    editorMoveCursor E ARROW_LEFT = some E := by
  have hstep : moveStep E ARROW_LEFT = some E := by
    unfold moveStep
    rw [if_pos rfl, if_neg (by omega), if_neg (by omega)]
  rw [editorMoveCursor_eq, hstep]
  exact clampCx_same _ (by omega)
    (fun row _ => by rw [hcx]; simp only [editorRow.size]; omega) (fun _ => by omega)

theorem moveRight_in_row (E : editorConf) (row : editorRow) (hr : rowAt E.row E.cy = some row)
    (hcx : E.cx < row.size) :
    editorMoveCursor E ARROW_RIGHT = some { E with cx := E.cx + 1 } := by
  have hlt := rowAt_lt hr
  have hn : E.num_rows = (E.row.length : Int) := rfl
  have nLR : ¬ ARROW_RIGHT = ARROW_LEFT := by decide
  have hstep : moveStep E ARROW_RIGHT = some { E with cx := E.cx + 1 } := by
    unfold moveStep
    rw [if_neg nLR, if_pos rfl, if_neg (by omega), hr]
    simp only []
    rw [if_pos (by omega)]
  rw [editorMoveCursor_eq, hstep]
  exact clampCx_same _ hlt.1
    (fun row1 hr1 => by
      have hr2 : rowAt E.row E.cy = some row1 := hr1
      rw [hr] at hr2
      rw [← Option.some.inj hr2]
      show E.cx + 1 ≤ row.size
      omega)
    (fun hr1 => by
      have hr2 : rowAt E.row E.cy = none := hr1
      rw [hr] at hr2
      exact absurd hr2 (by simp))

theorem moveRight_wrap (E : editorConf) (row : editorRow) (hr : rowAt E.row E.cy = some row)
    (hcx : E.cx = row.size) :
    editorMoveCursor E ARROW_RIGHT = some { E with cy := E.cy + 1, cx := 0 } := by
  have hlt := rowAt_lt hr
  have hn : E.num_rows = (E.row.length : Int) := rfl
  have nLR : ¬ ARROW_RIGHT = ARROW_LEFT := by decide
  have hstep : moveStep E ARROW_RIGHT = some { E with cy := E.cy + 1, cx := 0 } := by
    unfold moveStep
    rw [if_neg nLR, if_pos rfl, if_neg (by omega), hr]
    simp only []
    rw [if_neg (by omega), if_pos hcx]
  rw [editorMoveCursor_eq, hstep]
  exact clampCx_same _ (by show 0 ≤ E.cy + 1; omega)
    (fun row1 _ => by
      show (0 : Int) ≤ row1.size
      simp only [editorRow.size]
      omega)
    (fun _ => Int.le_refl 0)

theorem moveRight_end (E : editorConf) (h0 : 0 ≤ E.cy) (hcy : E.cy ≥ E.num_rows)
    (hcx : E.cx ≤ 0) : editorMoveCursor E ARROW_RIGHT = some E := by
  have nLR : ¬ ARROW_RIGHT = ARROW_LEFT := by decide
  have hstep : moveStep E ARROW_RIGHT = some E := by
    unfold moveStep
    rw [if_neg nLR, if_pos rfl, if_pos hcy]
  rw [editorMoveCursor_eq, hstep]
  exact clampCx_same _ h0
    (fun row _ => by simp only [editorRow.size]; omega) (fun _ => hcx)

theorem editorConf_eta_cursor (E : editorConf) (x y : Int) (hx : x = E.cx) (hy : y = E.cy) :
    ({ E with cx := x, cy := y } : editorConf) = E := by
  subst hx
  subst hy
  rfl

/-- C23. On a valid cursor `editorMoveCursor` returns and follows the wrap
policy: Left with `cx > 0` gives `cx - 1`; Left with `cx = 0` and `cy > 0`
gives the end of row `cy - 1`; Left at `(0, 0)` changes nothing; Right with
`cx` below the length of row `cy` gives `cx + 1`; Right at the end of row `cy`
gives column 0 of row `cy + 1`; Right past the last row changes nothing.
Nothing but `cx` and `cy` changes, and on a row of the document Right followed
by Left gives back the state. -/
theorem horizontal_move_wraps (E : editorConf) (hv : cursorValid E) :
    (0 < E.cx → editorMoveCursor E ARROW_LEFT = some { E with cx := E.cx - 1 }) ∧
    (E.cx = 0 → 0 < E.cy →
      ∃ prev, rowAt E.row (E.cy - 1) = some prev ∧
        editorMoveCursor E ARROW_LEFT = some { E with cy := E.cy - 1, cx := prev.size }) ∧
    (E.cx = 0 → E.cy = 0 → editorMoveCursor E ARROW_LEFT = some E) ∧
    (∀ row, rowAt E.row E.cy = some row → E.cx < row.size →
      editorMoveCursor E ARROW_RIGHT = some { E with cx := E.cx + 1 }) ∧
    (∀ row, rowAt E.row E.cy = some row → E.cx = row.size →
      editorMoveCursor E ARROW_RIGHT = some { E with cy := E.cy + 1, cx := 0 }) ∧
    (E.cy = E.num_rows → editorMoveCursor E ARROW_RIGHT = some E) ∧
    (E.cy < E.num_rows →
      ∃ E1, editorMoveCursor E ARROW_RIGHT = some E1 ∧ editorMoveCursor E1 ARROW_LEFT = some E) := by
  obtain ⟨h0, h1, h2, hsome, hnone, hex, hend⟩ := cursorValid_cases hv
  have hn : E.num_rows = (E.row.length : Int) := rfl
  refine ⟨fun hcx => moveLeft_in_row E h0 hcx hsome hnone, fun hcx hcy => ?_,
    moveLeft_origin E, moveRight_in_row E, moveRight_wrap E,
    fun hcy => moveRight_end E h0 (by omega) (hnone (hend hcy)), fun hlt => ?_⟩
  · obtain ⟨prev, hprev, _⟩ := rowAt_some_of_lt E.row (E.cy - 1) (by omega) (by omega)
    exact ⟨prev, hprev, moveLeft_wrap E prev hcx hcy hprev⟩
  · obtain ⟨row, hr⟩ := hex hlt
    have hle := hsome row hr
    by_cases hcx : E.cx < row.size
    · refine ⟨_, moveRight_in_row E row hr hcx, ?_⟩
      have hback := moveLeft_in_row { E with cx := E.cx + 1 } h0
        (by show 0 < E.cx + 1; omega)
        (fun row1 hr1 => by
          have hr2 : rowAt E.row E.cy = some row1 := hr1
          rw [hr] at hr2
          rw [← Option.some.inj hr2]
          show E.cx + 1 ≤ row.size
          omega)
        (fun hr1 => by
          have hr2 : rowAt E.row E.cy = none := hr1
          rw [hr] at hr2
          exact absurd hr2 (by simp))
      rw [hback]
      exact congrArg some (editorConf_eta_cursor E _ _ (by show E.cx + 1 - 1 = E.cx; omega) rfl)
    · have hcx1 : E.cx = row.size := by omega
      refine ⟨_, moveRight_wrap E row hr hcx1, ?_⟩
      have hback := moveLeft_wrap { E with cy := E.cy + 1, cx := 0 } row rfl
        (by show 0 < E.cy + 1; omega)
        (by
          show rowAt E.row (E.cy + 1 - 1) = some row
          rw [show E.cy + 1 - 1 = E.cy by omega]
          exact hr)
      rw [hback]
      exact congrArg some
        (editorConf_eta_cursor E _ _ hcx1.symm (by show E.cy + 1 - 1 = E.cy; omega))

theorem horizontal_move_witness :
    cursorValid { sampleDoc with cx := 2 } ∧
    (∃ prev, rowAt sampleDoc.row 0 = some prev ∧
      editorMoveCursor { sampleDoc with cy := 1 } ARROW_LEFT
        = some { sampleDoc with cy := 0, cx := prev.size }) ∧
    (∃ E1, editorMoveCursor { sampleDoc with cx := 2 } ARROW_RIGHT = some E1 ∧
      editorMoveCursor E1 ARROW_LEFT = some { sampleDoc with cx := 2 }) :=
  ⟨by decide,
    (horizontal_move_wraps { sampleDoc with cy := 1 } (by decide)).2.1 rfl (by decide),
    (horizontal_move_wraps { sampleDoc with cx := 2 } (by decide)).2.2.2.2.2.2 (by decide)⟩

/-! ## Insertion undone by a backward delete (C26) -/

theorem take_insert {α : Type} (l : List α) (n : Nat) (b : α) (h : n ≤ l.length) :
    (l.take n ++ [b] ++ l.drop n).take n = l.take n ∧
      (l.take n ++ [b] ++ l.drop n).drop (n + 1) = l.drop n := by
  have hlen : (l.take n).length = n := by simp [h]
  constructor
  · rw [List.append_assoc]
    exact List.take_left' hlen
  · exact List.drop_left' (by simp [h])

theorem set_same_of_getElem? {α : Type} : ∀ (l : List α) (n : Nat) (a : α),
    l[n]? = some a → l.set n a = l := by
  intro l
  induction l with
  | nil => intro n a h; simp at h
  | cons x xs ih =>
    intro n a h
    cases n with
    | zero =>
      simp only [List.getElem?_cons_zero, Option.some.injEq] at h
      rw [List.set_cons_zero, h]
    | succ k =>
      simp only [List.getElem?_cons_succ] at h
      rw [List.set_cons_succ, ih k a h]

/-- In a row of the document `editorInsertChar` puts the byte at the cursor and
moves the cursor one column on. -/
theorem editorInsertChar_in_row (E : editorConf) (c : Int) (row : editorRow)
    (hr : rowAt E.row E.cy = some row) (hcx0 : 0 ≤ E.cx) (hcx : E.cx ≤ row.size) :
    editorInsertChar E c
      = some { E with
          row := E.row.set E.cy.toNat (editorUpdateRow E.syn { row with
            chars := row.chars.take E.cx.toNat ++ [toByte c] ++ row.chars.drop E.cx.toNat }),
          dirty := wrapInt (E.dirty + 1),
          cx := E.cx + 1 } := by
  have hlt := rowAt_lt hr
  have hne : ¬ E.cy = E.num_rows := by simp only [editorConf.num_rows]; omega
  have hpos : ¬ (E.cx < 0 ∨ E.cx > row.size) := by omega
  unfold editorInsertChar
  simp only []
  rw [if_neg hne]
  unfold editorRowInsertChar
  rw [hr]
  simp only []
  rw [if_neg hpos]

/-- With the cursor inside a row, after its first column, `editorDeleteChar`
removes the byte before the cursor and moves the cursor one column back. -/
theorem editorDeleteChar_in_row (E : editorConf) (row : editorRow)
    (hr : rowAt E.row E.cy = some row) (hcx0 : 0 < E.cx) (hcx : E.cx ≤ row.size) :
    editorDeleteChar E
      = some { E with
          row := E.row.set E.cy.toNat (editorUpdateRow E.syn { row with
            chars := row.chars.take (E.cx - 1).toNat ++ row.chars.drop ((E.cx - 1).toNat + 1) }),
          dirty := wrapInt (E.dirty + 1),
          cx := E.cx - 1 } := by
  have hlt := rowAt_lt hr
  have hne : ¬ E.cy = E.num_rows := by simp only [editorConf.num_rows]; omega
  have hne2 : ¬ (E.cx = 0 ∧ E.cy = 0) := by omega
  have hpos : ¬ (E.cx - 1 < 0 ∨ E.cx - 1 ≥ row.size) := by omega
  unfold editorDeleteChar
  rw [if_neg hne, if_neg hne2, if_pos hcx0]
  unfold editorRowDeleteChar
  rw [hr]
  simp only []
  rw [if_neg hpos]

/-- The backward delete in column 0 of a row after the first joins the row to
the one before it. -/
theorem editorDeleteChar_join (E : editorConf) (hcx : E.cx = 0) :
    (E.cy = 0 → editorDeleteChar E = some E) ∧
    (0 < E.cy → E.cy < E.num_rows →
      ∃ prev cur E1, rowAt E.row (E.cy - 1) = some prev ∧ rowAt E.row E.cy = some cur ∧
        editorDeleteChar E = some E1 ∧
        E1.row = E.row.take (E.cy.toNat - 1)
          ++ [editorUpdateRow E.syn { prev with chars := prev.chars ++ cur.chars }]
          ++ E.row.drop (E.cy.toNat + 1) ∧
        (editorUpdateRow E.syn { prev with chars := prev.chars ++ cur.chars }).chars
          = prev.chars ++ cur.chars ∧
        E1.num_rows = E.num_rows - 1 ∧ E1.cy = E.cy - 1 ∧ E1.cx = prev.size) := by
  constructor
  · intro hcy
    unfold editorDeleteChar
    split_ifs <;> first | rfl | (exfalso; omega)
  · intro h0 h1
    simp only [editorConf.num_rows] at h1
    obtain ⟨cur, hcur, hcur'⟩ := rowAt_some_of_lt E.row E.cy (by omega) h1
    obtain ⟨prev, hprev, hprev'⟩ := rowAt_some_of_lt E.row (E.cy - 1) (by omega) (by omega)
    have hm : (E.cy - 1).toNat = E.cy.toNat - 1 := by omega
    have hlt : E.cy.toNat - 1 < E.row.length := by omega
    have hsucc : E.cy.toNat - 1 + 1 = E.cy.toNat := by omega
    have hrows : (E.row.set (E.cy.toNat - 1)
          (editorUpdateRow E.syn { prev with chars := prev.chars ++ cur.chars })).take E.cy.toNat
        ++ (E.row.set (E.cy.toNat - 1)
          (editorUpdateRow E.syn { prev with chars := prev.chars ++ cur.chars })).drop
            (E.cy.toNat + 1)
        = E.row.take (E.cy.toNat - 1)
          ++ [editorUpdateRow E.syn { prev with chars := prev.chars ++ cur.chars }]
          ++ E.row.drop (E.cy.toNat + 1) := by
      have := take_drop_set_succ E.row (E.cy.toNat - 1)
        (editorUpdateRow E.syn { prev with chars := prev.chars ++ cur.chars }) hlt
      rw [hsucc] at this
      have h2 : E.cy.toNat - 1 + 2 = E.cy.toNat + 1 := by omega
      rw [h2] at this
      exact this
    have hne1 : ¬ E.cy = (E.row.length : Int) := by omega
    have hne2 : ¬ (E.cx = 0 ∧ E.cy = 0) := by omega
    have hne3 : ¬ E.cx > 0 := by omega
    have hdel : ¬ (E.cy < 0 ∨ E.cy ≥ (E.row.length : Int)) := by omega
    refine ⟨prev, cur,
      { E with
        cx := prev.size, cy := E.cy - 1, dirty := wrapInt (wrapInt (E.dirty + 1) + 1),
        row := (E.row.set (E.cy.toNat - 1)
            (editorUpdateRow E.syn { prev with chars := prev.chars ++ cur.chars })).take E.cy.toNat
          ++ (E.row.set (E.cy.toNat - 1)
            (editorUpdateRow E.syn { prev with chars := prev.chars ++ cur.chars })).drop
              (E.cy.toNat + 1) },
      hprev, hcur, ?_, hrows, editorUpdateRow_chars _ _, ?_, ?_, ?_⟩
    · unfold editorDeleteChar
      simp only [editorConf.num_rows, if_neg hne1, if_neg hne2, if_neg hne3, hcur, hprev,
        editorRowAppendString, editorDeleteRow, List.length_set, if_neg hdel, hm]
    · simp only [editorConf.num_rows, List.length_append, List.length_take, List.length_drop,
        List.length_set]
      omega
    · rfl
    · rfl

/-- In a row of the document `editorInsertNewline` splits the row at the cursor. -/
theorem editorInsertNewline_split (E : editorConf) (hcy0 : 0 ≤ E.cy) (hcy : E.cy < E.num_rows)
    (hcx0 : 0 ≤ E.cx)
    (hcx : ∀ cur, rowAt E.row E.cy = some cur → E.cx ≤ cur.size) :
    ∃ cur E1 A B, rowAt E.row E.cy = some cur ∧ editorInsertNewline E = some E1 ∧
      E1.row = E.row.take E.cy.toNat ++ [A, B] ++ E.row.drop (E.cy.toNat + 1) ∧
      A.chars = cur.chars.take E.cx.toNat ∧ B.chars = cur.chars.drop E.cx.toNat ∧
      E1.num_rows = E.num_rows + 1 ∧ E1.cx = 0 ∧ E1.cy = E.cy + 1 ∧
      (E.cx = cur.size → A.chars = cur.chars ∧ B.chars = []) := by
  simp only [editorConf.num_rows] at hcy
  obtain ⟨cur, hcur, hcur'⟩ := rowAt_some_of_lt E.row E.cy hcy0 hcy
  have hle := hcx cur hcur
  have hlt : E.cy.toNat < E.row.length := by omega
  have hend : E.cx = cur.size → cur.chars.take E.cx.toNat = cur.chars ∧
      cur.chars.drop E.cx.toNat = [] := by
    intro h
    have : E.cx.toNat = cur.chars.length := by simp only [editorRow.size] at h; omega
    simp [this]
  by_cases h0 : E.cx = 0
  · have hins : ¬ (E.cy < 0 ∨ E.cy > (E.row.length : Int)) := by omega
    refine ⟨cur, { editorInsertRow E E.cy [] with cy := (editorInsertRow E E.cy []).cy + 1, cx := 0 },
      editorUpdateRow E.syn { chars := [], render := [], hl := [] }, cur, hcur, ?_, ?_, ?_, ?_, ?_,
      rfl, ?_, ?_⟩
    · simp [editorInsertNewline, h0]
    · simp only [editorInsertRow, editorConf.num_rows, if_neg hins]
      rw [drop_eq_cons_of_getElem? E.row E.cy.toNat cur hcur']
      simp
    · simp [editorUpdateRow_chars, h0]
    · simp [h0]
    · simp only [editorInsertRow, editorConf.num_rows, if_neg hins, List.length_append,
        List.length_take, List.length_drop, List.length_singleton]
      omega
    · simp [editorInsertRow, editorConf.num_rows, if_neg hins]
    · intro h
      have := hend h
      simp only [h0, Int.toNat_zero, List.take_zero, List.drop_zero] at this
      rw [editorUpdateRow_chars]
      exact ⟨this.1, this.1.symm⟩
  · have hins : ¬ (E.cy + 1 < 0 ∨ E.cy + 1 > (E.row.length : Int)) := by omega
    have hbad : ¬ (E.cx < 0 ∨ E.cx > cur.size) := by omega
    have hsucc : (E.cy + 1).toNat = E.cy.toNat + 1 := by omega
    have hrow1 : rowAt (E.row.take (E.cy.toNat + 1)
          ++ [editorUpdateRow E.syn { chars := cur.chars.drop E.cx.toNat, render := [], hl := [] }]
          ++ E.row.drop (E.cy.toNat + 1)) E.cy = some cur := by
      simp only [rowAt, if_pos hcy0, List.append_assoc]
      rw [getElem?_take_succ_append _ _ _ hlt]
      exact hcur'
    refine ⟨cur,
      { E with
        cx := 0, cy := E.cy + 1, dirty := wrapInt (E.dirty + 1),
        row := E.row.take E.cy.toNat
          ++ [editorUpdateRow E.syn { cur with chars := cur.chars.take E.cx.toNat },
              editorUpdateRow E.syn { chars := cur.chars.drop E.cx.toNat, render := [], hl := [] }]
          ++ E.row.drop (E.cy.toNat + 1) },
      editorUpdateRow E.syn { cur with chars := cur.chars.take E.cx.toNat },
      editorUpdateRow E.syn { chars := cur.chars.drop E.cx.toNat, render := [], hl := [] },
      hcur, ?_, rfl, editorUpdateRow_chars _ _, editorUpdateRow_chars _ _, ?_, rfl, rfl, ?_⟩
    · unfold editorInsertNewline
      simp only [if_neg h0, hcur, if_neg hbad, editorInsertRow, editorConf.num_rows,
        if_neg hins, hsucc, hrow1]
      simp only [List.append_assoc, set_take_succ_append _ _ _ _ hlt]
      simp
    · simp only [editorConf.num_rows, List.length_append, List.length_take, List.length_drop,
        List.length_cons, List.length_nil]
      push_cast
      omega
    · intro h
      rw [editorUpdateRow_chars, editorUpdateRow_chars]
      exact hend h

/-- C26, the claim as stated fails. On the two-row sample document with the
cursor at `(1, 1)` and the dirty counter at `INT_MAX - 1`, `editorInsertChar`
and the following `editorDeleteChar` return with the raw bytes of the rows and
the cursor as before, and the counter goes to `INT_MAX` and then to `INT_MIN`:
it has not grown by 2, `dirty++` on an `int` wraps. -/
theorem backspace_wraps_dirty_counter :
    ∃ E1 E2,
      editorInsertChar { sampleDoc with cx := 1, cy := 1, dirty := INT_MAX - 1 } 120 = some E1 ∧
      E1.dirty = INT_MAX ∧ editorDeleteChar E1 = some E2 ∧
      E2.row.map editorRow.chars = sampleDoc.row.map editorRow.chars ∧ E2.cx = 1 ∧ E2.cy = 1 ∧
      E2.dirty = INT_MIN ∧ E2.dirty ≠ INT_MAX - 1 + 2 :=
  ⟨_, _, rfl, by decide, rfl, by decide, rfl, rfl, by decide, by decide⟩

/-- C26 (as amended). With the cursor in a row of the document at a column `cx`
with `0 <= cx <= size`: `editorInsertChar(c)` returns, the row under the cursor
then holds the bytes before `cx`, the byte of `c` and the bytes from `cx` on,
every other row is the one of before, and the cursor is at `(cx + 1, cy)`; a
following `editorDeleteChar` returns with the raw bytes of every row, the number
of rows and the cursor as before the insertion, and with the dirty counter
incremented twice, which makes it two higher when it was below `INT_MAX - 1`.
`editorInsertNewline` followed by `editorDeleteChar` returns with the raw bytes
of every row, the number of rows and the cursor as before. -/
theorem backspace_undoes_insertion (E : editorConf) (c : Int) (row : editorRow)
    (hr : rowAt E.row E.cy = some row) (hcx0 : 0 ≤ E.cx) (hcx : E.cx ≤ row.size) :
    (∃ E1 E2 row1, editorInsertChar E c = some E1 ∧ rowAt E1.row E.cy = some row1 ∧
      row1.chars = row.chars.take E.cx.toNat ++ [toByte c] ++ row.chars.drop E.cx.toNat ∧
      (∀ j : Nat, (j : Int) ≠ E.cy → E1.row[j]? = E.row[j]?) ∧
      E1.cx = E.cx + 1 ∧ E1.cy = E.cy ∧
      editorDeleteChar E1 = some E2 ∧
      E2.row.map editorRow.chars = E.row.map editorRow.chars ∧ E2.num_rows = E.num_rows ∧
      E2.cx = E.cx ∧ E2.cy = E.cy ∧ E2.dirty = wrapInt (wrapInt (E.dirty + 1) + 1) ∧
      (INT_MIN ≤ E.dirty → E.dirty + 1 < INT_MAX → E2.dirty = E.dirty + 2)) ∧
    (∃ E1 E2, editorInsertNewline E = some E1 ∧ editorDeleteChar E1 = some E2 ∧
      E2.row.map editorRow.chars = E.row.map editorRow.chars ∧ E2.num_rows = E.num_rows ∧
      E2.cx = E.cx ∧ E2.cy = E.cy) := by
  have hlt := rowAt_lt hr
  have hrow : E.row[E.cy.toNat]? = some row := by
    have := hr
    unfold rowAt at this
    rw [if_pos hlt.1] at this
    exact this
  have hn : E.cy.toNat < E.row.length := by omega
  have hcxn : E.cx.toNat ≤ row.chars.length := by
    simp only [editorRow.size] at hcx
    omega
  constructor
  · have hins := editorInsertChar_in_row E c row hr hcx0 hcx
    have hrow1 : rowAt (E.row.set E.cy.toNat (editorUpdateRow E.syn { row with
          chars := row.chars.take E.cx.toNat ++ [toByte c] ++ row.chars.drop E.cx.toNat }))
        E.cy = some (editorUpdateRow E.syn { row with
          chars := row.chars.take E.cx.toNat ++ [toByte c] ++ row.chars.drop E.cx.toNat }) := by
      unfold rowAt
      rw [if_pos hlt.1]
      exact List.getElem?_set_self hn
    have hsize1 : (editorUpdateRow E.syn { row with
          chars := row.chars.take E.cx.toNat ++ [toByte c] ++ row.chars.drop E.cx.toNat }).size
        = row.size + 1 := by
      have hcx1 : E.cx ≤ (row.chars.length : Int) := hcx
      simp only [editorRow.size, editorUpdateRow_chars, List.length_append,
        List.length_take_of_le hcxn, List.length_drop, List.length_singleton]
      omega
    have hdel := editorDeleteChar_in_row
      { E with
        row := E.row.set E.cy.toNat (editorUpdateRow E.syn { row with
          chars := row.chars.take E.cx.toNat ++ [toByte c] ++ row.chars.drop E.cx.toNat }),
        dirty := wrapInt (E.dirty + 1),
        cx := E.cx + 1 }
      _ hrow1 (by show 0 < E.cx + 1; omega) (by rw [hsize1]; show E.cx + 1 ≤ row.size + 1; omega)
    have hm : (E.cx + 1 - 1).toNat = E.cx.toNat := by omega
    refine ⟨_, _, _, hins, hrow1, editorUpdateRow_chars _ _, fun j hj => ?_, rfl, rfl, hdel,
      ?_, ?_, ?_, rfl, rfl, fun hd0 hd1 => ?_⟩
    · show (E.row.set E.cy.toNat _)[j]? = E.row[j]?
      exact List.getElem?_set_ne (by omega)
    · show List.map editorRow.chars ((E.row.set E.cy.toNat _).set E.cy.toNat _) = _
      rw [List.set_set, List.map_set, editorUpdateRow_chars]
      simp only [editorUpdateRow_chars]
      show (List.map editorRow.chars E.row).set E.cy.toNat
        ((row.chars.take E.cx.toNat ++ [toByte c] ++ row.chars.drop E.cx.toNat).take
            (E.cx + 1 - 1).toNat
          ++ (row.chars.take E.cx.toNat ++ [toByte c] ++ row.chars.drop E.cx.toNat).drop
            ((E.cx + 1 - 1).toNat + 1)) = _
      rw [hm, (take_insert row.chars E.cx.toNat (toByte c) hcxn).1,
        (take_insert row.chars E.cx.toNat (toByte c) hcxn).2, List.take_append_drop]
      exact set_same_of_getElem? _ _ _ (by rw [List.getElem?_map, hrow]; rfl)
    · show ((((E.row.set E.cy.toNat _).set E.cy.toNat _).length : Nat) : Int) = E.row.length
      simp only [List.length_set]
    · show E.cx + 1 - 1 = E.cx
      omega
    · show wrapInt (wrapInt (E.dirty + 1) + 1) = E.dirty + 2
      unfold INT_MIN at hd0
      unfold INT_MAX at hd1
      unfold wrapInt
      omega
  · obtain ⟨cur, E1, A, B, hcur, hnl, hrows, hA, hB, hnum, hx1, hy1, _⟩ :=
      editorInsertNewline_split E hlt.1 hlt.2 hcx0 (fun cur1 h1 => by
        rw [hr] at h1
        rw [← Option.some.inj h1]
        exact hcx)
    have hcur1 : row = cur := by
      rw [hr] at hcur
      exact Option.some.inj hcur
    subst hcur1
    have hn1 : E1.num_rows = (E1.row.length : Int) := rfl
    have hn0 : E.num_rows = (E.row.length : Int) := rfl
    have htake : E1.row.take E.cy.toNat = E.row.take E.cy.toNat := by
      rw [hrows, List.append_assoc]
      exact List.take_left' (by simp; omega)
    have hdrop : E1.row.drop (E.cy.toNat + 2) = E.row.drop (E.cy.toNat + 1) := by
      rw [hrows]
      exact List.drop_left' (by simp; omega)
    have hA1 : rowAt E1.row E.cy = some A := by
      unfold rowAt
      rw [if_pos hlt.1, hrows, List.append_assoc,
        List.getElem?_append_right (by simp), List.length_take_of_le (by omega), Nat.sub_self]
      rfl
    have hB1 : rowAt E1.row (E.cy + 1) = some B := by
      unfold rowAt
      rw [if_pos (show 0 ≤ E.cy + 1 by omega), hrows, List.append_assoc,
        List.getElem?_append_right (by simp), List.length_take_of_le (by omega),
        show (E.cy + 1).toNat - E.cy.toNat = 1 by omega]
      simp
    obtain ⟨prev, cur2, E2, hprev, hcur2, hdel, hrows2, hmerged, hnum2, hy2, hx2⟩ :=
      (editorDeleteChar_join E1 hx1).2 (by omega) (by omega)
    have hprevA : prev = A := by
      rw [hy1, show E.cy + 1 - 1 = E.cy by omega, hA1] at hprev
      exact (Option.some.inj hprev).symm
    have hcurB : cur2 = B := by
      rw [hy1, hB1] at hcur2
      exact (Option.some.inj hcur2).symm
    have hcy1 : E1.cy.toNat - 1 = E.cy.toNat := by omega
    have hcy2 : E1.cy.toNat + 1 = E.cy.toNat + 2 := by omega
    have hsplit : E.row = E.row.take E.cy.toNat ++ row :: E.row.drop (E.cy.toNat + 1) := by
      rw [← drop_eq_cons_of_getElem? E.row E.cy.toNat row hrow, List.take_append_drop]
    refine ⟨E1, E2, hnl, hdel, ?_, ?_, ?_, ?_⟩
    · rw [hrows2, hcy1, hcy2, htake, hdrop]
      conv_rhs => rw [hsplit]
      simp only [List.map_append, List.map_cons, List.map_nil, hmerged, List.append_assoc,
        List.singleton_append]
      rw [hprevA, hcurB, hA, hB, List.take_append_drop]
    · omega
    · rw [hx2, hprevA]
      simp only [editorRow.size, hA, List.length_take_of_le hcxn]
      omega
    · omega

theorem backspace_undoes_insertion_witness :
    (∃ E1 E2, editorInsertChar { sampleDoc with cx := 1, cy := 1 } 120 = some E1 ∧
      E1.cx = 2 ∧ editorDeleteChar E1 = some E2 ∧
      E2.row.map editorRow.chars = sampleDoc.row.map editorRow.chars ∧ E2.cx = 1 ∧ E2.cy = 1 ∧
      E2.dirty = 2) ∧
    (∃ E1 E2, editorInsertNewline { sampleDoc with cx := 1, cy := 1 } = some E1 ∧
      editorDeleteChar E1 = some E2 ∧
      E2.row.map editorRow.chars = sampleDoc.row.map editorRow.chars ∧ E2.cx = 1 ∧ E2.cy = 1) :=
  ⟨(backspace_undoes_insertion { sampleDoc with cx := 1, cy := 1 } 120 _ rfl (by decide)
      (by decide)).1.elim fun E1 h1 => h1.elim fun E2 h2 => h2.elim fun _ h =>
        ⟨E1, E2, h.1, h.2.2.2.2.1, h.2.2.2.2.2.2.1, h.2.2.2.2.2.2.2.1, h.2.2.2.2.2.2.2.2.2.1,
          h.2.2.2.2.2.2.2.2.2.2.1,
          h.2.2.2.2.2.2.2.2.2.2.2.2 (by decide) (by decide)⟩,
    (backspace_undoes_insertion { sampleDoc with cx := 1, cy := 1 } 120 _ rfl (by decide)
      (by decide)).2.elim fun E1 h1 => h1.elim fun E2 h =>
        ⟨E1, E2, h.1, h.2.1, h.2.2.1, h.2.2.2.2.1, h.2.2.2.2.2⟩⟩

/-! ## String highlighting (C21) -/

/-- Inside a string the loop marks every byte up to the closing quote, that
byte included, and goes on outside a string with `prev_sep` set. -/
theorem editorUpdateSyntaxLoop_in_string (flags : Nat)
    (hstr : flags &&& HL_HIGHLIGHT_STRINGS ≠ 0) (d : Nat) (hd : d ≠ 0) :
    ∀ (cs : List Nat) (ps : Bool) (ph : Nat),
      editorUpdateSyntaxLoop flags cs ps d ph
        = List.replicate (cs.takeWhile (fun b => b ≠ d)).length HL_STRING ++
          match cs.dropWhile (fun b => b ≠ d) with
          | [] => []
          | _ :: after => HL_STRING :: editorUpdateSyntaxLoop flags after true 0 HL_STRING := by
  intro cs
  induction cs with
  | nil => intro ps ph; rfl
  | cons c cs ih =>
    intro ps ph
    rw [editorUpdateSyntaxLoop, if_pos ⟨hstr, hd⟩]
    by_cases hc : c = d
    · subst hc
      simp
    · rw [if_neg hc, ih true HL_STRING]
      simp [hc, List.replicate_succ]

/-- One iteration of the loop: it fixes the class of the byte and goes on with
a state in which `prev_sep` is set whenever the byte got the string class and
no string is open. -/
theorem editorUpdateSyntaxLoop_step (flags : Nat) (c : Nat) (rest : List Nat) (ps : Bool)
    (ins ph : Nat) :
    ∃ (h0 : Nat) (ps1 : Bool) (ins1 : Nat),
      editorUpdateSyntaxLoop flags (c :: rest) ps ins ph
        = h0 :: editorUpdateSyntaxLoop flags rest ps1 ins1 h0 ∧
      (h0 = HL_STRING → ins1 = 0 → ps1 = true) := by
  rw [editorUpdateSyntaxLoop]
  by_cases h1 : flags &&& HL_HIGHLIGHT_STRINGS ≠ 0 ∧ ins ≠ 0
  · rw [if_pos h1]
    exact ⟨_, _, _, rfl, fun _ _ => rfl⟩
  rw [if_neg h1]
  by_cases h2 : flags &&& HL_HIGHLIGHT_STRINGS ≠ 0 ∧ (c = 34 ∨ c = 39)
  · rw [if_pos h2]
    refine ⟨_, _, _, rfl, fun _ h => ?_⟩
    rcases h2.2 with hc | hc <;> rw [hc] at h <;> simp at h
  rw [if_neg h2]
  by_cases h3 : flags &&& HL_HIGHLIGHT_NUMBERS ≠ 0 ∧
      ((isdigit c = true ∧ (ps = true ∨ ph = HL_NUMBER)) ∨ (c = 46 ∧ ph = HL_NUMBER))
  · rw [if_pos h3]
    exact ⟨_, _, _, rfl, fun h _ => by simp [HL_NUMBER, HL_STRING] at h⟩
  · rw [if_neg h3]
    exact ⟨_, _, _, rfl, fun h _ => by simp [HL_NORMAL, HL_STRING] at h⟩

theorem isdigit_range {c : Nat} (h : isdigit c = true) : 48 ≤ c ∧ c ≤ 57 := by
  simpa [isdigit] using h

/-- A digit right after a byte of string class that does not get the string
class itself gets the number class: the case of the first byte of the loop. -/
theorem editorUpdateSyntaxLoop_digit_head (flags : Nat)
    (hstr : flags &&& HL_HIGHLIGHT_STRINGS ≠ 0)
    (hnum : flags &&& HL_HIGHLIGHT_NUMBERS ≠ 0) (c : Nat) (rest : List Nat) (ps : Bool)
    (ins : Nat) (hinv : ins = 0 → ps = true) (hdig : isdigit c = true)
    (hns : (editorUpdateSyntaxLoop flags (c :: rest) ps ins HL_STRING).getD 0 0 ≠ HL_STRING) :
    (editorUpdateSyntaxLoop flags (c :: rest) ps ins HL_STRING).getD 0 0 = HL_NUMBER := by
  have hr := isdigit_range hdig
  rw [editorUpdateSyntaxLoop] at hns ⊢
  by_cases h1 : flags &&& HL_HIGHLIGHT_STRINGS ≠ 0 ∧ ins ≠ 0
  · rw [if_pos h1] at hns
    exact absurd rfl hns
  rw [if_neg h1]
  by_cases h2 : flags &&& HL_HIGHLIGHT_STRINGS ≠ 0 ∧ (c = 34 ∨ c = 39)
  · exact absurd h2.2 (by omega)
  rw [if_neg h2]
  have hins : ins = 0 := by
    by_contra hne
    exact h1 ⟨hstr, hne⟩
  rw [if_pos ⟨hnum, Or.inl ⟨hdig, Or.inl (hinv hins)⟩⟩]
  rfl

/-- The same for every byte of the row but the first. -/
theorem editorUpdateSyntaxLoop_digit_after_string (flags : Nat)
    (hstr : flags &&& HL_HIGHLIGHT_STRINGS ≠ 0) (hnum : flags &&& HL_HIGHLIGHT_NUMBERS ≠ 0) :
    ∀ (render : List Nat) (ps : Bool) (ins ph : Nat) (k : Nat), k + 1 < render.length →
      (editorUpdateSyntaxLoop flags render ps ins ph).getD k 0 = HL_STRING →
      (editorUpdateSyntaxLoop flags render ps ins ph).getD (k + 1) 0 ≠ HL_STRING →
      isdigit (render.getD (k + 1) 0) = true →
      (editorUpdateSyntaxLoop flags render ps ins ph).getD (k + 1) 0 = HL_NUMBER := by
  intro render
  induction render with
  | nil => intro ps ins ph k hk; simp at hk
  | cons c rest ih =>
    intro ps ins ph k hk
    obtain ⟨h0, ps1, ins1, hstep, hinv⟩ := editorUpdateSyntaxLoop_step flags c rest ps ins ph
    rw [hstep]
    cases k with
    | zero =>
      intro hs hns hdig
      simp only [List.getD_cons_zero] at hs
      simp only [List.getD_cons_succ] at hns hdig ⊢
      subst hs
      cases rest with
      | nil => simp at hk
      | cons c1 rest1 =>
        simp only [List.getD_cons_zero] at hdig
        exact editorUpdateSyntaxLoop_digit_head flags hstr hnum c1 rest1 ps1 ins1 (hinv rfl) hdig
          hns
    | succ k1 =>
      intro hs hns hdig
      simp only [List.getD_cons_succ] at hs hns hdig ⊢
      exact ih ps1 ins1 h0 k1 (by simpa using hk) hs hns hdig

theorem dropWhile_length_lt {α : Type} (p : α → Bool) (cs : List α) (x : α) (after : List α)
    (h : cs.dropWhile p = x :: after) : after.length < cs.length := by
  have h1 := (List.dropWhile_sublist p (l := cs)).length_le
  rw [h] at h1
  simp only [List.length_cons] at h1
  omega

/-- The bytes of string class are those of the string spans. -/
theorem editorUpdateSyntaxLoop_mask (flags : Nat) (hstr : flags &&& HL_HIGHLIGHT_STRINGS ≠ 0) :
    ∀ (fuel : Nat) (render : List Nat) (ps : Bool) (ph : Nat), render.length ≤ fuel →
      (editorUpdateSyntaxLoop flags render ps 0 ph).map (fun h => decide (h = HL_STRING))
        = stringMaskFuel fuel render := by
  intro fuel
  induction fuel with
  | zero =>
    intro render ps ph hlen
    have : render = [] := List.eq_nil_of_length_eq_zero (by omega)
    subst this
    rfl
  | succ fuel ih =>
    intro render ps ph hlen
    cases render with
    | nil => rfl
    | cons c cs =>
      have hcs : cs.length ≤ fuel := by simpa using hlen
      have n1 : ¬ (flags &&& HL_HIGHLIGHT_STRINGS ≠ 0 ∧ (0 : Nat) ≠ 0) := fun h => h.2 rfl
      rw [editorUpdateSyntaxLoop, if_neg n1, stringMaskFuel]
      by_cases hq : c = 34 ∨ c = 39
      · have hc0 : c ≠ 0 := by omega
        rw [if_pos ⟨hstr, hq⟩, if_pos hq, editorUpdateSyntaxLoop_in_string flags hstr c hc0]
        simp only [List.map_cons, List.map_append, List.map_replicate, decide_True]
        congr 2
        cases hdw : cs.dropWhile (fun b => decide (b ≠ c)) with
        | nil => rfl
        | cons x after =>
          have hlt := dropWhile_length_lt _ cs x after hdw
          simp only [List.map_cons, decide_True]
          rw [ih after true HL_STRING (by omega)]
      · rw [if_neg (fun h => hq h.2), if_neg hq]
        split_ifs
        · simp only [List.map_cons]
          rw [ih cs _ _ hcs]
          simp [HL_NUMBER, HL_STRING]
        · simp only [List.map_cons]
          rw [ih cs _ _ hcs]
          simp [HL_NORMAL, HL_STRING]

theorem stringMaskFuel_no_quote : ∀ (fuel : Nat) (render : List Nat), 34 ∉ render → 39 ∉ render →
    ∀ b ∈ stringMaskFuel fuel render, b = false := by
  intro fuel
  induction fuel with
  | zero => intro render _ _ b hb; simp [stringMaskFuel] at hb
  | succ fuel ih =>
    intro render h34 h39 b hb
    cases render with
    | nil => simp [stringMaskFuel] at hb
    | cons c cs =>
      have hq : ¬ (c = 34 ∨ c = 39) := by
        rintro (h | h)
        · exact h34 (by simp [h])
        · exact h39 (by simp [h])
      rw [stringMaskFuel, if_neg hq] at hb
      rcases List.mem_cons.mp hb with h | h
      · exact h
      · exact ih cs (fun h1 => h34 (List.mem_cons_of_mem _ h1))
          (fun h1 => h39 (List.mem_cons_of_mem _ h1)) b h

/-- C21. With string highlighting enabled in the selected profile, the bytes
`editorUpdateSyntax` gives the string class are those of the string spans of
the row: a quote byte met outside a span opens a span that runs through the
next occurrence of the same quote byte, inclusive, or through the end of the
row.  A row without a quote byte has no byte of string class.  With number
highlighting enabled as well, a digit that follows a byte of string class and
is outside the spans itself (it follows a closing quote) gets the number
class. -/
theorem string_class_is_string_spans (s : editorSyntax) (row : editorRow)
    (hstr : s.flags &&& HL_HIGHLIGHT_STRINGS ≠ 0) :
    (editorUpdateSyntax (some s) row).hl.map (fun h => decide (h = HL_STRING))
      = stringMask row.render ∧
    (34 ∉ row.render → 39 ∉ row.render →
      ∀ h ∈ (editorUpdateSyntax (some s) row).hl, h ≠ HL_STRING) ∧
    (s.flags &&& HL_HIGHLIGHT_NUMBERS ≠ 0 → ∀ k, k + 1 < row.render.length →
      (editorUpdateSyntax (some s) row).hl.getD k 0 = HL_STRING →
      (editorUpdateSyntax (some s) row).hl.getD (k + 1) 0 ≠ HL_STRING →
      isdigit (row.render.getD (k + 1) 0) = true →
      (editorUpdateSyntax (some s) row).hl.getD (k + 1) 0 = HL_NUMBER) := by
  have hhl : (editorUpdateSyntax (some s) row).hl
      = editorUpdateSyntaxLoop s.flags row.render true 0 HL_NORMAL := rfl
  have hmask := editorUpdateSyntaxLoop_mask s.flags hstr row.render.length row.render true
    HL_NORMAL (Nat.le_refl _)
  rw [hhl]
  refine ⟨hmask, fun h34 h39 h hmem heq => ?_, fun hnum k hk =>
    editorUpdateSyntaxLoop_digit_after_string s.flags hstr hnum row.render true 0 HL_NORMAL k hk⟩
  have hin : decide (h = HL_STRING) ∈ stringMaskFuel row.render.length row.render := by
    rw [← hmask]
    exact List.mem_map_of_mem _ hmem
  have := stringMaskFuel_no_quote _ _ h34 h39 _ hin
  simp [heq] at this

theorem string_class_witness :
    (editorUpdateSyntax (some bothFlags)
        { chars := [], render := quotedRender, hl := [] }).hl.map (fun h => decide (h = HL_STRING))
      = [false, false, false, false, true, true, true, true, true, false, false, true, true] ∧
    (editorUpdateSyntax (some bothFlags)
        { chars := [], render := quotedRender, hl := [] }).hl.getD 9 0 = HL_NUMBER :=
  ⟨(string_class_is_string_spans bothFlags { chars := [], render := quotedRender, hl := [] }
      (by decide)).1.trans (by decide),
    (string_class_is_string_spans bothFlags { chars := [], render := quotedRender, hl := [] }
      (by decide)).2.2 (by decide) 8 (by decide) (by decide) (by decide) (by decide)⟩

/-! ## A cancelled search (C24) -/

theorem editorPromptLoop_goesOn (prompt : List Nat)
    (callback : editorConf → List Nat → Int → Option editorConf) (c : Int) (rest : List Int)
    (E : editorConf) (buf : List Nat) (h27 : c ≠ 27) (h13 : c = 13 → buf = []) :
    editorPromptLoop prompt (some callback) (c :: rest) E buf
      = match editorRefreshScreen (editorSetStatusMessage E (prompt ++ buf)) with
        | none => .undefined
        | some E1 =>
          match callback { E1 with input := rest } (promptBuf buf c) c with
          | none => .undefined
          | some E3 => editorPromptLoop prompt (some callback) rest E3 (promptBuf buf c) := by
  rw [editorPromptLoop]
  cases editorRefreshScreen (editorSetStatusMessage E (prompt ++ buf)) with
  | none => rfl
  | some E1 =>
    show (if c = DEL_KEY ∨ c = CTRL_KEY 104 ∨ c = BACKSPACE then _ else _) = _
    by_cases hb : c = DEL_KEY ∨ c = CTRL_KEY 104 ∨ c = BACKSPACE
    · rw [if_pos hb]
      simp only [promptBuf, if_pos hb]
    · rw [if_neg hb, if_neg h27]
      by_cases hc : c = 13
      · rw [if_pos hc, if_neg (not_not.mpr (h13 hc))]
        simp only [promptBuf, if_neg hb, if_pos (Or.inr hc)]
      · rw [if_neg hc]
        have h2 : ¬ (c = 27 ∨ c = 13) := fun h => h.elim h27 hc
        by_cases hp : iscntrl c = false ∧ c < 128
        · rw [if_pos hp]
          simp only [promptBuf, if_neg hb, if_neg h2, if_pos hp]
        · rw [if_neg hp]
          simp only [promptBuf, if_neg hb, if_neg h2, if_neg hp]

theorem editorPromptLoop_escape (prompt : List Nat)
    (callback : editorConf → List Nat → Int → Option editorConf) (rest : List Int)
    (E : editorConf) (buf : List Nat) :
    editorPromptLoop prompt (some callback) (27 :: rest) E buf
      = match editorRefreshScreen (editorSetStatusMessage E (prompt ++ buf)) with
        | none => .undefined
        | some E1 =>
          match callback (editorSetStatusMessage { E1 with input := rest } []) buf 27 with
          | none => .undefined
          | some E3 => .ret (none, E3) := by
  rw [editorPromptLoop]
  cases editorRefreshScreen (editorSetStatusMessage E (prompt ++ buf)) with
  | none => rfl
  | some E1 =>
    show (if (27 : Int) = DEL_KEY ∨ (27 : Int) = CTRL_KEY 104 ∨ (27 : Int) = BACKSPACE
      then _ else _) = _
    rw [if_neg (by decide), if_pos rfl]

theorem editorPromptLoop_nil (prompt : List Nat)
    (callback : Option (editorConf → List Nat → Int → Option editorConf))
    (E : editorConf) (buf : List Nat) :
    editorPromptLoop prompt callback [] E buf
      = match editorRefreshScreen (editorSetStatusMessage E (prompt ++ buf)) with
        | none => .undefined
        | some E1 => .block E1 := by
  rw [editorPromptLoop]

/-- On a valid cursor `editorScroll` returns, and it changes `rx`, `row_off`
and `col_off` only. -/
theorem editorScroll_shape (E : editorConf) (hv : cursorValid E) :
    ∃ a b c, editorScroll E = some { E with rx := a, row_off := b, col_off := c } := by
  obtain ⟨h0, h1, h2, h3⟩ := hv
  have hstep : ∀ rx0 : Int, ∃ a b c,
      some (scrollRight (scrollLeft (scrollDown (scrollUp (scrollInit E rx0)))))
        = some { E with rx := a, row_off := b, col_off := c } := by
    intro rx0
    unfold scrollRight scrollLeft scrollDown scrollUp scrollInit
    split_ifs <;> exact ⟨_, _, _, rfl⟩
  unfold editorScroll
  by_cases hlt : E.cy < E.num_rows
  · obtain ⟨row, hrow, _⟩ := rowAt_some_of_lt E.row E.cy h0 hlt
    rw [hrow] at h3
    simp only [editorRow.size] at h3
    obtain ⟨r, hr⟩ := editorRowCxToRxLoop_some row.chars E.cx.toNat 0 (by omega)
    have hr1 : editorRowCxToRx row E.cx = some r := hr
    simp only [if_pos hlt, hrow, hr1]
    exact hstep r
  · simp only [if_neg hlt]
    exact hstep 0

theorem findDirection_shape (E : editorConf) (key : Int) :
    ∃ a b, findDirection E key = { E with last_match := a, direction := b } ∧
      ((a = -1 ∧ b = 1) ∨ (a = E.last_match ∧ a ≠ -1 ∧ (b = 1 ∨ b = -1))) := by
  unfold findDirection
  by_cases h1 : key = ARROW_RIGHT ∨ key = ARROW_DOWN
  · simp only [if_pos h1]
    by_cases h : E.last_match = -1
    · rw [if_pos h]
      exact ⟨-1, 1, by rw [← h], Or.inl ⟨rfl, rfl⟩⟩
    · rw [if_neg h]
      exact ⟨E.last_match, 1, rfl, Or.inr ⟨rfl, h, Or.inl rfl⟩⟩
  · simp only [if_neg h1]
    by_cases h2 : key = ARROW_LEFT ∨ key = ARROW_UP
    · simp only [if_pos h2]
      by_cases h : E.last_match = -1
      · rw [if_pos h]
        exact ⟨-1, 1, by rw [← h], Or.inl ⟨rfl, rfl⟩⟩
      · rw [if_neg h]
        exact ⟨E.last_match, -1, rfl, Or.inr ⟨rfl, h, Or.inr rfl⟩⟩
    · simp only [if_neg h2]
      exact ⟨-1, 1, rfl, Or.inl ⟨rfl, rfl⟩⟩

theorem overlay_length {α : Type} (hl : List α) (off len : Nat) (x : α) (h : off + len ≤ hl.length) :
    (hl.take off ++ List.replicate len x ++ hl.drop (off + len)).length = hl.length := by
  simp only [List.length_append, List.length_take, List.length_replicate, List.length_drop]
  omega

/-- The first step of `editorFindCallback` in a search session gives back the
rows the session started on. -/
theorem findRestore_overlay {rows0 : List editorRow} {E : editorConf}
    (hhl : ∀ row ∈ rows0, row.hl.length = row.render.length) (ho : overlayOf rows0 E) :
    findRestore E = some { E with row := rows0, saved_hl_search := none } := by
  unfold overlayOf at ho
  unfold findRestore
  cases hs : E.saved_hl_search with
  | none =>
    rw [hs] at ho
    have hrow : E.row = rows0 := ho
    show some E = _
    congr 1
    cases E
    simp only at hs hrow
    simp only [editorConf.mk.injEq, hs, hrow, and_self]
  | some saved =>
    rw [hs] at ho
    obtain ⟨k, row, off, len, hk, hline, hsaved, hle, hrow⟩ := ho
    have hklt : k < rows0.length := (List.getElem?_eq_some_iff.mp hk).1
    have hlen : row.hl.length = row.render.length := hhl row (List.mem_iff_getElem?.mpr ⟨k, hk⟩)
    have hat : rowAt E.row E.saved_hl_line = some { row with
        hl := row.hl.take off ++ List.replicate len HL_MATCH ++ row.hl.drop (off + len) } := by
      rw [hline, rowAt_natCast, hrow, List.getElem?_set_self hklt]
    have hol := overlay_length row.hl off len HL_MATCH (by omega)
    simp only [hat]
    rw [if_pos ⟨by rw [hsaved]; exact Nat.le_of_eq hlen.symm, by
      show row.render.length ≤ _
      rw [hol]; exact Nat.le_of_eq hlen.symm⟩]
    have hnew : editorRow.mk row.chars row.render (saved.take row.render.length
          ++ (row.hl.take off ++ List.replicate len HL_MATCH
            ++ row.hl.drop (off + len)).drop row.render.length) = row := by
      rw [hsaved, ← hlen, List.take_length, List.drop_eq_nil_of_le (Nat.le_of_eq hol),
        List.append_nil]
    have hrows : E.row.set E.saved_hl_line.toNat
        (editorRow.mk row.chars row.render (saved.take row.render.length
          ++ (row.hl.take off ++ List.replicate len HL_MATCH
            ++ row.hl.drop (off + len)).drop row.render.length)) = rows0 := by
      rw [hnew, hline, Int.toNat_ofNat, hrow, List.set_set]
      exact set_same_of_getElem? rows0 k row hk
    exact congrArg (fun r => some { E with row := r, saved_hl_search := none }) hrows

theorem overlay_rowAt_size {rows0 : List editorRow} {E : editorConf} (ho : overlayOf rows0 E) :
    E.row.length = rows0.length ∧
    ∀ i : Int, (rowAt E.row i).map editorRow.size = (rowAt rows0 i).map editorRow.size := by
  unfold overlayOf at ho
  cases hs : E.saved_hl_search with
  | none =>
    rw [hs] at ho
    have hrow : E.row = rows0 := ho
    rw [hrow]
    exact ⟨rfl, fun _ => rfl⟩
  | some saved =>
    rw [hs] at ho
    obtain ⟨k, row, off, len, hk, hline, hsaved, hle, hrow⟩ := ho
    have hklt : k < rows0.length := (List.getElem?_eq_some_iff.mp hk).1
    rw [hrow]
    refine ⟨List.length_set _ _ _, fun i => ?_⟩
    unfold rowAt
    by_cases h0 : 0 ≤ i
    · rw [if_pos h0, if_pos h0]
      by_cases hik : i.toNat = k
      · rw [hik, List.getElem?_set_self hklt, hk]
        rfl
      · rw [List.getElem?_set_ne (fun h => hik h.symm)]
    · rw [if_neg h0, if_neg h0]

theorem cursorValid_of_sizes {E1 E2 : editorConf} (hcx : E2.cx = E1.cx) (hcy : E2.cy = E1.cy)
    (hlen : E2.row.length = E1.row.length)
    (hsz : ∀ i : Int, (rowAt E2.row i).map editorRow.size = (rowAt E1.row i).map editorRow.size)
    (hv : cursorValid E1) : cursorValid E2 := by
  obtain ⟨h0, h1, h2, h3⟩ := hv
  have hn : E2.num_rows = E1.num_rows := by
    show (E2.row.length : Int) = (E1.row.length : Int)
    rw [hlen]
  refine ⟨by rw [hcy]; exact h0, by rw [hcy, hn]; exact h1, by rw [hcx]; exact h2, ?_⟩
  rw [hcx, hcy]
  have := hsz E1.cy
  cases ha : rowAt E1.row E1.cy with
  | none =>
    rw [ha] at this h3
    cases hb : rowAt E2.row E1.cy with
    | none => exact h3
    | some r => rw [hb] at this; simp at this
  | some r1 =>
    rw [ha] at this h3
    cases hb : rowAt E2.row E1.cy with
    | none => rw [hb] at this; simp at this
    | some r2 =>
      rw [hb] at this
      simp only [Option.map_some', Option.some.injEq] at this
      show E1.cx ≤ r2.size
      rw [this]
      exact h3

theorem editorRowRxToCxLoop_bounds : ∀ (cs : List Nat) (cx cur rx : Int),
    cx ≤ editorRowRxToCxLoop cs cx cur rx ∧
      editorRowRxToCxLoop cs cx cur rx ≤ cx + (cs.length : Int) := by
  intro cs
  induction cs with
  | nil =>
    intro cx cur rx
    simp [editorRowRxToCxLoop]
  | cons c cs ih =>
    intro cx cur rx
    rw [editorRowRxToCxLoop]
    have hl : ((c :: cs).length : Int) = (cs.length : Int) + 1 := by simp
    split_ifs
    · omega
    · have := ih (cx + 1) (rxStep c cur) rx
      omega

/-- The loop of `editorFindCallback` on rows whose highlight arrays have the
length of the rendered text, started inside the document: it returns, either
with the state unchanged or on a hit. -/
theorem editorFindLoop_session (query : List Nat) (D : editorConf)
    (hhl : ∀ row ∈ D.row, row.hl.length = row.render.length)
    (hdir : D.direction = 1 ∨ D.direction = -1) :
    ∀ (m : Nat) (current : Int), (m = 0 ∨ 0 < D.num_rows) →
      ((current = -1 ∧ D.direction = 1) ∨ (0 ≤ current ∧ current < D.num_rows)) →
      editorFindLoop query m current D = some D ∨
      ∃ (c : Int) (row : editorRow) (off : Nat), rowAt D.row c = some row ∧
        off + (cstr query).length ≤ row.render.length ∧
        editorFindLoop query m current D = some (findHit D query c row off) := by
  intro m
  induction m with
  | zero => intro current _ _; exact Or.inl rfl
  | succ m ih =>
    intro current hm hcur
    have hpos : 0 < D.num_rows := by
      rcases hm with h | h
      · omega
      · exact h
    have hnext : 0 ≤ findNext D current ∧ findNext D current < D.num_rows := by
      unfold findNext
      split_ifs <;> omega
    obtain ⟨row, hrow, hk⟩ := rowAt_some_of_lt D.row (findNext D current) hnext.1 hnext.2
    have hlen : row.hl.length = row.render.length :=
      hhl row (List.mem_iff_getElem?.mpr ⟨_, hk⟩)
    cases hst : strstr row.render query with
    | none =>
      have e : editorFindLoop query (m + 1) current D
          = editorFindLoop query m (findNext D current) D := by
        rw [editorFindLoop_succ, hrow]
        dsimp only
        rw [hst]
      rw [e]
      exact ih (findNext D current) (Or.inr hpos) (Or.inr hnext)
    | some off =>
      have hb := strstr_bound hst
      have e : editorFindLoop query (m + 1) current D
          = some (findHit D query (findNext D current) row off) := by
        rw [editorFindLoop_succ, hrow]
        dsimp only
        rw [hst]
        dsimp only
        rw [if_pos ⟨by rw [hlen]; exact hb, Nat.le_of_eq hlen.symm⟩]
      exact Or.inr ⟨findNext D current, row, off, hrow, hb, e⟩

/-- The state after a hit belongs to the session. -/
theorem sessionInv_findHit {rows0 : List editorRow} {D : editorConf} (query : List Nat) (c : Int)
    (row : editorRow) (off : Nat) (hhl : ∀ row ∈ rows0, row.hl.length = row.render.length)
    (hD : D.row = rows0) (hrow : rowAt D.row c = some row)
    (hb : off + (cstr query).length ≤ row.render.length) :
    sessionInv rows0 (findHit D query c row off) := by
  obtain ⟨h0, hlt⟩ := rowAt_lt hrow
  have hk : rows0[c.toNat]? = some row := by
    unfold rowAt at hrow
    rw [if_pos h0, hD] at hrow
    exact hrow
  have hklt : c.toNat < rows0.length := (List.getElem?_eq_some_iff.mp hk).1
  have hlen : row.hl.length = row.render.length := hhl row (List.mem_iff_getElem?.mpr ⟨_, hk⟩)
  refine ⟨?_, ?_, Or.inr ⟨h0, by rw [← hD]; exact hlt⟩⟩
  · show ∃ (k : Nat) (row1 : editorRow) (off1 len : Nat), rows0[k]? = some row1 ∧
      c = k ∧ row.hl.take row.render.length = row1.hl ∧ off1 + len ≤ row1.render.length ∧
      D.row.set c.toNat _ = rows0.set k _
    refine ⟨c.toNat, row, off, (cstr query).length, hk, (Int.toNat_of_nonneg h0).symm, ?_, hb, ?_⟩
    · rw [← hlen, List.take_length]
    · rw [hD]
  · have hat : rowAt (findHit D query c row off).row c
        = some { row with hl := row.hl.take off ++ List.replicate (cstr query).length HL_MATCH
            ++ row.hl.drop (off + (cstr query).length) } := by
      show rowAt (D.row.set c.toNat _) c = _
      unfold rowAt
      rw [if_pos h0, hD, List.getElem?_set_self hklt]
    have hn : (findHit D query c row off).num_rows = D.num_rows := by
      show ((D.row.set c.toNat _).length : Int) = (D.row.length : Int)
      rw [List.length_set]
    have hbd := editorRowRxToCxLoop_bounds row.chars 0 0 off
    refine ⟨h0, ?_, ?_, ?_⟩
    · show c ≤ (findHit D query c row off).num_rows
      rw [hn]
      exact Int.le_of_lt hlt
    · show 0 ≤ editorRowRxToCxLoop row.chars 0 0 off
      exact hbd.1
    · show editorRowRxToCx row off ≤ match rowAt (findHit D query c row off).row c with
        | some row => row.size
        | none => 0
      rw [hat]
      show editorRowRxToCxLoop row.chars 0 0 off ≤ (row.chars.length : Int)
      have := hbd.2
      omega

/-- One call of `editorFindCallback` in a search session: it returns, the
session goes on, and after Escape or Enter the rows are those the session
started on and no copy is saved. -/
theorem editorFindCallback_session {rows0 : List editorRow} {E : editorConf}
    (hhl : ∀ row ∈ rows0, row.hl.length = row.render.length) (hinv : sessionInv rows0 E)
    (query : List Nat) (key : Int) :
    ∃ E1, editorFindCallback E query key = some E1 ∧ sessionInv rows0 E1 ∧
      E1.input = E.input ∧
      (key = 13 ∨ key = 27 →
        E1.row = rows0 ∧ E1.saved_hl_search = none ∧ E1.last_match = -1) := by
  obtain ⟨hov, hcv, hlm⟩ := hinv
  have hsz := overlay_rowAt_size hov
  have hcvR : ∀ a b, cursorValid
      { E with row := rows0, saved_hl_search := none, last_match := a, direction := b } :=
    fun _ _ => @cursorValid_of_sizes E _ rfl rfl hsz.1.symm (fun i => (hsz.2 i).symm) hcv
  by_cases hkey : key = 13 ∨ key = 27
  · have hcb : editorFindCallback E query key = some
        { E with row := rows0, saved_hl_search := none, last_match := -1, direction := 1 } := by
      rw [editorFindCallback_eq, findRestore_overlay hhl hov]
      exact if_pos hkey
    exact ⟨_, hcb, ⟨rfl, hcvR _ _, Or.inl rfl⟩, rfl, fun _ => ⟨rfl, rfl, rfl⟩⟩
  · obtain ⟨a, b, hD, hab⟩ :=
      findDirection_shape { E with row := rows0, saved_hl_search := none } key
    have hlmE : E.last_match = -1 ∨ (0 ≤ E.last_match ∧ E.last_match < (rows0.length : Int)) := hlm
    have hloop := editorFindLoop_session query
      { E with row := rows0, saved_hl_search := none, last_match := a, direction := b } hhl
      (by
        show b = 1 ∨ b = -1
        rcases hab with h | h
        · exact Or.inl h.2
        · exact h.2.2)
      rows0.length a
      (by
        show rows0.length = 0 ∨ 0 < (rows0.length : Int)
        omega)
      (by
        show (a = -1 ∧ b = 1) ∨ (0 ≤ a ∧ a < (rows0.length : Int))
        rcases hab with h | ⟨h1, h2, _⟩
        · exact Or.inl h
        · have h3 : a = E.last_match := h1
          rcases hlmE with h4 | h4
          · exact absurd (h3.trans h4) h2
          · exact Or.inr (by rw [h3]; exact h4))
    have hcb : editorFindCallback E query key = editorFindLoop query rows0.length a
        { E with row := rows0, saved_hl_search := none, last_match := a, direction := b } := by
      rw [editorFindCallback_eq, findRestore_overlay hhl hov]
      show (if key = 13 ∨ key = 27 then _ else _) = _
      rw [if_neg hkey, hD]
      rfl
    rw [hcb]
    rcases hloop with h | ⟨c, row, off, hrow, hb, h⟩
    · refine ⟨_, h, ⟨rfl, hcvR _ _, ?_⟩, rfl, fun h2 => absurd h2 hkey⟩
      show a = -1 ∨ (0 ≤ a ∧ a < (rows0.length : Int))
      rcases hab with h1 | ⟨h1, h2, _⟩
      · exact Or.inl h1.1
      · have h3 : a = E.last_match := h1
        rw [h3]
        exact hlmE
    · exact ⟨_, h, sessionInv_findHit query c row off hhl rfl hrow hb, rfl,
        fun h2 => absurd h2 hkey⟩

/-- A search session on the rows `rows0`: keys that do not end the prompt
leave it waiting in a session state, and Escape after them makes it return
`NULL` with the rows `rows0` and no copy saved. -/
theorem editorPromptLoop_session (rows0 : List editorRow)
    (hhl : ∀ row ∈ rows0, row.hl.length = row.render.length) (rest : List Int) :
    ∀ (ks : List Int) (buf : List Nat) (E : editorConf), sessionInv rows0 E →
      promptGoesOn buf ks = true →
      (∃ E1, editorPromptLoop (bytes "Search: ") (some editorFindCallback) (ks ++ 27 :: rest) E buf
          = .ret (none, E1) ∧
        E1.row = rows0 ∧ E1.saved_hl_search = none ∧ E1.last_match = -1 ∧ E1.input = rest) ∧
      (∃ E2, editorPromptLoop (bytes "Search: ") (some editorFindCallback) ks E buf = .block E2 ∧
        sessionInv rows0 E2) := by
  have hrefresh : ∀ (E : editorConf) (msg : List Nat), sessionInv rows0 E →
      ∃ E1, editorRefreshScreen (editorSetStatusMessage E msg) = some E1 ∧
        sessionInv rows0 E1 := by
    intro E msg hinv
    have hinv1 : sessionInv rows0 (editorSetStatusMessage E msg) := hinv
    obtain ⟨a, b, c, h⟩ := editorScroll_shape _ hinv1.2.1
    exact ⟨_, h, hinv1⟩
  intro ks
  induction ks with
  | nil =>
    intro buf E hinv _
    obtain ⟨E1, hE1, hinv1⟩ := hrefresh E (bytes "Search: " ++ buf) hinv
    constructor
    · have hinv2 : sessionInv rows0 (editorSetStatusMessage { E1 with input := rest } []) := hinv1
      obtain ⟨E3, hE3, _, hin, hend⟩ := editorFindCallback_session hhl hinv2 buf 27
      obtain ⟨h1, h2, h3⟩ := hend (Or.inr rfl)
      refine ⟨E3, ?_, h1, h2, h3, hin⟩
      rw [List.nil_append, editorPromptLoop_escape, hE1]
      dsimp only
      rw [hE3]
    · refine ⟨E1, ?_, hinv1⟩
      rw [editorPromptLoop_nil, hE1]
  | cons c ks ih =>
    intro buf E hinv hgo
    rw [promptGoesOn, Bool.and_eq_true, Bool.and_eq_true, decide_eq_true_eq,
      decide_eq_true_eq] at hgo
    obtain ⟨⟨h27, h13⟩, hrest⟩ := hgo
    obtain ⟨E1, hE1, hinv1⟩ := hrefresh E (bytes "Search: " ++ buf) hinv
    have hstep : ∀ tail : List Int, ∃ E3, sessionInv rows0 E3 ∧
        editorPromptLoop (bytes "Search: ") (some editorFindCallback) (c :: tail) E buf
          = editorPromptLoop (bytes "Search: ") (some editorFindCallback) tail E3
              (promptBuf buf c) := by
      intro tail
      have hinv2 : sessionInv rows0 { E1 with input := tail } := hinv1
      obtain ⟨E3, hE3, hinv3, _, _⟩ := editorFindCallback_session hhl hinv2 (promptBuf buf c) c
      refine ⟨E3, hinv3, ?_⟩
      rw [editorPromptLoop_goesOn _ _ _ _ _ _ h27 h13, hE1]
      dsimp only
      rw [hE3]
    constructor
    · obtain ⟨E3, hinv3, he⟩ := hstep (ks ++ 27 :: rest)
      rw [List.cons_append, he]
      exact (ih (promptBuf buf c) E3 hinv3 hrest).1
    · obtain ⟨E3, hinv3, he⟩ := hstep ks
      rw [he]
      exact (ih (promptBuf buf c) E3 hinv3 hrest).2

theorem overlayOf_idle {rows0 : List editorRow} {E : editorConf} (h : E.saved_hl_search = none)
    (hr : E.row = rows0) : overlayOf rows0 E := by
  unfold overlayOf
  rw [h]
  exact hr

theorem overlay_other_rows {rows0 : List editorRow} {E : editorConf} (ho : overlayOf rows0 E)
    (j : Nat) (hj : E.saved_hl_search = none ∨ (j : Int) ≠ E.saved_hl_line) :
    E.row[j]? = rows0[j]? := by
  unfold overlayOf at ho
  cases hs : E.saved_hl_search with
  | none =>
    rw [hs] at ho
    have hrow : E.row = rows0 := ho
    rw [hrow]
  | some saved =>
    rw [hs] at ho
    obtain ⟨k, row, off, len, hk, hline, hsaved, hle, hrow⟩ := ho
    rcases hj with h | h
    · rw [hs] at h
      exact absurd h (by simp)
    · rw [hrow, List.getElem?_set_ne]
      intro hkj
      exact h (by rw [hline, hkj])

/-- C24. Cancelling a search leaves no trace.  Take a state with a valid
cursor in which no search is under way (no copy of a highlight array is saved
and `last_match` is -1, as at program start and after every search), whose
highlight arrays have the length of the rendered rows, and key events `ks`
that do not end the prompt.  If Escape follows them, `editorFind` returns with
`cx`, `cy`, `row_off` and `col_off` as they were before the search and with the
rows, highlight arrays included, as they were; no copy is left saved.  While
the prompt waits for the key after `ks`, every row other than `saved_hl_line`
is as before the search, all rows are when no copy is saved, and the first step
of `editorFindCallback` gives back the rows of before the search. -/
theorem cancelled_search_leaves_no_trace (E : editorConf) (ks rest : List Int)
    (hv : cursorValid E) (hhl : ∀ row ∈ E.row, row.hl.length = row.render.length)
    (hidle : E.saved_hl_search = none) (hlm : E.last_match = -1)
    (hks : promptGoesOn [] ks = true) :
    (∃ E1, editorFind { E with input := ks ++ 27 :: rest } = .ret E1 ∧
      E1.cx = E.cx ∧ E1.cy = E.cy ∧ E1.row_off = E.row_off ∧ E1.col_off = E.col_off ∧
      E1.row = E.row ∧ E1.saved_hl_search = none ∧ E1.last_match = -1 ∧ E1.input = rest) ∧
    (∃ E2 E3, editorFind { E with input := ks } = .block E2 ∧
      (∀ j : Nat, E2.saved_hl_search = none ∨ (j : Int) ≠ E2.saved_hl_line →
        E2.row[j]? = E.row[j]?) ∧
      findRestore E2 = some E3 ∧ E3.row = E.row) := by
  have hinv : ∀ l : List Int, sessionInv E.row { E with input := l } :=
    fun l => ⟨overlayOf_idle hidle rfl, hv, Or.inl hlm⟩
  constructor
  · obtain ⟨E1, h, h1, h2, h3, h4⟩ :=
      (editorPromptLoop_session E.row hhl rest ks [] _ (hinv (ks ++ 27 :: rest)) hks).1
    have hp : editorPrompt { E with input := ks ++ 27 :: rest } (bytes "Search: ")
        (some editorFindCallback) = .ret (none, E1) := h
    refine ⟨{ E1 with cx := E.cx, cy := E.cy, col_off := E.col_off, row_off := E.row_off },
      ?_, rfl, rfl, rfl, rfl, h1, h2, h3, h4⟩
    unfold editorFind
    rw [hp]
    rfl
  · obtain ⟨E2, h, hinv2⟩ :=
      (editorPromptLoop_session E.row hhl [] ks [] _ (hinv ks) hks).2
    have hp : editorPrompt { E with input := ks } (bytes "Search: ")
        (some editorFindCallback) = .block E2 := h
    refine ⟨E2, _, ?_, overlay_other_rows hinv2.1, findRestore_overlay hhl hinv2.1, rfl⟩
    unfold editorFind
    rw [hp]
    rfl

theorem cancelled_search_witness :
    (∃ E1, editorFind { sampleDoc with input := [100] ++ 27 :: [] } = .ret E1 ∧
      E1.cx = 0 ∧ E1.cy = 0 ∧ E1.row_off = 0 ∧ E1.col_off = 0 ∧
      E1.row = sampleDoc.row ∧ E1.saved_hl_search = none ∧ E1.last_match = -1 ∧ E1.input = []) ∧
    (∃ E2, editorFind { sampleDoc with input := [100] } = .block E2 ∧ E2.cy = 1 ∧ E2.cx = 1 ∧
      E2.row.map editorRow.hl = [[HL_NORMAL, HL_NORMAL], [HL_NORMAL, HL_MATCH, HL_NORMAL]]) :=
  ⟨(cancelled_search_leaves_no_trace sampleDoc [100] [] (by decide) (by decide) rfl rfl rfl).1,
    _, rfl, rfl, rfl, rfl⟩

/-! ## Loading a file whose name does not end in `.c` (C3) -/

/-- The call `editorOpen` does not return for a file name whose text from the
last `.` on is not `.c`, whatever the file holds: the syntax selection it
starts with does not return. -/
theorem editorOpen_diverges (E : editorConf) (filename : List Nat) (file : Option (List Nat))
    (hext : strrchr (cstr filename) 46 ≠ some (bytes ".c")) :
    editorOpen E filename file
      = .diverge { E with filename := some (cstr filename), syn := none } := by
  unfold editorOpen
  rw [(editorSelectSyntaxHighlight_diverges { E with filename := some (cstr filename) }
    (cstr filename) rfl hext).1]
  rfl

/-- C3 (the code breaks the claim). A file named `README` or `notes.txt` is not
loaded, whatever it holds: `editorOpen` does not return, because the syntax
selection it calls first loops for ever on a name that does not end in `.c`,
and no row is there to serialise.  A file named `a.c` is loaded for every
content: one row per line with its trailing CR/LF bytes removed, and
`editorRowsToString` gives every row followed by one LF and the length of that
buffer; the content `ab LF LF cd LF` comes back byte for byte, and
`ab CR LF LF cd` comes back as `ab LF LF cd LF`. -/
theorem open_returns_only_for_dot_c :
    (∀ content, ∃ E1, editorOpen startState (bytes "README") (some content) = .diverge E1 ∧
      E1.row = []) ∧
    (∀ content, ∃ E1, editorOpen startState (bytes "notes.txt") (some content) = .diverge E1 ∧
      E1.row = []) ∧
    (∀ content, ∃ E1, editorOpen startState (bytes "a.c") (some content) = .ret E1 ∧
      E1.row.map (fun r => r.chars) = (getlines content []).map stripEol ∧
      (editorRowsToString E1).1
        = ((getlines content []).map (fun l => stripEol l ++ [10])).flatten ∧
      (editorRowsToString E1).2 = ((editorRowsToString E1).1.length : Int)) ∧
    (∃ E1, editorOpen startState (bytes "a.c") (some (bytes "ab\n\ncd\n")) = .ret E1 ∧
      (editorRowsToString E1).1 = bytes "ab\n\ncd\n" ∧ (editorRowsToString E1).2 = 7) ∧
    (∃ E1, editorOpen startState (bytes "a.c") (some (bytes "ab\r\n\ncd")) = .ret E1 ∧
      E1.row.map (fun r => r.chars) = [[97, 98], [], [99, 100]] ∧
      (editorRowsToString E1).1 = bytes "ab\n\ncd\n" ∧ (editorRowsToString E1).2 = 7) :=
  ⟨fun content => ⟨_, editorOpen_diverges startState (bytes "README") (some content)
      (by decide), rfl⟩,
    fun content => ⟨_, editorOpen_diverges startState (bytes "notes.txt") (some content)
      (by decide), rfl⟩,
    fun content =>
      (editorOpen_rows_to_string startState _ (bytes "a.c") content rfl rfl).imp
        fun _ h => ⟨h.1, h.2.1, h.2.2.2.1, h.2.2.2.2.2.1⟩,
    ⟨_, rfl, by decide, by decide⟩, ⟨_, rfl, by decide, by decide, by decide⟩⟩

end Zor
